import Mathlib

/-!
Verification development for `vmess_vless_full_pipeline.py`.

The Python program is shallowly embedded: Python values that can occur in a
descriptor record are modelled by `PyVal`, Python dicts (which preserve
insertion order) by ordered association lists `PyDict`, raising code by
`Except PyErr`, and the relevant pieces of the Python standard library
(`json`, `base64`, `urllib.parse`, `str` methods) by executable Lean
functions translated from their documented/CPython behaviour as exercised by
the program.  Python `float` objects are modelled by exact rationals; their
`repr` is only reproduced for values with a terminating decimal expansion,
which covers every float the pipeline can meet in the claims.
-/

mutual
/-- A Python runtime value as it can appear in this program: strings, ints,
floats, bools, `None`, lists and (JSON-nested) dicts.  Lists and nested
dicts are mutual inductives (rather than `List` payloads) so that equality
and the serializers are structurally recursive and computable in the
kernel. -/
inductive PyVal where
  | str (s : String)
  | int (n : Int)
  | float (q : Rat)
  | bool (b : Bool)
  | none
  | list (xs : PyList)
  | dict (xs : PyPairs)
  deriving DecidableEq, Repr

/-- A list of Python values. -/
inductive PyList where
  | nil
  | cons (v : PyVal) (tl : PyList)
  deriving DecidableEq, Repr

/-- The entries of a (nested) Python dict with string keys, in insertion
order. -/
inductive PyPairs where
  | nil
  | cons (k : String) (v : PyVal) (tl : PyPairs)
  deriving DecidableEq, Repr
end

/-- An insertion-ordered Python dict with string keys (the record shape used
throughout the pipeline). -/
abbrev PyDict := List (String × PyVal)

/-- Build a `PyList` from a `List`. -/
def PyList.ofList : List PyVal → PyList
  | [] => PyList.nil
  | v :: tl => PyList.cons v (PyList.ofList tl)

/-- Flatten a `PyList` to a `List`. -/
def PyList.toList : PyList → List PyVal
  | PyList.nil => []
  | PyList.cons v tl => v :: PyList.toList tl

/-- Build `PyPairs` from an association list. -/
def PyPairs.ofList : PyDict → PyPairs
  | [] => PyPairs.nil
  | (k, v) :: tl => PyPairs.cons k v (PyPairs.ofList tl)

/-- Flatten `PyPairs` to an association list. -/
def PyPairs.toList : PyPairs → PyDict
  | PyPairs.nil => []
  | PyPairs.cons k v tl => (k, v) :: PyPairs.toList tl

/-- `d[k]` lookup returning the first (in a real dict: only) binding of `k`. -/
def dlookup : PyDict → String → Option PyVal
  | [], _ => Option.none
  | e :: tl, k => if e.1 = k then Option.some e.2 else dlookup tl k

/-- Python `k in d`. -/
def dcontains (d : PyDict) (k : String) : Bool :=
  (dlookup d k).isSome

/-- Python `d.get(k, dflt)`. -/
def dget (d : PyDict) (k : String) (dflt : PyVal) : PyVal :=
  (dlookup d k).getD dflt

/-- Python `d[k] = v`: update the existing binding in place (keeping its
position) or append a fresh one. -/
def dset : PyDict → String → PyVal → PyDict
  | [], k, v => [(k, v)]
  | e :: tl, k, v => if e.1 = k then (k, v) :: tl else e :: dset tl k v

/-- Python exception classes observed by the program. -/
inductive PyErr where
  | keyError (k : String)
  | valueError (msg : String)
  | typeError (msg : String)
deriving DecidableEq, Repr

instance {ε α : Type} [DecidableEq ε] [DecidableEq α] : DecidableEq (Except ε α) := fun a b =>
  match a, b with
  | Except.ok x, Except.ok y =>
    if h : x = y then isTrue (by rw [h])
    else isFalse (by intro hh; injection hh; contradiction)
  | Except.error x, Except.error y =>
    if h : x = y then isTrue (by rw [h])
    else isFalse (by intro hh; injection hh; contradiction)
  | Except.ok _, Except.error _ => isFalse (by intro hh; exact Except.noConfusion hh)
  | Except.error _, Except.ok _ => isFalse (by intro hh; exact Except.noConfusion hh)

/-- Python `d[k]` on a dict, raising `KeyError` when absent. -/
def getItemD (d : PyDict) (k : String) : Except PyErr PyVal :=
  match dlookup d k with
  | Option.some v => Except.ok v
  | Option.none => Except.error (PyErr.keyError k)

/-- Characters stripped by Python `str.strip()` with no argument
(ASCII whitespace; the rare non-ASCII whitespace is not modelled). -/
def pySpace (c : Char) : Bool :=
  c = ' ' || c = '\t' || c = '\n' || c = '\r' || c = '\x0b' || c = '\x0c'

/-- Drop leading characters satisfying `p`. -/
def dropLeading (p : Char → Bool) : List Char → List Char
  | [] => []
  | c :: tl => if p c then dropLeading p tl else c :: tl

/-- Strip characters satisfying `p` from both ends of a char list. -/
def stripBoth (p : Char → Bool) (l : List Char) : List Char :=
  ((dropLeading p (dropLeading p l.reverse).reverse))

/-- Python `s.strip()`. -/
def pyStrip (s : String) : String :=
  ⟨stripBoth pySpace s.data⟩

/-- ASCII lowercasing of one character (Python `str.lower` restricted to the
ASCII range actually exercised by the program). -/
def asciiLower (c : Char) : Char :=
  if 'A' ≤ c ∧ c ≤ 'Z' then Char.ofNat (c.toNat + 32) else c

/-- Python `s.lower()` (ASCII range). -/
def pyLower (s : String) : String :=
  ⟨s.data.map asciiLower⟩

/-- Decimal digit character for `n < 10`. -/
def digitChar10 (n : Nat) : Char := Char.ofNat (48 + n)

/-- Fuel-driven digit expansion (any `fuel > 0` with `fuel > n` works; the
fuel only bounds the recursion depth of repeated division by 10). -/
def natReprFuel : Nat → Nat → List Char
  | 0, _ => []
  | fuel + 1, n =>
    if n < 10 then [digitChar10 n]
    else natReprFuel fuel (n / 10) ++ [digitChar10 (n % 10)]

/-- Decimal digits of a natural number, most significant first
(the digits of Python `str(n)` for `n ≥ 0`). -/
def natReprL (n : Nat) : List Char :=
  natReprFuel (n + 1) n

/-- Python `str(n)` for an int. -/
def intReprL (n : Int) : List Char :=
  if n < 0 then '-' :: natReprL ((-n).toNat) else natReprL n.toNat

/-- Fuel-driven multiplicity of a factor `p` in `n` (for float repr). -/
def factorCountFuel (p : Nat) : Nat → Nat → Nat
  | 0, _ => 0
  | fuel + 1, n =>
    if 1 < p ∧ 1 < n ∧ n % p = 0 then factorCountFuel p fuel (n / p) + 1 else 0

/-- Multiplicity of a prime factor `p` in `n` (for float repr). -/
def factorCount (p : Nat) (n : Nat) : Nat :=
  factorCountFuel p (n + 1) n

/-- Python `repr` of a float whose value has a terminating decimal expansion
(every such float prints its shortest exact decimal, always keeping at least
one fractional digit).  Dyadic rationals are the only values genuine Python
floats take, and the ones the program can meet all have short exact decimals;
other rationals get a placeholder. -/
def floatRepr (q : Rat) : List Char :=
  let den := q.den
  let a := factorCount 2 den
  let b := factorCount 5 den
  if den = 2 ^ a * 5 ^ b then
    let k := max a b
    let scaled : Int := q.num * (10 ^ k / den)
    let digits := natReprL scaled.natAbs
    let sign : List Char := if q.num < 0 then ['-'] else []
    let padded := List.replicate (k + 1 - digits.length) '0' ++ digits
    let ipart := padded.take (padded.length - k)
    let fpart := padded.drop (padded.length - k)
    sign ++ ipart ++ ['.'] ++ (if fpart = [] then ['0'] else fpart)
  else
    intReprL q.num ++ ['/'] ++ natReprL q.den

/-- Python `repr` of a string: quote (single quotes, or double quotes when the
text has a single quote but no double quote) and escape. -/
def pyReprStr (s : String) : String :=
  let hasSingle := s.data.any (· = '\'')
  let hasDouble := s.data.any (· = '"')
  let q : Char := if hasSingle ∧ ¬hasDouble then '"' else '\''
  let esc : Char → List Char := fun c =>
    if c = '\\' then ['\\', '\\']
    else if c = q then ['\\', q]
    else if c = '\n' then ['\\', 'n']
    else if c = '\r' then ['\\', 'r']
    else if c = '\t' then ['\\', 't']
    else if c.toNat < 32 ∨ c.toNat = 127 then
      '\\' :: 'x' :: [digitChar10 (c.toNat / 16), digitChar10 (c.toNat % 16)]
    else [c]
  ⟨q :: (s.data.map esc).flatten ++ [q]⟩

mutual
/-- Python `str(v)`. -/
def pyStr : PyVal → String
  | .str s => s
  | .int n => ⟨intReprL n⟩
  | .float q => ⟨floatRepr q⟩
  | .bool b => if b then "True" else "False"
  | .none => "None"
  | .list xs => "[" ++ pyReprL xs ++ "]"
  | .dict xs => "\x7b" ++ pyReprP xs ++ "\x7d"

/-- Python `repr(v)`: like `str` but strings are quoted (the container
arms repeat `str`'s body so the mutual recursion stays structural). -/
def pyRepr : PyVal → String
  | .str s => pyReprStr s
  | .int n => ⟨intReprL n⟩
  | .float q => ⟨floatRepr q⟩
  | .bool b => if b then "True" else "False"
  | .none => "None"
  | .list xs => "[" ++ pyReprL xs ++ "]"
  | .dict xs => "\x7b" ++ pyReprP xs ++ "\x7d"

def pyReprL : PyList → String
  | PyList.nil => ""
  | PyList.cons x PyList.nil => pyRepr x
  | PyList.cons x xs => pyRepr x ++ ", " ++ pyReprL xs

def pyReprP : PyPairs → String
  | PyPairs.nil => ""
  | PyPairs.cons k v PyPairs.nil => pyReprStr k ++ ": " ++ pyRepr v
  | PyPairs.cons k v xs => pyReprStr k ++ ": " ++ pyRepr v ++ ", " ++ pyReprP xs
end

/-- `truthy_to_int` from the source: total coercion of boolean-ish values to
`0`/`1` (bool, number, trimmed lowercased string against a fixed set, and `0`
for everything else). -/
def truthy_to_int : PyVal → Int
  | .bool b => if b then 1 else 0
  | .int n => if n ≠ 0 then 1 else 0
  | .float q => if q ≠ 0 then 1 else 0
  | .str v =>
    if pyLower (pyStrip v) ∈ ["1", "true", "yes", "y", "on"] then 1 else 0
  | _ => 0

/-- Python truthiness of a value (used by `if config[key]` style tests). -/
def pyTruthy : PyVal → Bool
  | .bool b => b
  | .int n => n ≠ 0
  | .float q => q ≠ 0
  | .str s => s ≠ ""
  | .none => false
  | .list PyList.nil => false
  | .list (PyList.cons _ _) => true
  | .dict PyPairs.nil => false
  | .dict (PyPairs.cons _ _ _) => true

/-- Does `l` start with `pat`? (Python `s.startswith(pat)` on char lists.) -/
def listStartsWith : List Char → List Char → Bool
  | [], _ => true
  | _ :: _, [] => false
  | p :: ps, c :: cs => p = c && listStartsWith ps cs

/-- Python `s.startswith(pat)`. -/
def strStartsWith (s pat : String) : Bool :=
  listStartsWith pat.data s.data

/-- Python `s.endswith(pat)`. -/
def strEndsWith (s pat : String) : Bool :=
  listStartsWith pat.data.reverse s.data.reverse

/-- Python `s[n:]`. -/
def strDrop (s : String) (n : Nat) : String :=
  ⟨s.data.drop n⟩

/-- Python `s.partition(c)` for a one-char separator: split at the first
occurrence; the `Bool` records whether the separator was found. -/
def partitionChar (c : Char) : List Char → List Char × Bool × List Char
  | [] => ([], false, [])
  | x :: tl =>
    if x = c then ([], true, tl)
    else
      let r := partitionChar c tl
      (x :: r.1, r.2.1, r.2.2)

/-- Python `s.rpartition(c)` for a one-char separator: split at the last
occurrence. -/
def rpartitionChar (c : Char) (l : List Char) : List Char × Bool × List Char :=
  let r := partitionChar c l.reverse
  (r.2.2.reverse, r.2.1, r.1.reverse)

/-- Python `s.split(c)` for a one-char separator (`"".split(c) = [""]`). -/
def splitOnChar (c : Char) : List Char → List (List Char)
  | [] => [[]]
  | x :: tl =>
    let r := splitOnChar c tl
    if x = c then [] :: r
    else (x :: r.headD []) :: r.tail

/-- Take the longest head segment whose characters avoid `stops`
(used by `urlsplit` to delimit the netloc). -/
def takeUntilAnyOf (stops : List Char) : List Char → List Char
  | [] => []
  | c :: tl => if c ∈ stops then [] else c :: takeUntilAnyOf stops tl

/-- Remainder after `takeUntilAnyOf`. -/
def dropUntilAnyOf (stops : List Char) : List Char → List Char
  | [] => []
  | c :: tl => if c ∈ stops then c :: tl else dropUntilAnyOf stops tl

/-- Does `hay` contain `needle` as a contiguous substring?
(Python `needle in hay` on strings; the empty needle always matches.) -/
def hasSubstr (needle : List Char) : List Char → Bool
  | [] => needle.isEmpty
  | c :: tl => listStartsWith needle (c :: tl) || hasSubstr needle tl

/-- Python `s.replace(pat, rep)` for nonempty `pat`: replace every
non-overlapping occurrence left to right (fuel-driven recursion). -/
def replaceAllL (pat rep : List Char) : Nat → List Char → List Char
  | _, [] => []
  | 0, l => l
  | fuel + 1, c :: tl =>
    if listStartsWith pat (c :: tl) ∧ pat ≠ [] then
      rep ++ replaceAllL pat rep fuel ((c :: tl).drop pat.length)
    else
      c :: replaceAllL pat rep fuel tl

/-- Python `s.replace(pat, rep)` (for the nonempty patterns the program uses). -/
def strReplace (s pat rep : String) : String :=
  ⟨replaceAllL pat.data rep.data s.data.length s.data⟩

/-- Value of a decimal digit character, if it is one. -/
def digitVal? (c : Char) : Option Nat :=
  if '0' ≤ c ∧ c ≤ '9' then Option.some (c.toNat - 48) else Option.none

/-- Is `c` a decimal digit? -/
def isDigitC (c : Char) : Bool := '0' ≤ c && c ≤ '9'

/-- Numeric value of a digit string (most significant first). -/
def digitsVal (l : List Char) : Nat :=
  l.foldl (fun acc c => acc * 10 + ((digitVal? c).getD 0)) 0

/-- Python `int(s, 10)`: strip whitespace, optional sign, decimal digits with
single underscores allowed between digits. -/
def pyIntOfString? (s : String) : Option Int :=
  let t := stripBoth pySpace s.data
  let sign : Int := if t.head? = Option.some '-' then -1 else 1
  let body : List Char :=
    if t.head? = Option.some '-' then t.tail
    else if t.head? = Option.some '+' then t.tail
    else t
  let ok :=
    body ≠ [] ∧
    body.all (fun c => isDigitC c ∨ c = '_') ∧
    body.head? ≠ Option.some '_' ∧
    body.getLast? ≠ Option.some '_' ∧
    ¬ hasSubstr ['_', '_'] body
  if ok then Option.some (sign * (digitsVal (body.filter isDigitC) : Int))
  else Option.none

/-- Value of a hexadecimal digit character, if it is one. -/
def hexVal? (c : Char) : Option Nat :=
  if '0' ≤ c ∧ c ≤ '9' then Option.some (c.toNat - 48)
  else if 'a' ≤ c ∧ c ≤ 'f' then Option.some (c.toNat - 97 + 10)
  else if 'A' ≤ c ∧ c ≤ 'F' then Option.some (c.toNat - 65 + 10)
  else Option.none

/-- Uppercase hexadecimal digit for `n < 16` (percent-encoding). -/
def hexUpper (n : Nat) : Char :=
  if n < 10 then Char.ofNat (48 + n) else Char.ofNat (65 + n - 10)

/-- UTF-8 encoding of one character. -/
def utf8EncodeChar (c : Char) : List Nat :=
  let v := c.toNat
  if v < 0x80 then [v]
  else if v < 0x800 then [0xC0 + v / 64, 0x80 + v % 64]
  else if v < 0x10000 then [0xE0 + v / 4096, 0x80 + (v / 64) % 64, 0x80 + v % 64]
  else [0xF0 + v / 262144, 0x80 + (v / 4096) % 64, 0x80 + (v / 64) % 64, 0x80 + v % 64]

/-- Python `s.encode("utf-8")` as a byte list. -/
def utf8Encode (s : String) : List Nat :=
  (s.data.map utf8EncodeChar).flatten

/-- Is `b` a UTF-8 continuation byte? -/
def isCont (b : Nat) : Bool := 0x80 ≤ b && b ≤ 0xBF

/-- Decode the first UTF-8 scalar of a byte list (strict checks as in
`utf8DecodeStrict`), returning it and the remaining bytes. -/
def utf8FirstChar : List Nat → Option (Char × List Nat)
  | [] => Option.none
  | b1 :: tl =>
    if b1 < 0x80 then Option.some (Char.ofNat b1, tl)
    else if 0xC2 ≤ b1 ∧ b1 ≤ 0xDF then
      match tl with
      | b2 :: tl2 =>
        if isCont b2 then Option.some (Char.ofNat ((b1 - 0xC0) * 64 + (b2 - 0x80)), tl2)
        else Option.none
      | _ => Option.none
    else if 0xE0 ≤ b1 ∧ b1 ≤ 0xEF then
      match tl with
      | b2 :: b3 :: tl2 =>
        if isCont b2 ∧ isCont b3 ∧
            (b1 ≠ 0xE0 ∨ 0xA0 ≤ b2) ∧ (b1 ≠ 0xED ∨ b2 ≤ 0x9F) then
          Option.some (Char.ofNat ((b1 - 0xE0) * 4096 + (b2 - 0x80) * 64 + (b3 - 0x80)), tl2)
        else Option.none
      | _ => Option.none
    else if 0xF0 ≤ b1 ∧ b1 ≤ 0xF4 then
      match tl with
      | b2 :: b3 :: b4 :: tl2 =>
        if isCont b2 ∧ isCont b3 ∧ isCont b4 ∧
            (b1 ≠ 0xF0 ∨ 0x90 ≤ b2) ∧ (b1 ≠ 0xF4 ∨ b2 ≤ 0x8F) then
          Option.some (Char.ofNat ((b1 - 0xF0) * 262144 + (b2 - 0x80) * 4096 +
            (b3 - 0x80) * 64 + (b4 - 0x80)), tl2)
        else Option.none
      | _ => Option.none
    else Option.none

/-- Fuel-driven strict UTF-8 decoding loop (any fuel at least the byte count
works: every scalar consumes at least one byte). -/
def utf8DecodeFuel : Nat → List Nat → Option (List Char)
  | _, [] => Option.some []
  | 0, _ :: _ => Option.none
  | fuel + 1, b1 :: tl =>
    match utf8FirstChar (b1 :: tl) with
    | Option.some (c, rest) => (utf8DecodeFuel fuel rest).map (fun r => c :: r)
    | Option.none => Option.none

/-- Strict UTF-8 decoding (Python `bytes.decode("utf-8")`), rejecting
malformed, overlong and surrogate sequences. -/
def utf8DecodeStrict (l : List Nat) : Option (List Char) :=
  utf8DecodeFuel l.length l

/-- The Unicode replacement character U+FFFD. -/
def repChar : Char := Char.ofNat 0xFFFD

/-- Fuel-driven loop for UTF-8 decoding with `errors="replace"`: a defective
prefix yields one U+FFFD and scanning resumes one byte later (Python may skip
a whole defective run at once; this only differs on inputs no claim touches). -/
def utf8ReplLoop : Nat → List Nat → List Char
  | 0, _ => []
  | _, [] => []
  | fuel + 1, b :: tl =>
    match utf8FirstChar (b :: tl) with
    | Option.some (c, rest) => c :: utf8ReplLoop fuel rest
    | Option.none => repChar :: utf8ReplLoop fuel tl

/-- UTF-8 decoding with `errors="replace"`. -/
def utf8DecodeReplace (l : List Nat) : List Char :=
  utf8ReplLoop l.length l

/-- The standard base64 alphabet. -/
def b64chars : List Char :=
  "ABCDEFGHIJKLMNOPQRSTUVWXYZabcdefghijklmnopqrstuvwxyz0123456789+/".data

/-- Character for a 6-bit group. -/
def b64char (n : Nat) : Char := b64chars.getD n 'A'

/-- Index of `c` in `l`, counting from `i`. -/
def idxFrom : List Char → Char → Nat → Option Nat
  | [], _, _ => Option.none
  | x :: tl, c, i => if x = c then Option.some i else idxFrom tl c (i + 1)

/-- 6-bit value of a base64 alphabet character, if any. -/
def b64val? (c : Char) : Option Nat :=
  idxFrom b64chars c 0

/-- `base64.b64encode` on a byte list (standard alphabet, `=`-padded). -/
def b64encodeBytes : List Nat → List Char
  | [] => []
  | [a] => [b64char (a / 4), b64char (a % 4 * 16), '=', '=']
  | [a, b] => [b64char (a / 4), b64char (a % 4 * 16 + b / 16), b64char (b % 16 * 4), '=']
  | a :: b :: c :: rest =>
    b64char (a / 4) :: b64char (a % 4 * 16 + b / 16) ::
      b64char (b % 16 * 4 + c / 64) :: b64char (c % 64) :: b64encodeBytes rest

/-- Decode a cleaned (alphabet/`=` only) base64 text in 4-character groups,
`=` allowed only as final-group padding. -/
def b64decodeGroups : List Char → Option (List Nat)
  | [] => Option.some []
  | c1 :: c2 :: c3 :: c4 :: rest =>
    match b64val? c1, b64val? c2 with
    | Option.some k1, Option.some k2 =>
      if c3 = '=' ∧ c4 = '=' ∧ rest = [] then Option.some [k1 * 4 + k2 / 16]
      else
        match b64val? c3 with
        | Option.some k3 =>
          if c4 = '=' ∧ rest = [] then Option.some [k1 * 4 + k2 / 16, k2 % 16 * 16 + k3 / 4]
          else
            match b64val? c4 with
            | Option.some k4 =>
              (b64decodeGroups rest).map
                (fun r => (k1 * 4 + k2 / 16) :: (k2 % 16 * 16 + k3 / 4) :: (k3 % 4 * 64 + k4) :: r)
            | Option.none => Option.none
        | Option.none => Option.none
    | _, _ => Option.none
  | _ => Option.none

/-- `base64.b64decode` with `validate=False`: characters outside the alphabet
and `=` are discarded, then the remainder must decode in groups of 4. -/
def b64decodePy (l : List Char) : Option (List Nat) :=
  let cleaned := l.filter (fun c => (b64val? c).isSome || c = '=')
  if cleaned.length % 4 = 0 then b64decodeGroups cleaned else Option.none

/-- Bytes kept verbatim by `urllib.parse.quote` with `safe=''`:
ASCII alphanumerics and `_.-~`. -/
def quoteSafeByte (b : Nat) : Bool :=
  (48 ≤ b && b ≤ 57) || (65 ≤ b && b ≤ 90) || (97 ≤ b && b ≤ 122) ||
    b = 95 || b = 46 || b = 45 || b = 126

/-- `urllib.parse.quote_plus(s, safe='')`: UTF-8 encode, keep safe bytes,
turn spaces into `+`, percent-encode the rest with uppercase hex. -/
def quote_plus (s : String) : String :=
  ⟨(utf8Encode s).map (fun b =>
      if quoteSafeByte b then [Char.ofNat b]
      else if b = 32 then ['+']
      else ['%', hexUpper (b / 16), hexUpper (b % 16)]) |>.flatten⟩

/-- Collect a maximal run of valid `%XX` escapes into bytes, returning the
bytes and the unconsumed remainder. -/
def collectPct : Nat → List Char → List Nat × List Char
  | 0, l => ([], l)
  | fuel + 1, '%' :: d1 :: d2 :: r2 =>
    match hexVal? d1, hexVal? d2 with
    | Option.some g1, Option.some g2 =>
      let t := collectPct fuel r2
      ((g1 * 16 + g2) :: t.1, t.2)
    | _, _ => ([], '%' :: d1 :: d2 :: r2)
  | _, l => ([], l)

/-- Percent-decoding scan: turn maximal runs of valid `%XX` escapes into byte
runs decoded as UTF-8 with replacement, leave other text (and stray `%`)
as-is. -/
def unquoteScan : Nat → List Char → List Char
  | _, [] => []
  | 0, l => l
  | fuel + 1, '%' :: c1 :: c2 :: rest =>
    match hexVal? c1, hexVal? c2 with
    | Option.some h1, Option.some h2 =>
      let t := collectPct fuel rest
      utf8DecodeReplace ((h1 * 16 + h2) :: t.1) ++ unquoteScan fuel t.2
    | _, _ => '%' :: unquoteScan fuel (c1 :: c2 :: rest)
  | fuel + 1, c :: rest => c :: unquoteScan fuel rest

/-- `urllib.parse.unquote_plus`: `+` becomes space, then percent-escapes are
decoded (UTF-8, `errors="replace"`). -/
def unquote_plus (s : String) : String :=
  let plused := s.data.map (fun c => if c = '+' then ' ' else c)
  ⟨unquoteScan plused.length plused⟩

/-- Lowercase hexadecimal digit for `n < 16` (JSON `\uXXXX` escapes). -/
def hexLower (n : Nat) : Char :=
  if n < 10 then Char.ofNat (48 + n) else Char.ofNat (97 + n - 10)

/-- JSON escaping of one character as `json.dumps` does with
`ensure_ascii=False`: only the quote, backslash and control characters are
escaped. -/
def jsonEscChar (c : Char) : List Char :=
  if c = '"' then ['\\', '"']
  else if c = '\\' then ['\\', '\\']
  else if c = '\n' then ['\\', 'n']
  else if c = '\r' then ['\\', 'r']
  else if c = '\t' then ['\\', 't']
  else if c = Char.ofNat 8 then ['\\', 'b']
  else if c = Char.ofNat 12 then ['\\', 'f']
  else if c.toNat < 32 then ['\\', 'u', '0', '0', hexLower (c.toNat / 16), hexLower (c.toNat % 16)]
  else [c]

/-- A JSON string literal for `l` (quotes plus escaped content). -/
def jsonQuoteL (l : List Char) : List Char :=
  '"' :: (l.map jsonEscChar).flatten ++ ['"']

mutual
/-- `json.dumps(v, ensure_ascii=False, separators=(",", ":"))` as a char
list. -/
def jdumpV : PyVal → List Char
  | .str s => jsonQuoteL s.data
  | .int n => intReprL n
  | .float q => floatRepr q
  | .bool b => if b then "true".data else "false".data
  | .none => "null".data
  | .list xs => '[' :: jdumpL xs ++ [']']
  | .dict xs => '\x7b' :: jdumpP xs ++ ['\x7d']

def jdumpL : PyList → List Char
  | PyList.nil => []
  | PyList.cons x PyList.nil => jdumpV x
  | PyList.cons x xs => jdumpV x ++ ',' :: jdumpL xs

def jdumpP : PyPairs → List Char
  | PyPairs.nil => []
  | PyPairs.cons k v PyPairs.nil => jsonQuoteL k.data ++ ':' :: jdumpV v
  | PyPairs.cons k v xs => jsonQuoteL k.data ++ ':' :: jdumpV v ++ ',' :: jdumpP xs
end

/-- `json.dumps(d, ensure_ascii=False, separators=(",", ":"))` on a dict. -/
def json_dumps (d : PyDict) : String :=
  ⟨jdumpV (PyVal.dict (PyPairs.ofList d))⟩

/-- JSON whitespace. -/
def jWs (c : Char) : Bool := c = ' ' || c = '\t' || c = '\n' || c = '\r'

/-- Skip JSON whitespace. -/
def jskip (l : List Char) : List Char := dropLeading jWs l

/-- Parse the body of a JSON string literal after the opening quote,
returning the decoded characters and the input after the closing quote.
Strict mode: raw control characters are rejected; `\uXXXX` escapes are
decoded, with surrogate pairs combined (Python would tolerate lone
surrogates inside strings; such strings cannot be represented here and are
rejected — no input of this development contains them). -/
def jparseStrBody : Nat → List Char → Except PyErr (List Char × List Char)
  | _, '"' :: rest => Except.ok ([], rest)
  | 0, _ => Except.error (PyErr.valueError "Unterminated string")
  | fuel + 1, '\\' :: rest =>
    match rest with
    | 'u' :: h1 :: h2 :: h3 :: h4 :: r2 =>
      match hexVal? h1, hexVal? h2, hexVal? h3, hexVal? h4 with
      | Option.some a, Option.some b, Option.some c, Option.some d =>
        let code := ((a * 16 + b) * 16 + c) * 16 + d
        if 0xD800 ≤ code ∧ code ≤ 0xDBFF then
          match r2 with
          | '\\' :: 'u' :: g1 :: g2 :: g3 :: g4 :: r3 =>
            match hexVal? g1, hexVal? g2, hexVal? g3, hexVal? g4 with
            | Option.some a2, Option.some b2, Option.some c2, Option.some d2 =>
              let code2 := ((a2 * 16 + b2) * 16 + c2) * 16 + d2
              if 0xDC00 ≤ code2 ∧ code2 ≤ 0xDFFF then
                (jparseStrBody fuel r3).map
                  (fun p => (Char.ofNat (0x10000 + (code - 0xD800) * 1024 + (code2 - 0xDC00)) :: p.1, p.2))
              else Except.error (PyErr.valueError "Unpaired surrogate")
            | _, _, _, _ => Except.error (PyErr.valueError "Invalid \\uXXXX escape")
          | _ => Except.error (PyErr.valueError "Unpaired surrogate")
        else if 0xDC00 ≤ code ∧ code ≤ 0xDFFF then
          Except.error (PyErr.valueError "Unpaired surrogate")
        else
          (jparseStrBody fuel r2).map (fun p => (Char.ofNat code :: p.1, p.2))
      | _, _, _, _ => Except.error (PyErr.valueError "Invalid \\uXXXX escape")
    | '"' :: r2 => (jparseStrBody fuel r2).map (fun p => ('"' :: p.1, p.2))
    | '\\' :: r2 => (jparseStrBody fuel r2).map (fun p => ('\\' :: p.1, p.2))
    | '/' :: r2 => (jparseStrBody fuel r2).map (fun p => ('/' :: p.1, p.2))
    | 'b' :: r2 => (jparseStrBody fuel r2).map (fun p => (Char.ofNat 8 :: p.1, p.2))
    | 'f' :: r2 => (jparseStrBody fuel r2).map (fun p => (Char.ofNat 12 :: p.1, p.2))
    | 'n' :: r2 => (jparseStrBody fuel r2).map (fun p => ('\n' :: p.1, p.2))
    | 'r' :: r2 => (jparseStrBody fuel r2).map (fun p => ('\r' :: p.1, p.2))
    | 't' :: r2 => (jparseStrBody fuel r2).map (fun p => ('\t' :: p.1, p.2))
    | _ => Except.error (PyErr.valueError "Invalid \\escape")
  | fuel + 1, c :: rest =>
    if c.toNat < 32 then Except.error (PyErr.valueError "Invalid control character")
    else (jparseStrBody fuel rest).map (fun p => (c :: p.1, p.2))
  | _, [] => Except.error (PyErr.valueError "Unterminated string")

/-- Split off a maximal run of decimal digits. -/
def spanDigits (l : List Char) : List Char × List Char :=
  (l.takeWhile isDigitC, l.dropWhile isDigitC)

/-- Parse a JSON number at the head of the input, per the JSON grammar
(`-?(0|[1-9][0-9]*)(\.[0-9]+)?([eE][-+]?[0-9]+)?`).  An integer literal
yields a Python int; a fractional part or exponent yields a float (modelled
as the exact rational; Python rounds to binary). -/
def jparseNumber (l : List Char) : Except PyErr (PyVal × List Char) :=
  let signed := match l with
    | '-' :: tl => (true, tl)
    | _ => (false, l)
  let neg := signed.1
  match signed.2 with
  | c :: tl =>
    if hip : isDigitC c then
      let ipr : List Char × List Char :=
        if c = '0' then (['0'], tl)
        else let s := spanDigits tl; (c :: s.1, s.2)
      let ipart := ipr.1
      let frr : List Char × List Char :=
        match ipr.2 with
        | '.' :: r2 =>
          let s := spanDigits r2
          if s.1 = [] then ([], ipr.2) else (s.1, s.2)
        | _ => ([], ipr.2)
      let fpart := frr.1
      let exr : Option (Int × List Char) :=
        match frr.2 with
        | e :: r3 =>
          if e = 'e' ∨ e = 'E' then
            let esigned : Bool × List Char := match r3 with
              | '-' :: r4 => (true, r4)
              | '+' :: r4 => (false, r4)
              | _ => (false, r3)
            let s := spanDigits esigned.2
            if s.1 = [] then Option.none
            else Option.some ((if esigned.1 then -(digitsVal s.1 : Int) else (digitsVal s.1 : Int)), s.2)
          else Option.none
        | _ => Option.none
      if fpart = [] ∧ exr = Option.none then
        let v : Int := if neg then -(digitsVal ipart : Int) else (digitsVal ipart : Int)
        Except.ok (PyVal.int v, frr.2)
      else
        let mant : Int := (digitsVal (ipart ++ fpart) : Int)
        let mant := if neg then -mant else mant
        let e : Int := (exr.map Prod.fst).getD 0 - fpart.length
        let q : Rat := (mant : Rat) * (10 : Rat) ^ e
        Except.ok (PyVal.float q, (exr.map Prod.snd).getD frr.2)
    else Except.error (PyErr.valueError "Expecting value")
  | [] => Except.error (PyErr.valueError "Expecting value")

mutual
/-- Parse one JSON value at the head of the input (whitespace already
skipped).  Python's optional `NaN`/`Infinity` constants have no exact
rational value and are rejected; they never occur in this pipeline. -/
def jparseV : Nat → List Char → Except PyErr (PyVal × List Char)
  | 0, _ => Except.error (PyErr.valueError "Expecting value")
  | fuel + 1, l =>
    match l with
    | '"' :: rest =>
      (jparseStrBody (rest.length + 1) rest).map (fun p => (PyVal.str ⟨p.1⟩, p.2))
    | '\x7b' :: rest => jparseObj fuel (jskip rest)
    | '[' :: rest => jparseArr fuel (jskip rest)
    | 't' :: rest =>
      if listStartsWith "rue".data rest then Except.ok (PyVal.bool true, rest.drop 3)
      else Except.error (PyErr.valueError "Expecting value")
    | 'f' :: rest =>
      if listStartsWith "alse".data rest then Except.ok (PyVal.bool false, rest.drop 4)
      else Except.error (PyErr.valueError "Expecting value")
    | 'n' :: rest =>
      if listStartsWith "ull".data rest then Except.ok (PyVal.none, rest.drop 3)
      else Except.error (PyErr.valueError "Expecting value")
    | c :: rest =>
      if c = '-' ∨ isDigitC c then jparseNumber (c :: rest)
      else Except.error (PyErr.valueError "Expecting value")
    | [] => Except.error (PyErr.valueError "Expecting value")

/-- Parse a JSON object after the opening brace (whitespace skipped). -/
def jparseObj : Nat → List Char → Except PyErr (PyVal × List Char)
  | _, '\x7d' :: rest => Except.ok (PyVal.dict PyPairs.nil, rest)
  | 0, _ => Except.error (PyErr.valueError "Expecting property name")
  | fuel + 1, l => jparseMembers fuel l []

/-- Parse the members of a JSON object (at a property name), accumulating
into a dict with Python `d[k] = v` semantics (duplicate keys keep the first
position, last value). -/
def jparseMembers : Nat → List Char → PyDict → Except PyErr (PyVal × List Char)
  | 0, _, _ => Except.error (PyErr.valueError "Expecting property name")
  | fuel + 1, l, acc =>
    match l with
    | '"' :: rest =>
      match jparseStrBody (rest.length + 1) rest with
      | Except.error e => Except.error e
      | Except.ok (k, r1) =>
        match jskip r1 with
        | ':' :: r3 =>
          match jparseV fuel (jskip r3) with
          | Except.error e => Except.error e
          | Except.ok (v, r4) =>
            let acc2 := dset acc ⟨k⟩ v
            match jskip r4 with
            | ',' :: r6 => jparseMembers fuel (jskip r6) acc2
            | '\x7d' :: r6 => Except.ok (PyVal.dict (PyPairs.ofList acc2), r6)
            | _ => Except.error (PyErr.valueError "Expecting delimiter")
        | _ => Except.error (PyErr.valueError "Expecting colon")
    | _ => Except.error (PyErr.valueError "Expecting property name")

/-- Parse a JSON array after the opening bracket (whitespace skipped). -/
def jparseArr : Nat → List Char → Except PyErr (PyVal × List Char)
  | _, ']' :: rest => Except.ok (PyVal.list PyList.nil, rest)
  | 0, _ => Except.error (PyErr.valueError "Expecting value")
  | fuel + 1, l => jparseItems fuel l []

/-- Parse the items of a JSON array (at a value). -/
def jparseItems : Nat → List Char → List PyVal → Except PyErr (PyVal × List Char)
  | 0, _, _ => Except.error (PyErr.valueError "Expecting value")
  | fuel + 1, l, acc =>
    match jparseV fuel (jskip l) with
    | Except.error e => Except.error e
    | Except.ok (v, r1) =>
      match jskip r1 with
      | ',' :: r3 => jparseItems fuel r3 (acc ++ [v])
      | ']' :: r3 => Except.ok (PyVal.list (PyList.ofList (acc ++ [v])), r3)
      | _ => Except.error (PyErr.valueError "Expecting delimiter")
end

/-- `json.loads(s)`: parse one JSON document with optional surrounding
whitespace. -/
def json_loads (s : String) : Except PyErr PyVal :=
  match jparseV (3 * s.data.length + 8) (jskip s.data) with
  | Except.error e => Except.error e
  | Except.ok (v, rest) =>
    if jskip rest = [] then Except.ok v
    else Except.error (PyErr.valueError "Extra data")

/-- Using a value as a dict (`obj[k] = ...` on the result of `json.loads`):
non-dicts raise a `TypeError`-class error. -/
def asDictE : PyVal → Except PyErr PyDict
  | PyVal.dict d => Except.ok d.toList
  | _ => Except.error (PyErr.typeError "not a dict")

/-- Components returned by `urllib.parse.urlsplit`. -/
structure SplitResult where
  scheme : String
  netloc : String
  path : String
  query : String
  fragment : String
deriving DecidableEq, Repr

/-- Characters allowed in a URL scheme. -/
def schemeChar (c : Char) : Bool :=
  c.isAlpha || isDigitC c || c = '+' || c = '-' || c = '.'

/-- `urllib.parse.urlsplit`: WHATWG cleanup (strip C0 controls/space, drop
tab/CR/LF), then syntactic split into scheme, netloc (up to the first of
`/?#` after `//`), fragment (after the first `#`) and query (after the first
`?`).  Raises `ValueError` on unbalanced brackets in the netloc. -/
def urlsplit (url : String) : Except PyErr SplitResult :=
  let u := stripBoth (fun c => c.toNat ≤ 32) url.data
  let u := u.filter (fun c => ¬ (c = '\t' ∨ c = '\r' ∨ c = '\n'))
  let pc := partitionChar ':' u
  let schemeRest : String × List Char :=
    if pc.2.1 ∧ pc.1 ≠ [] ∧ (pc.1.headD ' ').isAlpha ∧ pc.1.all schemeChar then
      (⟨pc.1.map asciiLower⟩, pc.2.2)
    else ("", u)
  let afterScheme := schemeRest.2
  let hasNetloc := listStartsWith ['/', '/'] afterScheme
  let netloc := if hasNetloc then takeUntilAnyOf ['/', '?', '#'] (afterScheme.drop 2) else []
  let rest2 := if hasNetloc then dropUntilAnyOf ['/', '?', '#'] (afterScheme.drop 2) else afterScheme
  if hasNetloc ∧ ¬ ((('[' ∈ netloc) : Bool) = ((']' ∈ netloc) : Bool)) then
    Except.error (PyErr.valueError "Invalid IPv6 URL")
  else
    let pf := partitionChar '#' rest2
    let fragment := if pf.2.1 then pf.2.2 else []
    let pq := partitionChar '?' pf.1
    let query := if pq.2.1 then pq.2.2 else []
    Except.ok ⟨schemeRest.1, ⟨netloc⟩, ⟨pq.1⟩, ⟨query⟩, ⟨fragment⟩⟩

/-- `parsed.username`: text before the first `:` of the userinfo (the part of
the netloc before its last `@`), or `None` when there is no `@`. -/
def urlUsername (netloc : List Char) : Option String :=
  let r := rpartitionChar '@' netloc
  if r.2.1 then Option.some ⟨(partitionChar ':' r.1).1⟩ else Option.none

/-- The host-and-port part of the netloc (after its last `@`). -/
def netlocHostinfo (netloc : List Char) : List Char :=
  (rpartitionChar '@' netloc).2.2

/-- `parsed._hostinfo`: hostname text and optional port text, with `[...]`
bracket handling. -/
def urlHostPort (netloc : List Char) : List Char × Option (List Char) :=
  let hostinfo := netlocHostinfo netloc
  let pbr := partitionChar '[' hostinfo
  let hp : List Char × List Char :=
    if pbr.2.1 then
      let inner := partitionChar ']' pbr.2.2
      (inner.1, (partitionChar ':' inner.2.2).2.2)
    else
      let pcol := partitionChar ':' hostinfo
      (pcol.1, pcol.2.2)
  (hp.1, if hp.2 = [] then Option.none else Option.some hp.2)

/-- `parsed.hostname`: lowercased hostname, `None` when empty. -/
def urlHostname (netloc : List Char) : Option String :=
  let h := (urlHostPort netloc).1
  if h = [] then Option.none else Option.some ⟨h.map asciiLower⟩

/-- `parsed.port`: parse the port text with `int(_, 10)` and range-check it;
`None` when absent, `ValueError` when malformed or out of range. -/
def urlPortVal (netloc : List Char) : Except PyErr (Option Int) :=
  match (urlHostPort netloc).2 with
  | Option.none => Except.ok Option.none
  | Option.some pl =>
    match pyIntOfString? ⟨pl⟩ with
    | Option.some n =>
      if 0 ≤ n ∧ n ≤ 65535 then Except.ok (Option.some n)
      else Except.error (PyErr.valueError "Port out of range 0-65535")
    | Option.none => Except.error (PyErr.valueError "Port could not be cast to integer value")

/-- `urllib.parse.parse_qsl` with default options: split the query on `&`,
keep `name=value` pairs with nonempty value, `+`/percent-decode both sides. -/
def parse_qsl (qs : String) : List (String × String) :=
  (splitOnChar '&' qs.data).filterMap (fun nv =>
    if nv = [] then Option.none
    else
      let p := partitionChar '=' nv
      if p.2.1 then
        if p.2.2 = [] then Option.none
        else Option.some (unquote_plus ⟨p.1⟩, unquote_plus ⟨p.2.2⟩)
      else Option.none)

/-- Append a value to a key's list in a `parse_qs`-style result. -/
def qappend : List (String × List String) → String → String → List (String × List String)
  | [], k, v => [(k, [v])]
  | e :: tl, k, v => if e.1 = k then (e.1, e.2 ++ [v]) :: tl else e :: qappend tl k v

/-- `urllib.parse.parse_qs`: group `parse_qsl` pairs into per-key value
lists, preserving first-seen key order. -/
def parse_qs (qs : String) : List (String × List String) :=
  (parse_qsl qs).foldl (fun acc nv => qappend acc nv.1 nv.2) []

/-- `urllib.parse.urlencode`: `quote_plus(str(k)) + "=" + quote_plus(str(v))`
joined with `&`, in the order of the given pairs. -/
def urlencode (params : List (String × PyVal)) : String :=
  String.intercalate "&" (params.map (fun kv => quote_plus kv.1 ++ "=" ++ quote_plus (pyStr kv.2)))

/-- `parse_vless_url` from the source: extract `id`/`add`/`port`/`ps` from
the URI authority and fragment, then merge the parsed query parameters
(scalar for single-valued keys, list otherwise). -/
def parse_vless_url (url : String) : Except PyErr PyDict := do
  let p ← urlsplit url
  let nl := p.netloc.data
  let portv ← urlPortVal nl
  let base : PyDict :=
    [("id", (urlUsername nl).elim PyVal.none PyVal.str),
     ("add", (urlHostname nl).elim PyVal.none PyVal.str),
     ("port", PyVal.str (pyStr (portv.elim PyVal.none PyVal.int))),
     ("ps", PyVal.str p.fragment)]
  pure ((parse_qs p.query).foldl (fun acc kv =>
    dset acc kv.1 (match kv.2 with
      | [v] => PyVal.str v
      | vs => PyVal.list (PyList.ofList (vs.map PyVal.str)))) base)

/-- Canonical ordered field sequence for scheme A (vmess). -/
def WANTED_ORDER_VMESS : List String :=
  ["add", "aid", "allowInsecure", "alpn", "fp", "host", "id", "net", "path",
   "port", "ps", "scy", "sni", "tls", "type", "v"]

/-- Canonical ordered field sequence for scheme B (vless). -/
def WANTED_ORDER_VLESS : List String :=
  ["add", "port", "id", "ps", "type", "encryption", "security",
   "sni", "host", "path", "seed", "fp", "alpn", "allowInsecure",
   "mode", "pbk", "sid", "spx", "pqv", "ech", "flow"]

/-- Scheme-A defaults injected for missing fields. -/
def DEFAULTS_IF_MISSING_VMESS : PyDict :=
  [("aid", PyVal.str "0"), ("alpn", PyVal.str ""), ("type", PyVal.str ""),
   ("allowInsecure", PyVal.int 1)]

/-- Scheme-B defaults injected for missing fields. -/
def DEFAULTS_IF_MISSING_VLESS : PyDict :=
  [("encryption", PyVal.str "none"), ("security", PyVal.str "none"),
   ("type", PyVal.str "tcp"), ("allowInsecure", PyVal.int 1)]

/-- Fields carried in the vless authority/fragment rather than the query. -/
def NON_QUERY_FIELDS : List String := ["add", "port", "id", "ps"]

/-- Scheme-B query fields in canonical order. -/
def VLESS_QUERY_PARAMS : List String :=
  WANTED_ORDER_VLESS.filter (fun f => ¬ f ∈ NON_QUERY_FIELDS)

/-- The query-parameter dict built by `encode_vless_url`: canonical-order
query fields that are present and truthy. -/
def vless_query_params (config : PyDict) : List (String × PyVal) :=
  VLESS_QUERY_PARAMS.filterMap (fun k =>
    match dlookup config k with
    | Option.some v => if pyTruthy v ∧ v ≠ PyVal.str "" then Option.some (k, v) else Option.none
    | Option.none => Option.none)

/-- `encode_vless_url` from the source: `id@add:port` authority, truthy
canonical query fields, `ps` as the raw fragment, assembled by
`urlunparse(("vless", netloc, "", "", query, fragment))`. -/
def encode_vless_url (config : PyDict) : Except PyErr String := do
  let idv ← getItemD config "id"
  let addv ← getItemD config "add"
  let portv ← getItemD config "port"
  let netloc := pyStr idv ++ "@" ++ pyStr addv ++ ":" ++ pyStr portv
  let qs := urlencode (vless_query_params config)
  let frag := dget config "ps" (PyVal.str "")
  let base := "vless://" ++ netloc ++ (if qs = "" then "" else "?" ++ qs)
  if pyTruthy frag then
    match frag with
    | PyVal.str f => pure (base ++ "#" ++ f)
    | _ => Except.error (PyErr.typeError "can only concatenate str")
  else
    pure base

/-- `decode_vmess_or_vless_line` from the source: strip, then dispatch on
the `vmess://` prefix (pad + base64 + UTF-8 + JSON), the `vless://` prefix
(URL parse), or a brace-delimited raw JSON object (scheme defaulted to
vmess); anything else is a `ValueError`. -/
def decode_vmess_or_vless_line (line : String) : Except PyErr PyDict := do
  let s := pyStrip line
  if s = "" then Except.error (PyErr.valueError "empty line")
  else if strStartsWith s "vmess://" then do
    let b := strDrop s 8
    let b2 := b.data ++ List.replicate ((4 - b.data.length % 4) % 4) '='
    if ¬ b2.all (fun c => c.toNat < 128) then
      Except.error (PyErr.valueError "ascii codec cannot encode")
    else
      match b64decodePy b2 with
      | Option.none => Except.error (PyErr.valueError "Invalid base64-encoded string")
      | Option.some bytes =>
        match utf8DecodeStrict bytes with
        | Option.none => Except.error (PyErr.valueError "utf-8 codec cannot decode")
        | Option.some chars => do
          let v ← json_loads ⟨chars⟩
          let d ← asDictE v
          pure (dset d "_type" (PyVal.str "vmess"))
  else if strStartsWith s "vless://" then do
    let d ← parse_vless_url s
    pure (dset d "_type" (PyVal.str "vless"))
  else if strStartsWith s "\x7b" ∧ strEndsWith s "\x7d" then do
    let v ← json_loads s
    let d ← asDictE v
    pure (dset d "_type" (dget d "_type" (PyVal.str "vmess")))
  else Except.error (PyErr.valueError "not vmess, not vless, not JSON")

/-- Inject default values for keys that are absent. -/
def inject_defaults (defaults : PyDict) (out : PyDict) : PyDict :=
  defaults.foldl (fun o kv => if dcontains o kv.1 then o else dset o kv.1 kv.2) out

/-- Inject the empty string for canonical keys that are absent. -/
def fill_missing (keys : List String) (out : PyDict) : PyDict :=
  keys.foldl (fun o k => if dcontains o k then o else dset o k (PyVal.str "")) out

/-- The two coercion statements shared by both normalizers: stringify
`port` when present, then coerce `allowInsecure` when present. -/
def coerce_entry (d : PyDict) : PyDict :=
  let out := if dcontains d "port" then dset d "port" (PyVal.str (pyStr (dget d "port" PyVal.none))) else d
  if dcontains out "allowInsecure" then dset out "allowInsecure" (PyVal.int (truthy_to_int (dget out "allowInsecure" PyVal.none))) else out

/-- `normalize_vmess_entry` from the source: stringify `port`, coerce
`allowInsecure`, inject defaults, fill the canonical fields, project onto
the canonical order and tag with `_type = "vmess"`. -/
def normalize_vmess_entry (d : PyDict) : PyDict :=
  let out := fill_missing WANTED_ORDER_VMESS (inject_defaults DEFAULTS_IF_MISSING_VMESS (coerce_entry d))
  let ordered := WANTED_ORDER_VMESS.map (fun k => (k, dget out k (PyVal.str "")))
  dset ordered "_type" (PyVal.str "vmess")

/-- `normalize_vless_entry` from the source (scheme-B analogue of
`normalize_vmess_entry`). -/
def normalize_vless_entry (d : PyDict) : PyDict :=
  let out := fill_missing WANTED_ORDER_VLESS (inject_defaults DEFAULTS_IF_MISSING_VLESS (coerce_entry d))
  let ordered := WANTED_ORDER_VLESS.map (fun k => (k, dget out k (PyVal.str "")))
  dset ordered "_type" (PyVal.str "vless")

/-- `normalize_entry` from the source: dispatch on the `_type` tag. -/
def normalize_entry (d : PyDict) : PyDict :=
  if dget d "_type" PyVal.none = PyVal.str "vless" then normalize_vless_entry d
  else normalize_vmess_entry d

/-- Outcome of the batch decode pass, with the file contents written to the
temporary file (which atomically replaces the source at the end), the
per-line diagnostics, and the reported counters. -/
structure DecodeOutcome where
  outLines : List String
  diags : List (Nat × PyErr)
  written : Nat
  vmessCount : Nat
  vlessCount : Nat
deriving DecidableEq, Repr

/-- One iteration of the `decode_file_inplace` loop: skip blank lines,
otherwise decode+normalize+serialize, appending a line and bumping the
scheme counter on success and recording a diagnostic (line number, error)
on failure. -/
def decode_step (acc : DecodeOutcome) (idxLine : Nat × String) : DecodeOutcome :=
  let s := pyStrip idxLine.2
  if s = "" then acc
  else
    match decode_vmess_or_vless_line s with
    | Except.ok obj =>
      let norm := normalize_entry obj
      let compact := json_dumps norm
      if dget norm "_type" PyVal.none = PyVal.str "vmess" then
        { acc with outLines := acc.outLines ++ [compact], written := acc.written + 1,
                   vmessCount := acc.vmessCount + 1 }
      else
        { acc with outLines := acc.outLines ++ [compact], written := acc.written + 1,
                   vlessCount := acc.vlessCount + 1 }
    | Except.error e => { acc with diags := acc.diags ++ [(idxLine.1, e)] }

/-- `decode_file_inplace` from the source, as a function from the source
file's lines to the replacement file's lines plus diagnostics: lines are
enumerated from 1 and processed independently; the source path receives
exactly `outLines` (the temporary file is renamed over it only after the
whole pass). -/
def decode_file_inplace (input : List String) : DecodeOutcome :=
  (input.enumFrom 1).foldl decode_step ⟨[], [], 0, 0, 0⟩

/-- Python `needle in container` for a string needle: key membership for
dicts, element equality for lists, substring test for strings, `TypeError`
otherwise. -/
def pyContainsStr : PyVal → String → Except PyErr Bool
  | PyVal.dict d, n => Except.ok (dcontains d.toList n)
  | PyVal.list xs, n => Except.ok (xs.toList.any (fun x => x = PyVal.str n))
  | PyVal.str s, n => Except.ok (hasSubstr n.data s.data)
  | _, _ => Except.error (PyErr.typeError "argument is not iterable")

/-- Python `container[k] = v` for a string key. -/
def setItemStr : PyVal → String → PyVal → Except PyErr PyVal
  | PyVal.dict d, k, v => Except.ok (PyVal.dict (PyPairs.ofList (dset d.toList k v)))
  | _, _, _ => Except.error (PyErr.typeError "does not support item assignment")

/-- Python `container[k]` for a string key. -/
def getItemStr : PyVal → String → Except PyErr PyVal
  | PyVal.dict d, k => getItemD d.toList k
  | _, _ => Except.error (PyErr.typeError "indices must be integers")

/-- The per-substitution rewriting of a scheme-A template object
(`make_vmess_lines` loop body before re-serialization): set `sni` and `host`
when present, append `" (rep)"` to `ps` when present. -/
def vmess_apply_subst (tv : PyVal) (rep : String) : Except PyErr PyVal :=
  match pyContainsStr tv "sni" with
  | Except.error e => Except.error e
  | Except.ok hasSni =>
  match (if hasSni then setItemStr tv "sni" (PyVal.str rep) else Except.ok tv) with
  | Except.error e => Except.error e
  | Except.ok tv1 =>
  match pyContainsStr tv1 "host" with
  | Except.error e => Except.error e
  | Except.ok hasHost =>
  match (if hasHost then setItemStr tv1 "host" (PyVal.str rep) else Except.ok tv1) with
  | Except.error e => Except.error e
  | Except.ok tv2 =>
  match pyContainsStr tv2 "ps" with
  | Except.error e => Except.error e
  | Except.ok hasPs =>
  if hasPs then
    match getItemStr tv2 "ps" with
    | Except.error e => Except.error e
    | Except.ok old => setItemStr tv2 "ps" (PyVal.str (pyStr old ++ " (" ++ rep ++ ")"))
  else Except.ok tv2

/-- The per-substitution rewriting of a scheme-B template object
(`make_vless_lines` loop body before re-encoding): set `sni` when present;
set `host` when present unless `type` is `"xhttp"` or `"ws"` (reading
`type` raises `KeyError` when absent); append `" (rep)"` to `ps`. -/
def vless_apply_subst (tv : PyVal) (rep : String) : Except PyErr PyVal :=
  match pyContainsStr tv "sni" with
  | Except.error e => Except.error e
  | Except.ok hasSni =>
  match (if hasSni then setItemStr tv "sni" (PyVal.str rep) else Except.ok tv) with
  | Except.error e => Except.error e
  | Except.ok tv1 =>
  match pyContainsStr tv1 "host" with
  | Except.error e => Except.error e
  | Except.ok hasHost =>
  match (if hasHost then
          (match getItemStr tv1 "type" with
           | Except.error e => Except.error e
           | Except.ok ty =>
             if ty = PyVal.str "xhttp" ∨ ty = PyVal.str "ws" then Except.ok tv1
             else setItemStr tv1 "host" (PyVal.str rep))
         else Except.ok tv1) with
  | Except.error e => Except.error e
  | Except.ok tv2 =>
  match pyContainsStr tv2 "ps" with
  | Except.error e => Except.error e
  | Except.ok hasPs =>
  if hasPs then
    match getItemStr tv2 "ps" with
    | Except.error e => Except.error e
    | Except.ok old => setItemStr tv2 "ps" (PyVal.str (pyStr old ++ " (" ++ rep ++ ")"))
  else Except.ok tv2

/-- `base64.b64encode(s.encode("utf-8")).decode("ascii")`. -/
def b64OfText (s : String) : String :=
  ⟨b64encodeBytes (utf8Encode s)⟩

/-- The scheme-A serialization used by the pipeline (`make_vmess_lines`):
compact JSON, UTF-8, base64, `vmess://` in front. -/
def encode_vmess_line (d : PyDict) : String :=
  "vmess://" ++ b64OfText (json_dumps d)

/-- One `make_vmess_lines` loop iteration: rewrite the re-parsed template
and re-serialize; on any failure fall back to replacing the literal
`"vk.com"` in the raw template text and base64-encoding that. -/
def vmess_line_for (template rep : String) : String :=
  match (match json_loads template with
         | Except.error e => Except.error e
         | Except.ok tv =>
           match vmess_apply_subst tv rep with
           | Except.error e => Except.error e
           | Except.ok tv2 => Except.ok ("vmess://" ++ b64OfText ⟨jdumpV tv2⟩) :
         Except PyErr String) with
  | Except.ok l => l
  | Except.error _ => "vmess://" ++ b64OfText (strReplace template "vk.com" rep)

/-- `make_vmess_lines` from the source: one output line per substitution. -/
def make_vmess_lines (template : String) (replacements : List String) : List String :=
  replacements.foldl (fun out rep => out ++ [vmess_line_for template rep]) []

/-- One `make_vless_lines` loop iteration: re-parse the template, rewrite it
and re-encode as a vless URL.  A non-dict parse result always fails at its
first subscript (modelled by the dict check before `encode_vless_url`,
whose source signature takes the config dict). -/
def vless_line_for (template rep : String) : Except PyErr String :=
  match json_loads template with
  | Except.error e => Except.error e
  | Except.ok tv =>
    match vless_apply_subst tv rep with
    | Except.error e => Except.error e
    | Except.ok tv2 =>
      match asDictE tv2 with
      | Except.error e => Except.error e
      | Except.ok d => encode_vless_url d

/-- `make_vless_lines` from the source: append a line per substitution that
encodes successfully; failures are reported and skipped. -/
def make_vless_lines (template : String) (replacements : List String) : List String :=
  replacements.foldl (fun out rep =>
    match vless_line_for template rep with
    | Except.ok url => out ++ [url]
    | Except.error _ => out) []

/-- `make_proxy_lines` from the source: choose the codec from the parsed
template's `_type` (default vmess), or from the `vless://` prefix when the
template is not JSON. -/
def make_proxy_lines (template : String) (replacements : List String) : List String :=
  let proxy_type : PyVal :=
    match json_loads template with
    | Except.ok (PyVal.dict d) => dget d.toList "_type" (PyVal.str "vmess")
    | _ => if strStartsWith template "vless://" then PyVal.str "vless" else PyVal.str "vmess"
  if proxy_type = PyVal.str "vmess" then make_vmess_lines template replacements
  else make_vless_lines template replacements

/-- The scheme-A round trip of the spec:
`normalize`, `encode`, `decode`, `normalize`. -/
def roundtrip_vmess (r : PyDict) : Except PyErr PyDict := do
  let n := normalize_vmess_entry r
  let d ← decode_vmess_or_vless_line (encode_vmess_line n)
  pure (normalize_entry d)

/-- The scheme-B round trip of the spec. -/
def roundtrip_vless (r : PyDict) : Except PyErr PyDict := do
  let n := normalize_vless_entry r
  let line ← encode_vless_url n
  let d ← decode_vmess_or_vless_line line
  pure (normalize_entry d)

/-- Characters for which `quote_plus` is the identity (and which are inert
in every delimiter position of both wire formats): ASCII alphanumerics and
`-._~`. -/
def safeChar (c : Char) : Bool :=
  c.isAlphanum || c = '-' || c = '.' || c = '_' || c = '~'

/-- A string of `safeChar` characters. -/
def SafeStr (s : String) : Prop := s.data.all safeChar

/-- Scheme-A records covered by the round-trip statement: canonical keys
only, values plain safe strings. -/
def SafeVmessRecord (r : PyDict) : Prop :=
  ∀ kv ∈ r, kv.1 ∈ WANTED_ORDER_VMESS ∧ ∃ s, kv.2 = PyVal.str s ∧ SafeStr s

/-- Scheme-B records covered by the round-trip statement: canonical keys
with safe string values, a nonempty lowercase host, a canonical in-range
decimal port, nonempty `type`/`encryption`/`security` when present, and an
`allowInsecure` that coerces to `1` when present (the 0 case cannot survive,
see the C10 claim). -/
def SafeVlessRecord (r : PyDict) : Prop :=
  (∀ kv ∈ r, kv.1 ∈ WANTED_ORDER_VLESS ∧ ∃ s, kv.2 = PyVal.str s ∧ SafeStr s) ∧
  (∃ a, dlookup r "add" = Option.some (PyVal.str a) ∧ a ≠ "" ∧ SafeStr a ∧
    a.data.all (fun c => ¬ ('A' ≤ c ∧ c ≤ 'Z'))) ∧
  (∃ n : Nat, n ≤ 65535 ∧ dlookup r "port" = Option.some (PyVal.str ⟨natReprL n⟩)) ∧
  (∀ v, dlookup r "type" = Option.some v → v ≠ PyVal.str "") ∧
  (∀ v, dlookup r "encryption" = Option.some v → v ≠ PyVal.str "") ∧
  (∀ v, dlookup r "security" = Option.some v → v ≠ PyVal.str "") ∧
  (∀ v, dlookup r "allowInsecure" = Option.some v → truthy_to_int v = 1)

/-- Values whose compact JSON serialization the round-trip lemmas re-parse:
safe strings, or the coerced `allowInsecure` bits `0`/`1`. -/
def SafeJsonVal (v : PyVal) : Prop :=
  (∃ s, v = PyVal.str s ∧ SafeStr s) ∨ v = PyVal.int 0 ∨ v = PyVal.int 1

/-- The value `normalize_vmess_entry d` assigns to canonical field `k`
(characterization used by the order/idempotence/round-trip theorems):
`port` is stringified, `allowInsecure` coerced (defaulting to `1`), other
fields keep their value or get their default or the empty string. -/
def vmessNormVal (d : PyDict) (k : String) : PyVal :=
  if k = "port" then
    match dlookup d "port" with
    | Option.some v => PyVal.str (pyStr v)
    | Option.none => PyVal.str ""
  else if k = "allowInsecure" then
    match dlookup d "allowInsecure" with
    | Option.some v => PyVal.int (truthy_to_int v)
    | Option.none => PyVal.int 1
  else
    match dlookup d k with
    | Option.some v => v
    | Option.none => (dlookup DEFAULTS_IF_MISSING_VMESS k).getD (PyVal.str "")

/-- Scheme-B analogue of `vmessNormVal`. -/
def vlessNormVal (d : PyDict) (k : String) : PyVal :=
  if k = "port" then
    match dlookup d "port" with
    | Option.some v => PyVal.str (pyStr v)
    | Option.none => PyVal.str ""
  else if k = "allowInsecure" then
    match dlookup d "allowInsecure" with
    | Option.some v => PyVal.int (truthy_to_int v)
    | Option.none => PyVal.int 1
  else
    match dlookup d k with
    | Option.some v => v
    | Option.none => (dlookup DEFAULTS_IF_MISSING_VLESS k).getD (PyVal.str "")

/-- The concrete scheme-B input line of the C2 scenario. -/
def c2_input : String :=
  "vless://user-id@host.example:8443?security=tls&sni=sni.example#My%20Label"

/-- What decoding and normalizing `c2_input` actually produces (the fragment
stays percent-encoded: `urlparse` does not unquote it). -/
def c2_expected : PyDict :=
  [("add", PyVal.str "host.example"), ("port", PyVal.str "8443"),
   ("id", PyVal.str "user-id"), ("ps", PyVal.str "My%20Label"),
   ("type", PyVal.str "tcp"), ("encryption", PyVal.str "none"),
   ("security", PyVal.str "tls"), ("sni", PyVal.str "sni.example"),
   ("host", PyVal.str ""), ("path", PyVal.str ""), ("seed", PyVal.str ""),
   ("fp", PyVal.str ""), ("alpn", PyVal.str ""), ("allowInsecure", PyVal.int 1),
   ("mode", PyVal.str ""), ("pbk", PyVal.str ""), ("sid", PyVal.str ""),
   ("spx", PyVal.str ""), ("pqv", PyVal.str ""), ("ech", PyVal.str ""),
   ("flow", PyVal.str ""), ("_type", PyVal.str "vless")]

/-- The concrete scheme-B record of the C10 scenario: its `allowInsecure`
coerces to `0`. -/
def c10_record : PyDict :=
  [("add", PyVal.str "h"), ("port", PyVal.str "1"), ("id", PyVal.str "u"),
   ("allowInsecure", PyVal.str "0")]

/-- Extract the payload of a successful `Except`, with a default. -/
def okOr (e : Except PyErr String) (dflt : String) : String :=
  match e with
  | Except.ok s => s
  | Except.error _ => dflt

/-- The `sni` rewriting step of both substitution loops, at dict level. -/
def subst_sni (t : PyDict) (rep : String) : PyDict :=
  if dcontains t "sni" then dset t "sni" (PyVal.str rep) else t

/-- The `ps` rewriting step of both substitution loops, at dict level. -/
def subst_ps (t : PyDict) (rep : String) : PyDict :=
  if dcontains t "ps" then
    dset t "ps" (PyVal.str (pyStr (dget t "ps" PyVal.none) ++ " (" ++ rep ++ ")"))
  else t

/-- What `vmess_apply_subst` computes on a dict template. -/
def vmess_subst_dicts (t : PyDict) (rep : String) : PyDict :=
  let t1 := subst_sni t rep
  let t2 := if dcontains t1 "host" then dset t1 "host" (PyVal.str rep) else t1
  subst_ps t2 rep

/-- What `vless_apply_subst` computes on a dict template. -/
def vless_subst_dicts (t : PyDict) (rep : String) : Except PyErr PyDict :=
  let t1 := subst_sni t rep
  if dcontains t1 "host" then
    match dlookup t1 "type" with
    | Option.none => Except.error (PyErr.keyError "type")
    | Option.some ty =>
      Except.ok (subst_ps
        (if ty = PyVal.str "xhttp" ∨ ty = PyVal.str "ws" then t1
         else dset t1 "host" (PyVal.str rep)) rep)
  else Except.ok (subst_ps t1 rep)

/-- Whether an `Except` computation succeeded (decidable success test used
to state the C5 side conditions). -/
def exceptOk {α : Type} : Except PyErr α → Bool
  | Except.ok _ => true
  | Except.error _ => false

/-! ## Dictionary lemmas -/

theorem dlookup_dset_self (d : PyDict) (k : String) (v : PyVal) :
    dlookup (dset d k v) k = Option.some v := by
  induction d with
  | nil => simp [dset, dlookup]
  | cons e tl ih =>
    by_cases he : e.1 = k
    · simp [dset, he, dlookup]
    · simp [dset, he, dlookup, ih]

theorem dlookup_dset_ne (d : PyDict) (k k' : String) (v : PyVal) (h : k' ≠ k) :
    dlookup (dset d k v) k' = dlookup d k' := by
  have hkk : k ≠ k' := fun hh => h hh.symm
  induction d with
  | nil => simp [dset, dlookup, hkk]
  | cons e tl ih =>
    by_cases he : e.1 = k
    · simp [dset, he, dlookup, hkk]
    · by_cases he' : e.1 = k'
      · simp [dset, he, dlookup, he', hkk, h]
      · simp [dset, he, dlookup, he', ih]

theorem dlookup_append (d1 d2 : PyDict) (k : String) :
    dlookup (d1 ++ d2) k =
      match dlookup d1 k with
      | Option.some v => Option.some v
      | Option.none => dlookup d2 k := by
  induction d1 with
  | nil => simp [dlookup]
  | cons e tl ih =>
    by_cases he : e.1 = k
    · simp [dlookup, he]
    · simp [dlookup, he, ih]

theorem dset_of_not_contains (d : PyDict) (k : String) (v : PyVal)
    (h : dlookup d k = Option.none) : dset d k v = d ++ [(k, v)] := by
  induction d with
  | nil => simp [dset]
  | cons e tl ih =>
    by_cases he : e.1 = k
    · simp [dlookup, he] at h
    · simp [dlookup, he] at h
      simp [dset, he, ih h]

theorem dlookup_map_self {ks : List String} {f : String → PyVal} {k : String}
    (h : k ∈ ks) : dlookup (ks.map (fun k => (k, f k))) k = Option.some (f k) := by
  induction ks with
  | nil => cases h
  | cons a tl ih =>
    by_cases ha : a = k
    · subst ha; simp [dlookup]
    · rcases List.mem_cons.mp h with h1 | h2
      · exact absurd h1.symm ha
      · simp [dlookup, ha, ih h2]

theorem dlookup_map_not_mem {ks : List String} {f : String → PyVal} {k : String}
    (h : ¬ k ∈ ks) : dlookup (ks.map (fun k => (k, f k))) k = Option.none := by
  induction ks with
  | nil => rfl
  | cons a tl ih =>
    have ha : a ≠ k := fun hh => h (hh ▸ List.mem_cons_self a tl)
    have htl : ¬ k ∈ tl := fun hh => h (List.mem_cons_of_mem a hh)
    simp [dlookup, ha, ih htl]

theorem dlookup_inject (ds : PyDict) : ∀ (o : PyDict) (k : String),
    dlookup (inject_defaults ds o) k =
      match dlookup o k with
      | Option.some v => Option.some v
      | Option.none => dlookup ds k := by
  induction ds with
  | nil =>
    intro o k
    simp only [inject_defaults, List.foldl_nil]
    cases dlookup o k <;> simp [dlookup]
  | cons e ds ih =>
    intro o k
    have step : inject_defaults (e :: ds) o =
        inject_defaults ds (if dcontains o e.1 then o else dset o e.1 e.2) := by
      simp [inject_defaults]
    rw [step]
    by_cases hc : dcontains o e.1
    · rw [if_pos hc, ih o k]
      by_cases hk : k = e.1
      · have hsome : (dlookup o k).isSome := by rw [hk]; exact hc
        cases hs : dlookup o k with
        | none => rw [hs] at hsome; simp at hsome
        | some v => simp
      · have hek : e.1 ≠ k := fun hh => hk hh.symm
        cases hs : dlookup o k <;> simp [dlookup, hek]
    · rw [if_neg hc, ih _ k]
      have hnone : dlookup o e.1 = Option.none := by
        cases hs : dlookup o e.1 with
        | none => rfl
        | some v => exact absurd (by simp [dcontains, hs]) hc
      by_cases hk : k = e.1
      · rw [hk, dlookup_dset_self, hnone]
        simp [dlookup]
      · rw [dlookup_dset_ne _ _ _ _ hk]
        have hek : e.1 ≠ k := fun hh => hk hh.symm
        cases hs : dlookup o k <;> simp [dlookup, hek]

theorem dlookup_fill (ks : List String) : ∀ (o : PyDict) (k : String),
    dlookup (fill_missing ks o) k =
      match dlookup o k with
      | Option.some v => Option.some v
      | Option.none => if k ∈ ks then Option.some (PyVal.str "") else Option.none := by
  induction ks with
  | nil =>
    intro o k
    simp only [fill_missing, List.foldl_nil]
    cases dlookup o k <;> simp
  | cons a ks ih =>
    intro o k
    have step : fill_missing (a :: ks) o =
        fill_missing ks (if dcontains o a then o else dset o a (PyVal.str "")) := by
      simp [fill_missing]
    rw [step]
    by_cases hc : dcontains o a
    · rw [if_pos hc, ih o k]
      by_cases hk : k = a
      · have hsome : (dlookup o k).isSome := by rw [hk]; exact hc
        cases hs : dlookup o k with
        | none => rw [hs] at hsome; simp at hsome
        | some v => simp
      · cases hs : dlookup o k <;> simp [List.mem_cons, hk]
    · rw [if_neg hc, ih _ k]
      have hnone : dlookup o a = Option.none := by
        cases hs : dlookup o a with
        | none => rfl
        | some v => exact absurd (by simp [dcontains, hs]) hc
      by_cases hk : k = a
      · rw [hk, dlookup_dset_self, hnone]
        simp
      · rw [dlookup_dset_ne _ _ _ _ hk]
        cases hs : dlookup o k <;> simp [List.mem_cons, hk]

theorem dlookup_coerce (d : PyDict) (k : String) :
    dlookup (coerce_entry d) k =
      if k = "port" then (dlookup d "port").map (fun v => PyVal.str (pyStr v))
      else if k = "allowInsecure" then
        (dlookup d "allowInsecure").map (fun v => PyVal.int (truthy_to_int v))
      else dlookup d k := by
  have hlook1 : ∀ k', dlookup (if dcontains d "port" then
      dset d "port" (PyVal.str (pyStr (dget d "port" PyVal.none))) else d) k' =
      if k' = "port" then (dlookup d "port").map (fun v => PyVal.str (pyStr v))
      else dlookup d k' := by
    intro k'
    by_cases hc : dcontains d "port"
    · rw [if_pos hc]
      by_cases hk : k' = "port"
      · rw [hk, dlookup_dset_self, if_pos rfl]
        have hsome : (dlookup d "port").isSome := hc
        have hg : dget d "port" PyVal.none = (dlookup d "port").getD PyVal.none := rfl
        rw [hg]
        cases hs : dlookup d "port" with
        | none => rw [hs] at hsome; simp at hsome
        | some v => rfl
      · rw [dlookup_dset_ne _ _ _ _ hk, if_neg hk]
    · rw [if_neg hc]
      have hnone : dlookup d "port" = Option.none := by
        cases hs : dlookup d "port" with
        | none => rfl
        | some v => exact absurd (by simp [dcontains, hs]) hc
      by_cases hk : k' = "port"
      · rw [hk, if_pos rfl, hnone]; rfl
      · rw [if_neg hk]
  simp only [coerce_entry]
  set out1 := if dcontains d "port" then
      dset d "port" (PyVal.str (pyStr (dget d "port" PyVal.none))) else d with hout1
  by_cases hc2 : dcontains out1 "allowInsecure"
  · rw [if_pos hc2]
    by_cases hk : k = "allowInsecure"
    · rw [hk, dlookup_dset_self]
      have hpa : ("allowInsecure" : String) ≠ "port" := by decide
      have h1 := hlook1 "allowInsecure"
      rw [if_neg hpa] at h1
      have hg : dget out1 "allowInsecure" PyVal.none =
          (dlookup d "allowInsecure").getD PyVal.none := by
        rw [dget, h1]
      rw [if_neg hpa, if_pos rfl, hg]
      cases hs : dlookup d "allowInsecure" with
      | none =>
        have hsome : (dlookup out1 "allowInsecure").isSome := hc2
        rw [h1, hs] at hsome; simp at hsome
      | some v => rfl
    · rw [dlookup_dset_ne _ _ _ _ hk, hlook1 k]
      by_cases hp : k = "port" <;> simp [hp, hk]
  · rw [if_neg hc2]
    by_cases hk : k = "allowInsecure"
    · rw [hk]
      have hpa : ("allowInsecure" : String) ≠ "port" := by decide
      have h1 := hlook1 "allowInsecure"
      rw [if_neg hpa] at h1
      have hnone : dlookup out1 "allowInsecure" = Option.none := by
        cases hs : dlookup out1 "allowInsecure" with
        | none => rfl
        | some v => exact absurd (by simp [dcontains, hs]) hc2
      have hd : dlookup d "allowInsecure" = Option.none := by rw [← h1]; exact hnone
      rw [hlook1 "allowInsecure", if_neg hpa, if_neg hpa, if_pos rfl, hd]
      rfl
    · rw [hlook1 k]
      by_cases hp : k = "port" <;> simp [hp, hk]

/-! ## Normalizer characterization -/

theorem dget_norm_vmess (d : PyDict) (k : String) (hk : k ∈ WANTED_ORDER_VMESS) :
    dget (fill_missing WANTED_ORDER_VMESS (inject_defaults DEFAULTS_IF_MISSING_VMESS (coerce_entry d)))
      k (PyVal.str "") = vmessNormVal d k := by
  rw [dget, dlookup_fill, dlookup_inject, dlookup_coerce]
  by_cases hp : k = "port"
  · rw [if_pos hp, hp]
    have : dlookup DEFAULTS_IF_MISSING_VMESS "port" = Option.none := by decide
    cases hs : dlookup d "port" <;>
      simp [this, vmessNormVal, hp ▸ hk, hs]
  · by_cases ha : k = "allowInsecure"
    · rw [if_neg hp, if_pos ha, ha]
      have : dlookup DEFAULTS_IF_MISSING_VMESS "allowInsecure" = Option.some (PyVal.int 1) := by
        decide
      cases hs : dlookup d "allowInsecure" <;>
        simp [this, vmessNormVal, hs]
    · rw [if_neg hp, if_neg ha]
      cases hs : dlookup d k with
      | some v => simp [vmessNormVal, hp, ha, hs]
      | none =>
        cases hd : dlookup DEFAULTS_IF_MISSING_VMESS k with
        | some dv => simp [vmessNormVal, hp, ha, hs, hd]
        | none => simp [vmessNormVal, hp, ha, hs, hd, hk]

theorem dget_norm_vless (d : PyDict) (k : String) (hk : k ∈ WANTED_ORDER_VLESS) :
    dget (fill_missing WANTED_ORDER_VLESS (inject_defaults DEFAULTS_IF_MISSING_VLESS (coerce_entry d)))
      k (PyVal.str "") = vlessNormVal d k := by
  rw [dget, dlookup_fill, dlookup_inject, dlookup_coerce]
  by_cases hp : k = "port"
  · rw [if_pos hp, hp]
    have : dlookup DEFAULTS_IF_MISSING_VLESS "port" = Option.none := by decide
    cases hs : dlookup d "port" <;>
      simp [this, vlessNormVal, hp ▸ hk, hs]
  · by_cases ha : k = "allowInsecure"
    · rw [if_neg hp, if_pos ha, ha]
      have : dlookup DEFAULTS_IF_MISSING_VLESS "allowInsecure" = Option.some (PyVal.int 1) := by
        decide
      cases hs : dlookup d "allowInsecure" <;>
        simp [this, vlessNormVal, hs]
    · rw [if_neg hp, if_neg ha]
      cases hs : dlookup d k with
      | some v => simp [vlessNormVal, hp, ha, hs]
      | none =>
        cases hd : dlookup DEFAULTS_IF_MISSING_VLESS k with
        | some dv => simp [vlessNormVal, hp, ha, hs, hd]
        | none => simp [vlessNormVal, hp, ha, hs, hd, hk]

theorem normalize_vmess_char (d : PyDict) :
    normalize_vmess_entry d =
      WANTED_ORDER_VMESS.map (fun k => (k, vmessNormVal d k)) ++
        [("_type", PyVal.str "vmess")] := by
  simp only [normalize_vmess_entry]
  have hmap : WANTED_ORDER_VMESS.map (fun k =>
      (k, dget (fill_missing WANTED_ORDER_VMESS
        (inject_defaults DEFAULTS_IF_MISSING_VMESS (coerce_entry d))) k (PyVal.str ""))) =
      WANTED_ORDER_VMESS.map (fun k => (k, vmessNormVal d k)) := by
    apply List.map_congr_left
    intro k hk
    rw [dget_norm_vmess d k hk]
  rw [hmap]
  apply dset_of_not_contains
  exact dlookup_map_not_mem (by decide)

theorem normalize_vless_char (d : PyDict) :
    normalize_vless_entry d =
      WANTED_ORDER_VLESS.map (fun k => (k, vlessNormVal d k)) ++
        [("_type", PyVal.str "vless")] := by
  simp only [normalize_vless_entry]
  have hmap : WANTED_ORDER_VLESS.map (fun k =>
      (k, dget (fill_missing WANTED_ORDER_VLESS
        (inject_defaults DEFAULTS_IF_MISSING_VLESS (coerce_entry d))) k (PyVal.str ""))) =
      WANTED_ORDER_VLESS.map (fun k => (k, vlessNormVal d k)) := by
    apply List.map_congr_left
    intro k hk
    rw [dget_norm_vless d k hk]
  rw [hmap]
  apply dset_of_not_contains
  exact dlookup_map_not_mem (by decide)

theorem dlookup_norm_vmess (d : PyDict) {k : String} (hk : k ∈ WANTED_ORDER_VMESS) :
    dlookup (normalize_vmess_entry d) k = Option.some (vmessNormVal d k) := by
  rw [normalize_vmess_char, dlookup_append, dlookup_map_self hk]

theorem dlookup_norm_vless (d : PyDict) {k : String} (hk : k ∈ WANTED_ORDER_VLESS) :
    dlookup (normalize_vless_entry d) k = Option.some (vlessNormVal d k) := by
  rw [normalize_vless_char, dlookup_append, dlookup_map_self hk]

theorem dlookup_norm_vmess_type (d : PyDict) :
    dlookup (normalize_vmess_entry d) "_type" = Option.some (PyVal.str "vmess") := by
  rw [normalize_vmess_char, dlookup_append, dlookup_map_not_mem (by decide)]
  simp [dlookup]

theorem dlookup_norm_vless_type (d : PyDict) :
    dlookup (normalize_vless_entry d) "_type" = Option.some (PyVal.str "vless") := by
  rw [normalize_vless_char, dlookup_append, dlookup_map_not_mem (by decide)]
  simp [dlookup]

theorem truthy_zero_or_one (v : PyVal) : truthy_to_int v = 0 ∨ truthy_to_int v = 1 := by
  cases v <;> simp only [truthy_to_int] <;> (try split) <;> simp

theorem truthy_int_id (v : PyVal) :
    truthy_to_int (PyVal.int (truthy_to_int v)) = truthy_to_int v := by
  rcases truthy_zero_or_one v with h | h <;> rw [h] <;> decide

theorem vmessNormVal_norm (d : PyDict) (k : String) (hk : k ∈ WANTED_ORDER_VMESS) :
    vmessNormVal (normalize_vmess_entry d) k = vmessNormVal d k := by
  by_cases hp : k = "port"
  · subst hp
    have e1 : vmessNormVal (normalize_vmess_entry d) "port"
        = PyVal.str (pyStr (vmessNormVal d "port")) := by
      rw [vmessNormVal, if_pos rfl, @dlookup_norm_vmess d "port" (by decide)]
    rw [e1]
    cases hs : dlookup d "port" with
    | none =>
      have e2 : vmessNormVal d "port" = PyVal.str "" := by
        rw [vmessNormVal, if_pos rfl, hs]
      rw [e2]
      simp [pyStr]
    | some v =>
      have e2 : vmessNormVal d "port" = PyVal.str (pyStr v) := by
        rw [vmessNormVal, if_pos rfl, hs]
      rw [e2]
      simp [pyStr]
  · by_cases ha : k = "allowInsecure"
    · subst ha
      have e1 : vmessNormVal (normalize_vmess_entry d) "allowInsecure"
          = PyVal.int (truthy_to_int (vmessNormVal d "allowInsecure")) := by
        rw [vmessNormVal, if_neg (by decide), if_pos rfl,
          @dlookup_norm_vmess d "allowInsecure" (by decide)]
      rw [e1]
      cases hs : dlookup d "allowInsecure" with
      | none =>
        have e2 : vmessNormVal d "allowInsecure" = PyVal.int 1 := by
          rw [vmessNormVal, if_neg (by decide), if_pos rfl, hs]
        rw [e2]
        decide
      | some v =>
        have e2 : vmessNormVal d "allowInsecure" = PyVal.int (truthy_to_int v) := by
          rw [vmessNormVal, if_neg (by decide), if_pos rfl, hs]
        rw [e2, truthy_int_id]
    · rw [vmessNormVal, if_neg hp, if_neg ha, dlookup_norm_vmess d hk]

theorem norm_vmess_idem (d : PyDict) :
    normalize_vmess_entry (normalize_vmess_entry d) = normalize_vmess_entry d := by
  calc normalize_vmess_entry (normalize_vmess_entry d)
      = WANTED_ORDER_VMESS.map (fun k => (k, vmessNormVal (normalize_vmess_entry d) k)) ++
        [("_type", PyVal.str "vmess")] := normalize_vmess_char _
    _ = WANTED_ORDER_VMESS.map (fun k => (k, vmessNormVal d k)) ++
        [("_type", PyVal.str "vmess")] := by
        rw [List.map_congr_left (fun a ha => by rw [vmessNormVal_norm d a ha])]
    _ = normalize_vmess_entry d := (normalize_vmess_char d).symm

theorem vlessNormVal_norm (d : PyDict) (k : String) (hk : k ∈ WANTED_ORDER_VLESS) :
    vlessNormVal (normalize_vless_entry d) k = vlessNormVal d k := by
  by_cases hp : k = "port"
  · subst hp
    have e1 : vlessNormVal (normalize_vless_entry d) "port"
        = PyVal.str (pyStr (vlessNormVal d "port")) := by
      rw [vlessNormVal, if_pos rfl, @dlookup_norm_vless d "port" (by decide)]
    rw [e1]
    cases hs : dlookup d "port" with
    | none =>
      have e2 : vlessNormVal d "port" = PyVal.str "" := by
        rw [vlessNormVal, if_pos rfl, hs]
      rw [e2]
      simp [pyStr]
    | some v =>
      have e2 : vlessNormVal d "port" = PyVal.str (pyStr v) := by
        rw [vlessNormVal, if_pos rfl, hs]
      rw [e2]
      simp [pyStr]
  · by_cases ha : k = "allowInsecure"
    · subst ha
      have e1 : vlessNormVal (normalize_vless_entry d) "allowInsecure"
          = PyVal.int (truthy_to_int (vlessNormVal d "allowInsecure")) := by
        rw [vlessNormVal, if_neg (by decide), if_pos rfl,
          @dlookup_norm_vless d "allowInsecure" (by decide)]
      rw [e1]
      cases hs : dlookup d "allowInsecure" with
      | none =>
        have e2 : vlessNormVal d "allowInsecure" = PyVal.int 1 := by
          rw [vlessNormVal, if_neg (by decide), if_pos rfl, hs]
        rw [e2]
        decide
      | some v =>
        have e2 : vlessNormVal d "allowInsecure" = PyVal.int (truthy_to_int v) := by
          rw [vlessNormVal, if_neg (by decide), if_pos rfl, hs]
        rw [e2, truthy_int_id]
    · rw [vlessNormVal, if_neg hp, if_neg ha, dlookup_norm_vless d hk]

theorem norm_vless_idem (d : PyDict) :
    normalize_vless_entry (normalize_vless_entry d) = normalize_vless_entry d := by
  calc normalize_vless_entry (normalize_vless_entry d)
      = WANTED_ORDER_VLESS.map (fun k => (k, vlessNormVal (normalize_vless_entry d) k)) ++
        [("_type", PyVal.str "vless")] := normalize_vless_char _
    _ = WANTED_ORDER_VLESS.map (fun k => (k, vlessNormVal d k)) ++
        [("_type", PyVal.str "vless")] := by
        rw [List.map_congr_left (fun a ha => by rw [vlessNormVal_norm d a ha])]
    _ = normalize_vless_entry d := (normalize_vless_char d).symm

theorem dget_norm_vmess_type (d : PyDict) :
    dget (normalize_vmess_entry d) "_type" PyVal.none = PyVal.str "vmess" := by
  rw [dget, dlookup_norm_vmess_type]
  rfl

theorem dget_norm_vless_type (d : PyDict) :
    dget (normalize_vless_entry d) "_type" PyVal.none = PyVal.str "vless" := by
  rw [dget, dlookup_norm_vless_type]
  rfl

/-! ## Claims -/

/-- C8: normalization is idempotent.  For every raw record `r` (of either
scheme), `normalize(normalize(r)) = normalize(r)` — both through the
`normalize_entry` dispatcher and through each scheme-specific normalizer. -/
theorem claim_C8_normalize_idempotent (d : PyDict) :
    normalize_entry (normalize_entry d) = normalize_entry d ∧
    normalize_vmess_entry (normalize_vmess_entry d) = normalize_vmess_entry d ∧
    normalize_vless_entry (normalize_vless_entry d) = normalize_vless_entry d := by
  refine ⟨?_, norm_vmess_idem d, norm_vless_idem d⟩
  by_cases h : dget d "_type" PyVal.none = PyVal.str "vless"
  · have hin : normalize_entry d = normalize_vless_entry d := by
      rw [normalize_entry, if_pos h]
    rw [hin, normalize_entry, dget_norm_vless_type, if_pos rfl, norm_vless_idem]
  · have hin : normalize_entry d = normalize_vmess_entry d := by
      rw [normalize_entry, if_neg h]
    rw [hin, normalize_entry, dget_norm_vmess_type, if_neg (by decide), norm_vmess_idem]

/-- C4 (counterexample): the claim that the serialized key sequence is
exactly the canonical ordered sequence fails at the raw scheme-A record
`{}`: the serialized record carries the extra discriminator key `_type`
after the canonical fields. -/
theorem claim_C4_cex :
    (normalize_vmess_entry []).map Prod.fst ≠ WANTED_ORDER_VMESS ∧
    (normalize_vless_entry []).map Prod.fst ≠ WANTED_ORDER_VLESS := by
  constructor <;> decide

/-- C4 (amended): for every raw record of either scheme, the serialized form
of its normalized record (whose JSON serialization emits keys in exactly the
association-list order) lists keys in exactly the canonical ordered sequence
for that scheme followed by the discriminator `_type` — no other extra keys
and no missing keys. -/
theorem claim_C4_field_order (d : PyDict) :
    (normalize_vmess_entry d).map Prod.fst = WANTED_ORDER_VMESS ++ ["_type"] ∧
    (normalize_vless_entry d).map Prod.fst = WANTED_ORDER_VLESS ++ ["_type"] := by
  constructor
  · rw [normalize_vmess_char]
    simp only [List.map_append, List.map_map, List.map_cons, List.map_nil]
    rw [show (Prod.fst ∘ fun k => (k, vmessNormVal d k)) = id from rfl, List.map_id]
  · rw [normalize_vless_char]
    simp only [List.map_append, List.map_map, List.map_cons, List.map_nil]
    rw [show (Prod.fst ∘ fun k => (k, vlessNormVal d k)) = id from rfl, List.map_id]

/-- C7: truthy coercion is total and returns exactly `0` or `1` for every
input: booleans map true→1/false→0, numbers map by zero-test, strings map by
trimmed lowercase membership in the fixed set, and every other input type
maps to `0`. -/
theorem claim_C7_truthy_total :
    (∀ v, truthy_to_int v = 0 ∨ truthy_to_int v = 1) ∧
    truthy_to_int (PyVal.bool true) = 1 ∧
    truthy_to_int (PyVal.bool false) = 0 ∧
    (∀ n : Int, truthy_to_int (PyVal.int n) = if n = 0 then 0 else 1) ∧
    (∀ q : Rat, truthy_to_int (PyVal.float q) = if q = 0 then 0 else 1) ∧
    (∀ s : String, truthy_to_int (PyVal.str s) =
      if pyLower (pyStrip s) ∈ ["1", "true", "yes", "y", "on"] then 1 else 0) ∧
    truthy_to_int PyVal.none = 0 ∧
    (∀ xs, truthy_to_int (PyVal.list xs) = 0) ∧
    (∀ xs, truthy_to_int (PyVal.dict xs) = 0) := by
  refine ⟨truthy_zero_or_one, rfl, rfl, ?_, ?_, fun s => rfl, rfl, fun xs => rfl, fun xs => rfl⟩
  · intro n
    by_cases h : n = 0 <;> simp [truthy_to_int, h]
  · intro q
    by_cases h : q = 0 <;> simp [truthy_to_int, h]

set_option maxRecDepth 100000 in
set_option maxHeartbeats 4000000 in
/-- C2 (counterexample): decoding and normalizing the concrete vless line
does not give `ps = "My Label"`; the fragment is kept percent-encoded
(`urlparse` performs no unquoting), so `ps = "My%20Label"`. -/
theorem claim_C2_cex :
    (decode_vmess_or_vless_line c2_input).map normalize_entry = Except.ok c2_expected ∧
    dlookup c2_expected "ps" ≠ Option.some (PyVal.str "My Label") := by
  constructor
  · decide
  · decide

set_option maxRecDepth 100000 in
set_option maxHeartbeats 4000000 in
/-- C2 (amended): decoding the input line
`vless://user-id@host.example:8443?security=tls&sni=sni.example#My%20Label`
and normalizing yields a scheme-B record with id "user-id",
add "host.example", port "8443", ps "My%20Label" (the raw fragment),
security "tls", sni "sni.example", and every remaining canonical scheme-B
field present with its scheme default (`type "tcp"`, `encryption "none"`,
`allowInsecure 1`) or the empty string. -/
theorem claim_C2_vless_scenario :
    (decode_vmess_or_vless_line c2_input).map normalize_entry = Except.ok c2_expected := by
  decide

theorem pyPairs_toList_ofList (d : PyDict) : (PyPairs.ofList d).toList = d := by
  induction d with
  | nil => rfl
  | cons e tl ih => cases e; simp [PyPairs.ofList, PyPairs.toList, ih]

theorem pyList_toList_ofList (l : List PyVal) : (PyList.ofList l).toList = l := by
  induction l with
  | nil => rfl
  | cons x tl ih => simp [PyList.ofList, PyList.toList, ih]

theorem pbind_ok {α β : Type} (a : α) (f : α → Except PyErr β) :
    (bind (Except.ok a) f : Except PyErr β) = f a := rfl

theorem pbind_err {α β : Type} (e : PyErr) (f : α → Except PyErr β) :
    (bind (Except.error e) f : Except PyErr β) = Except.error e := rfl

theorem ppure {α : Type} (a : α) : (pure a : Except PyErr α) = Except.ok a := rfl

theorem getItemStr_dict (w : PyDict) (k : String) :
    getItemStr (PyVal.dict (PyPairs.ofList w)) k =
      match dlookup w k with
      | Option.some v => Except.ok v
      | Option.none => Except.error (PyErr.keyError k) := by
  simp only [getItemStr, getItemD, pyPairs_toList_ofList]

theorem vmess_ps_step (w : PyDict) (rep : String) :
    (if dcontains w "ps" = true then
      match getItemStr (PyVal.dict (PyPairs.ofList w)) "ps" with
      | Except.error e => Except.error e
      | Except.ok old =>
        Except.ok (PyVal.dict (PyPairs.ofList
          (dset w "ps" (PyVal.str (pyStr old ++ " (" ++ rep ++ ")")))))
    else Except.ok (PyVal.dict (PyPairs.ofList w))) =
    Except.ok (PyVal.dict (PyPairs.ofList (subst_ps w rep))) := by
  by_cases h : dcontains w "ps"
  · rw [if_pos h]
    have hsome : (dlookup w "ps").isSome := h
    cases hl : dlookup w "ps" with
    | none => rw [hl] at hsome; simp at hsome
    | some v =>
      simp only [getItemStr, getItemD, pyPairs_toList_ofList, hl]
      simp [subst_ps, h, dget, hl]
  · rw [if_neg h]
    simp [subst_ps, h]

theorem vmess_apply_subst_dict (t : PyDict) (rep : String) :
    vmess_apply_subst (PyVal.dict (PyPairs.ofList t)) rep =
      Except.ok (PyVal.dict (PyPairs.ofList (vmess_subst_dicts t rep))) := by
  rw [vmess_apply_subst]
  simp only [pyContainsStr, pyPairs_toList_ofList]
  simp only [vmess_subst_dicts, subst_sni]
  by_cases h1 : dcontains t "sni"
  · rw [if_pos h1, if_pos h1]
    simp only [setItemStr, pyPairs_toList_ofList, pyContainsStr]
    by_cases h2 : dcontains (dset t "sni" (PyVal.str rep)) "host"
    · rw [if_pos h2, if_pos h2]
      simp only [setItemStr, pyPairs_toList_ofList, pyContainsStr]
      exact vmess_ps_step (dset (dset t "sni" (PyVal.str rep)) "host" (PyVal.str rep)) rep
    · rw [if_neg h2, if_neg h2]
      simp only [setItemStr, pyContainsStr, pyPairs_toList_ofList]
      exact vmess_ps_step (dset t "sni" (PyVal.str rep)) rep
  · rw [if_neg h1, if_neg h1]
    simp only [setItemStr, pyContainsStr, pyPairs_toList_ofList]
    by_cases h2 : dcontains t "host"
    · rw [if_pos h2, if_pos h2]
      simp only [setItemStr, pyPairs_toList_ofList, pyContainsStr]
      exact vmess_ps_step (dset t "host" (PyVal.str rep)) rep
    · rw [if_neg h2, if_neg h2]
      simp only [setItemStr, pyContainsStr, pyPairs_toList_ofList]
      exact vmess_ps_step t rep

theorem vless_apply_subst_dict (t : PyDict) (rep : String) :
    vless_apply_subst (PyVal.dict (PyPairs.ofList t)) rep =
      (vless_subst_dicts t rep).map (fun d => PyVal.dict (PyPairs.ofList d)) := by
  rw [vless_apply_subst]
  simp only [pyContainsStr, pyPairs_toList_ofList]
  simp only [vless_subst_dicts, subst_sni]
  by_cases h1 : dcontains t "sni"
  · rw [if_pos h1, if_pos h1]
    simp only [setItemStr, pyPairs_toList_ofList, pyContainsStr]
    by_cases h2 : dcontains (dset t "sni" (PyVal.str rep)) "host"
    · rw [if_pos h2, if_pos h2, getItemStr_dict]
      cases hl : dlookup (dset t "sni" (PyVal.str rep)) "type" with
      | none => simp [Except.map]
      | some ty =>
        simp only []
        by_cases hex : ty = PyVal.str "xhttp" ∨ ty = PyVal.str "ws"
        · rw [if_pos hex, if_pos hex]
          simp only [setItemStr, pyContainsStr, pyPairs_toList_ofList, Except.map]
          exact vmess_ps_step (dset t "sni" (PyVal.str rep)) rep
        · rw [if_neg hex, if_neg hex]
          simp only [setItemStr, pyPairs_toList_ofList, pyContainsStr, Except.map]
          exact vmess_ps_step (dset (dset t "sni" (PyVal.str rep)) "host" (PyVal.str rep)) rep
    · rw [if_neg h2, if_neg h2]
      simp only [setItemStr, pyContainsStr, pyPairs_toList_ofList, Except.map]
      exact vmess_ps_step (dset t "sni" (PyVal.str rep)) rep
  · rw [if_neg h1, if_neg h1]
    simp only [setItemStr, pyContainsStr, pyPairs_toList_ofList]
    by_cases h2 : dcontains t "host"
    · rw [if_pos h2, if_pos h2, getItemStr_dict]
      cases hl : dlookup t "type" with
      | none => simp [Except.map]
      | some ty =>
        simp only []
        by_cases hex : ty = PyVal.str "xhttp" ∨ ty = PyVal.str "ws"
        · rw [if_pos hex, if_pos hex]
          simp only [setItemStr, pyContainsStr, pyPairs_toList_ofList, Except.map]
          exact vmess_ps_step t rep
        · rw [if_neg hex, if_neg hex]
          simp only [setItemStr, pyPairs_toList_ofList, pyContainsStr, Except.map]
          exact vmess_ps_step (dset t "host" (PyVal.str rep)) rep
    · rw [if_neg h2, if_neg h2]
      simp only [setItemStr, pyContainsStr, pyPairs_toList_ofList, Except.map]
      exact vmess_ps_step t rep

theorem subst_ps_lookup_ne (w : PyDict) (rep : String) (k : String) (h : k ≠ "ps") :
    dlookup (subst_ps w rep) k = dlookup w k := by
  rw [subst_ps]
  split
  · rw [dlookup_dset_ne _ _ _ _ h]
  · rfl

theorem subst_sni_lookup_ne (t : PyDict) (rep : String) (k : String) (h : k ≠ "sni") :
    dlookup (subst_sni t rep) k = dlookup t k := by
  rw [subst_sni]
  split
  · rw [dlookup_dset_ne _ _ _ _ h]
  · rfl

/-- C3: during template substitution, when the template contains a `host`
field: for a scheme-A template, `host` is always overwritten with the
substitution value; for a scheme-B template, `host` is overwritten exactly
when the record's `type` is not in the exempt set `{"xhttp", "ws"}` and left
unchanged otherwise; and the per-substitution operation fails with a
`KeyError`-class error whenever `type` is absent from a scheme-B template
that has `host` (the error is then caught by `make_vless_lines`, which
reports it and skips the substitution). -/
theorem claim_C3_host_rewrite (t : PyDict) (rep : String)
    (hhost : dcontains t "host" = true) :
    (∃ ps, vmess_apply_subst (PyVal.dict (PyPairs.ofList t)) rep =
        Except.ok (PyVal.dict ps) ∧
      dlookup ps.toList "host" = Option.some (PyVal.str rep)) ∧
    (dlookup t "type" = Option.none →
      vless_apply_subst (PyVal.dict (PyPairs.ofList t)) rep =
        Except.error (PyErr.keyError "type")) ∧
    (∀ ty, dlookup t "type" = Option.some ty →
      ¬ (ty = PyVal.str "xhttp" ∨ ty = PyVal.str "ws") →
      ∃ ps, vless_apply_subst (PyVal.dict (PyPairs.ofList t)) rep =
          Except.ok (PyVal.dict ps) ∧
        dlookup ps.toList "host" = Option.some (PyVal.str rep)) ∧
    (∀ ty, dlookup t "type" = Option.some ty →
      (ty = PyVal.str "xhttp" ∨ ty = PyVal.str "ws") →
      ∃ ps, vless_apply_subst (PyVal.dict (PyPairs.ofList t)) rep =
          Except.ok (PyVal.dict ps) ∧
        dlookup ps.toList "host" = dlookup t "host") := by
  have hh1 : dcontains (subst_sni t rep) "host" = true := by
    rw [dcontains, subst_sni_lookup_ne t rep "host" (by decide)]
    exact hhost
  refine ⟨?_, ?_, ?_, ?_⟩
  · refine ⟨PyPairs.ofList (vmess_subst_dicts t rep), vmess_apply_subst_dict t rep, ?_⟩
    rw [pyPairs_toList_ofList]
    simp only [vmess_subst_dicts]
    rw [subst_ps_lookup_ne _ _ _ (by decide), if_pos hh1, dlookup_dset_self]
  · intro hnone
    rw [vless_apply_subst_dict]
    simp only [vless_subst_dicts]
    rw [if_pos hh1, subst_sni_lookup_ne t rep "type" (by decide), hnone]
    rfl
  · intro ty hty hex
    refine ⟨PyPairs.ofList (subst_ps (dset (subst_sni t rep) "host" (PyVal.str rep)) rep), ?_, ?_⟩
    · rw [vless_apply_subst_dict]
      simp only [vless_subst_dicts]
      rw [if_pos hh1, subst_sni_lookup_ne t rep "type" (by decide), hty]
      simp only []
      rw [if_neg hex]
      rfl
    · rw [pyPairs_toList_ofList]
      rw [subst_ps_lookup_ne _ _ _ (by decide), dlookup_dset_self]
  · intro ty hty hex
    refine ⟨PyPairs.ofList (subst_ps (subst_sni t rep) rep), ?_, ?_⟩
    · rw [vless_apply_subst_dict]
      simp only [vless_subst_dicts]
      rw [if_pos hh1, subst_sni_lookup_ne t rep "type" (by decide), hty]
      simp only []
      rw [if_pos hex]
      rfl
    · rw [pyPairs_toList_ofList]
      rw [subst_ps_lookup_ne _ _ _ (by decide), subst_sni_lookup_ne t rep "host" (by decide)]

/-- Witness for C3 at a concrete template and substitution value. -/
theorem claim_C3_host_rewrite_witness :
    dcontains [("host", PyVal.str "old.com"), ("type", PyVal.str "ws")] "host" = true ∧
    (∃ ps, vless_apply_subst
        (PyVal.dict (PyPairs.ofList [("host", PyVal.str "old.com"), ("type", PyVal.str "ws")]))
        "new.io" = Except.ok (PyVal.dict ps) ∧
      dlookup ps.toList "host" =
        dlookup [("host", PyVal.str "old.com"), ("type", PyVal.str "ws")] "host") := by
  refine ⟨by decide, ?_⟩
  exact (claim_C3_host_rewrite
    [("host", PyVal.str "old.com"), ("type", PyVal.str "ws")] "new.io" (by decide)).2.2.2
    (PyVal.str "ws") (by decide) (by decide)

theorem foldl_append_map {α β : Type} (g : α → β) (reps : List α) :
    ∀ acc : List β, reps.foldl (fun out rep => out ++ [g rep]) acc = acc ++ reps.map g := by
  induction reps with
  | nil => intro acc; simp
  | cons r tl ih => intro acc; simp [ih]

theorem make_vmess_lines_eq_map (t : String) (reps : List String) :
    make_vmess_lines t reps = reps.map (vmess_line_for t) := by
  rw [make_vmess_lines, foldl_append_map]
  rfl

theorem listStartsWith_append (p x : List Char) : listStartsWith p (p ++ x) = true := by
  induction p with
  | nil => rfl
  | cons c tl ih => simp [listStartsWith, ih]

theorem strStartsWith_append (pre s : String) : strStartsWith (pre ++ s) pre = true := by
  rw [strStartsWith, String.data_append]
  exact listStartsWith_append pre.data s.data

theorem vmess_line_for_starts (t rep : String) :
    strStartsWith (vmess_line_for t rep) "vmess://" = true := by
  rw [vmess_line_for]
  cases hj : json_loads t with
  | error e =>
    simp only []
    exact strStartsWith_append "vmess://" _
  | ok tv =>
    simp only []
    cases hs : vmess_apply_subst tv rep with
    | error e =>
      simp only []
      exact strStartsWith_append "vmess://" _
    | ok tv2 =>
      simp only []
      exact strStartsWith_append "vmess://" _

theorem make_vless_lines_ok (t : String) : ∀ (reps : List String) (acc : List String),
    (∀ rep ∈ reps, (vless_line_for t rep).isOk = true) →
    reps.foldl (fun out rep =>
      match vless_line_for t rep with
      | Except.ok url => out ++ [url]
      | Except.error _ => out) acc =
    acc ++ reps.map (fun rep => okOr (vless_line_for t rep) "") := by
  intro reps
  induction reps with
  | nil => intro acc _; simp
  | cons r tl ih =>
    intro acc h
    have hr : (vless_line_for t r).isOk = true := h r (List.mem_cons_self r tl)
    cases hl : vless_line_for t r with
    | error e => rw [hl] at hr; simp [Except.isOk, Except.toBool] at hr
    | ok url =>
      simp only [List.foldl_cons, hl]
      rw [ih (acc ++ [url]) (fun rep hrep => h rep (List.mem_cons_of_mem r hrep))]
      simp [okOr, hl]

/-- C6: for every template and substitution list of size M in which every
substitution encodes successfully, the substitution engine returns exactly
M output lines in substitution order: the scheme-A generator returns exactly
the per-substitution encodings, in the order of the substitution list (hence
one line per substitution), and the scheme-B generator returns exactly the
per-substitution encodings, in order, when they all succeed. -/
theorem claim_C6_substitution_count (t : String) (reps : List String) :
    make_vmess_lines t reps = reps.map (vmess_line_for t) ∧
    (make_vmess_lines t reps).length = reps.length ∧
    ((∀ rep ∈ reps, (vless_line_for t rep).isOk = true) →
      make_vless_lines t reps = reps.map (fun rep => okOr (vless_line_for t rep) "") ∧
      (make_vless_lines t reps).length = reps.length) := by
  refine ⟨make_vmess_lines_eq_map t reps, ?_, ?_⟩
  · rw [make_vmess_lines_eq_map]
    exact List.length_map reps _
  · intro h
    have := make_vless_lines_ok t reps [] h
    rw [make_vless_lines, this]
    simp

set_option maxRecDepth 100000 in
set_option maxHeartbeats 4000000 in
/-- Witness for C6 at a concrete scheme-B template and two substitutions. -/
theorem claim_C6_substitution_count_witness :
    (∀ rep ∈ ["a", "b"],
      (vless_line_for (json_dumps [("id", PyVal.str "u"), ("add", PyVal.str "h"),
        ("port", PyVal.str "1"), ("_type", PyVal.str "vless")]) rep).isOk = true) ∧
    (make_vless_lines (json_dumps [("id", PyVal.str "u"), ("add", PyVal.str "h"),
        ("port", PyVal.str "1"), ("_type", PyVal.str "vless")]) ["a", "b"]).length = 2 := by
  refine ⟨by decide, ?_⟩
  exact ((claim_C6_substitution_count (json_dumps [("id", PyVal.str "u"), ("add", PyVal.str "h"),
    ("port", PyVal.str "1"), ("_type", PyVal.str "vless")]) ["a", "b"]).2.2 (by decide)).2

/-- C9: scheme-A line generation is total: for every template string and
substitution list, `make_vmess_lines` returns exactly one `vmess://`-prefixed
line per substitution (never raising), and when the template fails to parse
as JSON the fallback replaces every occurrence of the literal `"vk.com"`
with the substitution value and base64-encodes the result, so no
substitution is ever skipped. -/
theorem claim_C9_vmess_total (t : String) (reps : List String) :
    (make_vmess_lines t reps).length = reps.length ∧
    (∀ l ∈ make_vmess_lines t reps, strStartsWith l "vmess://" = true) ∧
    (∀ e, json_loads t = Except.error e →
      make_vmess_lines t reps =
        reps.map (fun rep => "vmess://" ++ b64OfText (strReplace t "vk.com" rep))) := by
  refine ⟨?_, ?_, ?_⟩
  · rw [make_vmess_lines_eq_map]
    exact List.length_map reps _
  · intro l hl
    rw [make_vmess_lines_eq_map] at hl
    rcases List.mem_map.mp hl with ⟨rep, _, hrep⟩
    rw [← hrep]
    exact vmess_line_for_starts t rep
  · intro e he
    rw [make_vmess_lines_eq_map]
    apply List.map_congr_left
    intro rep _
    rw [vmess_line_for, he]

set_option maxRecDepth 100000 in
set_option maxHeartbeats 4000000 in
/-- Witness for C9's fallback clause at a template that is not JSON. -/
theorem claim_C9_vmess_total_witness :
    json_loads "no json vk.com here" = Except.error (PyErr.valueError "Expecting value") ∧
    make_vmess_lines "no json vk.com here" ["r.io"] =
      ["r.io"].map (fun rep => "vmess://" ++ b64OfText (strReplace "no json vk.com here" "vk.com" rep)) := by
  refine ⟨by decide, ?_⟩
  exact (claim_C9_vmess_total "no json vk.com here" ["r.io"]).2.2
    (PyErr.valueError "Expecting value") (by decide)

theorem vless_query_params_not_mem (config : PyDict) (k : String) (v : PyVal)
    (hv : dlookup config k = Option.some v) (ht : pyTruthy v = false) :
    ¬ k ∈ (vless_query_params config).map Prod.fst := by
  intro hmem
  obtain ⟨pair, hpair, hfst⟩ := List.mem_map.mp hmem
  obtain ⟨k', hk', hf⟩ := List.mem_filterMap.mp hpair
  cases hl : dlookup config k' with
  | none =>
    rw [hl] at hf
    exact Option.noConfusion hf
  | some v' =>
    rw [hl] at hf
    simp only [] at hf
    by_cases hc : pyTruthy v' ∧ v' ≠ PyVal.str ""
    · rw [if_pos hc] at hf
      have hpk : pair = (k', v') := (Option.some.injEq _ _).mp hf.symm
      rw [hpk] at hfst
      have hkk : k' = k := hfst
      rw [hkk] at hl
      rw [hv] at hl
      have hvv : v = v' := ((Option.some.injEq _ _).mp hl)
      rw [← hvv] at hc
      rw [ht] at hc
      exact Bool.noConfusion hc.1
    · rw [if_neg hc] at hf
      exact Option.noConfusion hf

set_option maxRecDepth 100000 in
set_option maxHeartbeats 4000000 in
/-- C10: scheme-B serialization drops every canonical query field whose value
is falsy (`0`, `""`, `[]` are all falsy), not only the empty string; in
particular the normalized C10 record carries `allowInsecure = 0`, its encoding
has no `allowInsecure` query parameter, and the decode-and-normalize round
trip re-injects the default, yielding `allowInsecure = 1`. -/
theorem claim_C10_falsy_query_drop :
    (∀ (config : PyDict) (k : String) (v : PyVal),
        dlookup config k = Option.some v → pyTruthy v = false →
        ¬ k ∈ (vless_query_params config).map Prod.fst) ∧
    (pyTruthy (PyVal.int 0) = false ∧ pyTruthy (PyVal.str "") = false ∧
      pyTruthy (PyVal.list PyList.nil) = false) ∧
    dlookup (normalize_vless_entry c10_record) "allowInsecure"
      = Option.some (PyVal.int 0) ∧
    ¬ "allowInsecure" ∈
        (vless_query_params (normalize_vless_entry c10_record)).map Prod.fst ∧
    (roundtrip_vless c10_record).map (fun d => dlookup d "allowInsecure")
      = Except.ok (Option.some (PyVal.int 1)) := by
  exact ⟨vless_query_params_not_mem, by decide, by decide, by decide, by decide⟩

theorem decode_step_err (acc : DecodeOutcome) (k : Nat) (l : String) (e : PyErr)
    (hs : pyStrip l ≠ "") (hd : decode_vmess_or_vless_line (pyStrip l) = Except.error e) :
    decode_step acc (k, l) = { acc with diags := acc.diags ++ [(k, e)] } := by
  unfold decode_step
  simp only []
  rw [if_neg hs, hd]

theorem decode_step_err_parts (acc : DecodeOutcome) (k : Nat) (l : String) (e : PyErr)
    (hs : pyStrip l ≠ "") (hd : decode_vmess_or_vless_line (pyStrip l) = Except.error e) :
    (decode_step acc (k, l)).written = acc.written ∧
    (decode_step acc (k, l)).outLines = acc.outLines ∧
    (decode_step acc (k, l)).diags = acc.diags ++ [(k, e)] := by
  refine ⟨?_, ?_, ?_⟩ <;> rw [decode_step_err acc k l e hs hd]

theorem decode_step_ok (acc : DecodeOutcome) (k : Nat) (l : String) (d : PyDict)
    (hs : pyStrip l ≠ "") (hd : decode_vmess_or_vless_line (pyStrip l) = Except.ok d) :
    (decode_step acc (k, l)).written = acc.written + 1 ∧
    (decode_step acc (k, l)).outLines.length = acc.outLines.length + 1 ∧
    (decode_step acc (k, l)).diags = acc.diags := by
  unfold decode_step
  simp only []
  rw [if_neg hs, hd]
  simp only []
  by_cases hty : dget (normalize_entry d) "_type" PyVal.none = PyVal.str "vmess"
  · rw [if_pos hty]
    simp
  · rw [if_neg hty]
    simp

theorem decode_fold_good (lines : List String)
    (h : ∀ l ∈ lines, pyStrip l ≠ "" ∧ exceptOk (decode_vmess_or_vless_line (pyStrip l)) = true) :
    ∀ (i : Nat) (acc : DecodeOutcome),
      ((lines.enumFrom i).foldl decode_step acc).written = acc.written + lines.length ∧
      ((lines.enumFrom i).foldl decode_step acc).outLines.length
        = acc.outLines.length + lines.length ∧
      ((lines.enumFrom i).foldl decode_step acc).diags = acc.diags := by
  induction lines with
  | nil =>
    intro i acc
    simp [List.enumFrom]
  | cons x xs ih =>
    intro i acc
    obtain ⟨hs, hok⟩ := h x (List.mem_cons_self x xs)
    cases hd : decode_vmess_or_vless_line (pyStrip x) with
    | error e =>
      rw [hd] at hok
      simp [exceptOk] at hok
    | ok d =>
      have hstep := decode_step_ok acc i x d hs hd
      have ihx := ih (fun l hl => h l (List.mem_cons_of_mem x hl)) (i + 1) (decode_step acc (i, x))
      simp only [List.enumFrom, List.foldl_cons, List.length_cons]
      refine ⟨?_, ?_, ?_⟩
      · rw [ihx.1, hstep.1]
        omega
      · rw [ihx.2.1, hstep.2.1]
        omega
      · rw [ihx.2.2, hstep.2.2]

theorem enumFrom_append_eq (xs ys : List String) : ∀ n,
    List.enumFrom n (xs ++ ys) = List.enumFrom n xs ++ List.enumFrom (n + xs.length) ys := by
  induction xs with
  | nil =>
    intro n
    simp [List.enumFrom]
  | cons x xt ih =>
    intro n
    have h2 : List.enumFrom (n + 1) (xt ++ ys)
        = List.enumFrom (n + 1) xt ++ List.enumFrom (n + 1 + xt.length) ys := ih (n + 1)
    have hn : n + 1 + xt.length = n + (xt.length + 1) := by omega
    rw [hn] at h2
    show (n, x) :: List.enumFrom (n + 1) (xt ++ ys)
        = (n, x) :: (List.enumFrom (n + 1) xt ++ List.enumFrom (n + (xt.length + 1)) ys)
    rw [h2]

/-- C5: with exactly one malformed line among otherwise decodable nonblank
lines, the batch decoder writes exactly N-1 records to the replacement file
(which is the only content that ever reaches the source path: the temporary
file is renamed over it after the full pass), emits exactly one diagnostic
and that diagnostic references the malformed line's 1-based number. -/
theorem claim_C5_single_bad_line (pre post : List String) (bad : String)
    (hpre : ∀ l ∈ pre, pyStrip l ≠ "" ∧ exceptOk (decode_vmess_or_vless_line (pyStrip l)) = true)
    (hbadS : pyStrip bad ≠ "")
    (hbad : exceptOk (decode_vmess_or_vless_line (pyStrip bad)) = false)
    (hpost : ∀ l ∈ post, pyStrip l ≠ "" ∧ exceptOk (decode_vmess_or_vless_line (pyStrip l)) = true) :
    (decode_file_inplace (pre ++ bad :: post)).written = (pre ++ bad :: post).length - 1 ∧
    (decode_file_inplace (pre ++ bad :: post)).outLines.length = (pre ++ bad :: post).length - 1 ∧
    (decode_file_inplace (pre ++ bad :: post)).diags.map Prod.fst = [pre.length + 1] := by
  cases hd : decode_vmess_or_vless_line (pyStrip bad) with
  | ok d =>
    rw [hd] at hbad
    simp [exceptOk] at hbad
  | error e =>
    have hsplit : List.enumFrom 1 (pre ++ bad :: post)
        = List.enumFrom 1 pre
          ++ (1 + pre.length, bad) :: List.enumFrom (1 + pre.length + 1) post := by
      rw [enumFrom_append_eq]
      simp [List.enumFrom]
    have h1 := decode_fold_good pre hpre 1 ⟨[], [], 0, 0, 0⟩
    have hparts := decode_step_err_parts ((pre.enumFrom 1).foldl decode_step ⟨[], [], 0, 0, 0⟩)
      (1 + pre.length) bad e hbadS hd
    have h3 := decode_fold_good post hpost (1 + pre.length + 1)
      (decode_step ((pre.enumFrom 1).foldl decode_step ⟨[], [], 0, 0, 0⟩) (1 + pre.length, bad))
    have hzW : (⟨[], [], 0, 0, 0⟩ : DecodeOutcome).written = 0 := rfl
    have hzL : (⟨[], [], 0, 0, 0⟩ : DecodeOutcome).outLines.length = 0 := rfl
    have hzD : (⟨[], [], 0, 0, 0⟩ : DecodeOutcome).diags = [] := rfl
    have hlen : (pre ++ bad :: post).length = pre.length + post.length + 1 := by
      simp only [List.length_append, List.length_cons]
      omega
    unfold decode_file_inplace
    rw [hsplit, List.foldl_append, List.foldl_cons]
    refine ⟨?_, ?_, ?_⟩
    · rw [h3.1, hparts.1, h1.1, hzW, hlen]
      omega
    · rw [h3.2.1, hparts.2.1, h1.2.1, hzL, hlen]
      omega
    · rw [h3.2.2, hparts.2.2, h1.2.2, hzD]
      simp only [List.nil_append, List.map_cons, List.map_nil, List.cons.injEq, and_true]
      omega

set_option maxRecDepth 100000 in
set_option maxHeartbeats 4000000 in
/-- Witness for C5 on a concrete three-line file whose second line is
malformed: two records written, one diagnostic naming line 2. -/
theorem claim_C5_single_bad_line_witness :
    (decode_file_inplace ["vless://u@h:1#l", "nope", "vless://u@h:2#m"]).written = 2 ∧
    (decode_file_inplace ["vless://u@h:1#l", "nope", "vless://u@h:2#m"]).outLines.length = 2 ∧
    (decode_file_inplace ["vless://u@h:1#l", "nope", "vless://u@h:2#m"]).diags.map Prod.fst
      = [2] := by
  exact claim_C5_single_bad_line ["vless://u@h:1#l"] ["vless://u@h:2#m"] "nope"
    (by decide) (by decide) (by decide) (by decide)

/-! ## Character-class lemmas (C1 round trip) -/

theorem safe_ranges (c : Char) (h : safeChar c = true) :
    (48 ≤ c.toNat ∧ c.toNat ≤ 57) ∨ (65 ≤ c.toNat ∧ c.toNat ≤ 90) ∨
    (97 ≤ c.toNat ∧ c.toNat ≤ 122) ∨ c.toNat = 45 ∨ c.toNat = 46 ∨
    c.toNat = 95 ∨ c.toNat = 126 := by
  simp only [safeChar, Char.isAlphanum, Char.isAlpha, Char.isUpper, Char.isLower, Char.isDigit,
    Bool.or_eq_true, Bool.and_eq_true, decide_eq_true_eq] at h
  rcases h with (((((⟨h1, h2⟩ | ⟨h1, h2⟩) | ⟨h1, h2⟩) | h) | h) | h) | h
  · exact Or.inr (Or.inl ⟨h1, h2⟩)
  · exact Or.inr (Or.inr (Or.inl ⟨h1, h2⟩))
  · exact Or.inl ⟨h1, h2⟩
  · subst h; exact Or.inr (Or.inr (Or.inr (Or.inl rfl)))
  · subst h; exact Or.inr (Or.inr (Or.inr (Or.inr (Or.inl rfl))))
  · subst h; exact Or.inr (Or.inr (Or.inr (Or.inr (Or.inr (Or.inl rfl)))))
  · subst h; exact Or.inr (Or.inr (Or.inr (Or.inr (Or.inr (Or.inr rfl)))))

theorem safe_toNat_bounds (c : Char) (h : safeChar c = true) :
    33 ≤ c.toNat ∧ c.toNat < 128 := by
  rcases safe_ranges c h with ⟨a, b⟩ | ⟨a, b⟩ | ⟨a, b⟩ | a | a | a | a <;> omega

theorem safe_ne_char (c d : Char) (h : safeChar c = true) (hd : safeChar d = false) :
    c ≠ d := by
  intro he
  rw [he, hd] at h
  exact Bool.noConfusion h

theorem space_not_safe (c : Char) (h : pySpace c = true) : safeChar c = false := by
  simp only [pySpace, Bool.or_eq_true, decide_eq_true_eq] at h
  rcases h with ((((h | h) | h) | h) | h) | h <;> subst h <;> decide

theorem safe_not_space (c : Char) (h : safeChar c = true) : pySpace c = false := by
  cases hp : pySpace c
  · rfl
  · rw [space_not_safe c hp] at h
    exact Bool.noConfusion h

/-! ## Strip / partition / split lemmas -/

theorem dropLeading_head_false (p : Char → Bool) (c : Char) (tl : List Char)
    (h : p c = false) : dropLeading p (c :: tl) = c :: tl := by
  simp [dropLeading, h]

theorem stripBoth_id (p : Char → Bool) (l : List Char)
    (h : ∀ c ∈ l, p c = false) : stripBoth p l = l := by
  unfold stripBoth
  cases hl : l.reverse with
  | nil =>
    have : l = [] := by
      have := congrArg List.reverse hl
      simpa using this
    subst this
    rfl
  | cons c tl =>
    have hcl : c ∈ l := by
      have : c ∈ l.reverse := by rw [hl]; exact List.mem_cons_self c tl
      exact List.mem_reverse.mp this
    rw [dropLeading_head_false p c tl (h c hcl), ← hl, List.reverse_reverse]
    cases l with
    | nil => rfl
    | cons d dl => exact dropLeading_head_false p d dl (h d (List.mem_cons_self d dl))

theorem pyStrip_id (s : String) (h : ∀ c ∈ s.data, pySpace c = false) :
    pyStrip s = s := by
  unfold pyStrip
  rw [stripBoth_id pySpace s.data h]

theorem partitionChar_not_mem (c : Char) (l : List Char) (h : c ∉ l) :
    partitionChar c l = (l, false, []) := by
  induction l with
  | nil => rfl
  | cons x tl ih =>
    have hx : x ≠ c := fun he => h (he ▸ List.mem_cons_self x tl)
    have htl : c ∉ tl := fun hm => h (List.mem_cons_of_mem x hm)
    simp [partitionChar, hx, ih htl]

theorem partitionChar_found (c : Char) (xs ys : List Char) (h : c ∉ xs) :
    partitionChar c (xs ++ c :: ys) = (xs, true, ys) := by
  induction xs with
  | nil => simp [partitionChar]
  | cons x tl ih =>
    have hx : x ≠ c := fun he => h (he ▸ List.mem_cons_self x tl)
    have htl : c ∉ tl := fun hm => h (List.mem_cons_of_mem x hm)
    simp [partitionChar, hx, ih htl]

theorem rpartitionChar_found (c : Char) (xs ys : List Char) (hys : c ∉ ys) :
    rpartitionChar c (xs ++ c :: ys) = (xs, true, ys) := by
  unfold rpartitionChar
  have hrev : (xs ++ c :: ys).reverse = ys.reverse ++ c :: xs.reverse := by
    simp
  have hnm : c ∉ ys.reverse := fun hm => hys (List.mem_reverse.mp hm)
  rw [hrev, partitionChar_found c ys.reverse xs.reverse hnm]
  simp

theorem rpartitionChar_not_mem (c : Char) (l : List Char) (h : c ∉ l) :
    rpartitionChar c l = ([], false, l) := by
  unfold rpartitionChar
  have hnm : c ∉ l.reverse := fun hm => h (List.mem_reverse.mp hm)
  rw [partitionChar_not_mem c l.reverse hnm]
  simp

theorem takeUntilAnyOf_no_stop (stops : List Char) (l : List Char)
    (h : ∀ x ∈ l, x ∉ stops) : takeUntilAnyOf stops l = l := by
  induction l with
  | nil => rfl
  | cons x tl ih =>
    simp [takeUntilAnyOf, h x (List.mem_cons_self x tl),
      ih (fun y hy => h y (List.mem_cons_of_mem x hy))]

theorem takeUntilAnyOf_found (stops : List Char) (xs ys : List Char) (s : Char)
    (hxs : ∀ x ∈ xs, x ∉ stops) (hs : s ∈ stops) :
    takeUntilAnyOf stops (xs ++ s :: ys) = xs := by
  induction xs with
  | nil => simp [takeUntilAnyOf, hs]
  | cons x tl ih =>
    simp [takeUntilAnyOf, hxs x (List.mem_cons_self x tl),
      ih (fun y hy => hxs y (List.mem_cons_of_mem x hy))]

theorem dropUntilAnyOf_found (stops : List Char) (xs ys : List Char) (s : Char)
    (hxs : ∀ x ∈ xs, x ∉ stops) (hs : s ∈ stops) :
    dropUntilAnyOf stops (xs ++ s :: ys) = s :: ys := by
  induction xs with
  | nil => simp [dropUntilAnyOf, hs]
  | cons x tl ih =>
    simp [dropUntilAnyOf, hxs x (List.mem_cons_self x tl),
      ih (fun y hy => hxs y (List.mem_cons_of_mem x hy))]

theorem splitOnChar_no_sep (c : Char) (l : List Char) (h : c ∉ l) :
    splitOnChar c l = [l] := by
  induction l with
  | nil => rfl
  | cons x tl ih =>
    have hx : x ≠ c := fun he => h (he ▸ List.mem_cons_self x tl)
    have htl : c ∉ tl := fun hm => h (List.mem_cons_of_mem x hm)
    simp [splitOnChar, hx, ih htl]

theorem splitOnChar_append (c : Char) (xs ys : List Char) (h : c ∉ xs) :
    splitOnChar c (xs ++ c :: ys) = xs :: splitOnChar c ys := by
  induction xs with
  | nil =>
    simp [splitOnChar]
  | cons x tl ih =>
    have hx : x ≠ c := fun he => h (he ▸ List.mem_cons_self x tl)
    have htl : c ∉ tl := fun hm => h (List.mem_cons_of_mem x hm)
    have h2 := ih htl
    simp [splitOnChar, h2, hx]

/-! ## Decimal representation lemmas -/

theorem toNat_ofNat_small (n : Nat) (h : n < 55296) : (Char.ofNat n).toNat = n := by
  have hv : n.isValidChar := Or.inl h
  simp [Char.ofNat, hv, Char.toNat, Char.ofNatAux, UInt32.toNat, BitVec.toNat_ofNatLt]

theorem digitChar10_toNat (d : Nat) (h : d < 10) : (digitChar10 d).toNat = 48 + d := by
  unfold digitChar10
  exact toNat_ofNat_small (48 + d) (by omega)

theorem digitChar10_safe (d : Nat) (h : d < 10) : safeChar (digitChar10 d) = true := by
  have ht := digitChar10_toNat d h
  simp only [safeChar, Char.isAlphanum, Char.isAlpha, Char.isUpper, Char.isLower, Char.isDigit,
    Bool.or_eq_true, Bool.and_eq_true, decide_eq_true_eq]
  refine Or.inl (Or.inl (Or.inl (Or.inl (Or.inr ⟨?_, ?_⟩))))
  · show 48 ≤ (digitChar10 d).toNat
    omega
  · show (digitChar10 d).toNat ≤ 57
    omega

theorem digitVal?_digitChar10 (d : Nat) (h : d < 10) :
    digitVal? (digitChar10 d) = Option.some d := by
  have ht := digitChar10_toNat d h
  unfold digitVal?
  rw [if_pos]
  · rw [ht]
    simp
  · constructor
    · show 48 ≤ (digitChar10 d).toNat
      omega
    · show (digitChar10 d).toNat ≤ 57
      omega

theorem isDigitC_digitChar10 (d : Nat) (h : d < 10) :
    isDigitC (digitChar10 d) = true := by
  have ht := digitChar10_toNat d h
  simp only [isDigitC, Bool.and_eq_true, decide_eq_true_eq]
  constructor
  · show 48 ≤ (digitChar10 d).toNat
    omega
  · show (digitChar10 d).toNat ≤ 57
    omega

theorem digitsVal_append_one (xs : List Char) (c : Char) :
    digitsVal (xs ++ [c]) = digitsVal xs * 10 + (digitVal? c).getD 0 := by
  unfold digitsVal
  rw [List.foldl_append]
  rfl

theorem natReprFuel_spec : ∀ (fuel n : Nat), n < fuel →
    natReprFuel fuel n ≠ [] ∧
    (∀ c ∈ natReprFuel fuel n, ∃ d, d < 10 ∧ c = digitChar10 d) ∧
    digitsVal (natReprFuel fuel n) = n := by
  intro fuel
  induction fuel with
  | zero => intro n h; omega
  | succ f ih =>
    intro n h
    by_cases hn : n < 10
    · unfold natReprFuel
      rw [if_pos hn]
      refine ⟨by simp, ?_, ?_⟩
      · intro c hc
        simp only [List.mem_singleton] at hc
        exact ⟨n, hn, hc⟩
      · unfold digitsVal
        simp [digitVal?_digitChar10 n hn]
    · unfold natReprFuel
      rw [if_neg hn]
      have hdiv : n / 10 < f := by omega
      obtain ⟨hne, hdig, hval⟩ := ih (n / 10) hdiv
      refine ⟨by simp, ?_, ?_⟩
      · intro c hc
        rcases List.mem_append.mp hc with hc1 | hc2
        · exact hdig c hc1
        · simp only [List.mem_singleton] at hc2
          exact ⟨n % 10, by omega, hc2⟩
      · rw [digitsVal_append_one, hval, digitVal?_digitChar10 (n % 10) (by omega)]
        simp only [Option.getD_some]
        omega

theorem natReprL_ne_nil (n : Nat) : natReprL n ≠ [] :=
  (natReprFuel_spec (n + 1) n (by omega)).1

theorem natReprL_digits (n : Nat) :
    ∀ c ∈ natReprL n, ∃ d, d < 10 ∧ c = digitChar10 d :=
  (natReprFuel_spec (n + 1) n (by omega)).2.1

theorem digitsVal_natReprL (n : Nat) : digitsVal (natReprL n) = n :=
  (natReprFuel_spec (n + 1) n (by omega)).2.2

theorem natReprL_safe (n : Nat) : ∀ c ∈ natReprL n, safeChar c = true := by
  intro c hc
  obtain ⟨d, hd, he⟩ := natReprL_digits n c hc
  rw [he]
  exact digitChar10_safe d hd

theorem natReprL_isDigit (n : Nat) : ∀ c ∈ natReprL n, isDigitC c = true := by
  intro c hc
  obtain ⟨d, hd, he⟩ := natReprL_digits n c hc
  rw [he]
  exact isDigitC_digitChar10 d hd

theorem hasSubstr_uu_false (l : List Char) (h : ∀ c ∈ l, c ≠ '_') :
    hasSubstr ['_', '_'] l = false := by
  induction l with
  | nil => rfl
  | cons c tl ih =>
    have hc : c ≠ '_' := h c (List.mem_cons_self c tl)
    have h2 := ih (fun x hx => h x (List.mem_cons_of_mem c hx))
    simp [hasSubstr, listStartsWith, hc, Ne.symm hc, h2]

theorem pyDigitsOk (l : List Char) (hd : ∀ c ∈ l, isDigitC c = true) (hn : l ≠ []) :
    (l ≠ [] ∧ l.all (fun c => isDigitC c ∨ c = '_') ∧ l.head? ≠ Option.some '_' ∧
      l.getLast? ≠ Option.some '_' ∧ ¬ hasSubstr ['_', '_'] l = true) := by
  have hne : ∀ c ∈ l, c ≠ '_' := by
    intro c hc he
    have hx := hd c hc
    rw [he] at hx
    exact Bool.noConfusion hx
  refine ⟨hn, ?_, ?_, ?_, ?_⟩
  · rw [List.all_eq_true]
    intro c hc
    simp only [Bool.or_eq_true, decide_eq_true_eq]
    exact Or.inl (hd c hc)
  · intro hh
    have : '_' ∈ l := List.mem_of_mem_head? hh
    exact hne '_' this rfl
  · intro hh
    have : '_' ∈ l := List.mem_of_mem_getLast? hh
    exact hne '_' this rfl
  · rw [hasSubstr_uu_false l hne]
    exact Bool.noConfusion

theorem pyIntOfString?_digits (l : List Char) (hd : ∀ c ∈ l, isDigitC c = true)
    (hs : ∀ c ∈ l, safeChar c = true) (hn : l ≠ []) :
    pyIntOfString? ⟨l⟩ = Option.some ((digitsVal l : Int)) := by
  unfold pyIntOfString?
  have hstrip : stripBoth pySpace (String.mk l).data = l := by
    refine stripBoth_id pySpace _ ?_
    intro c hc
    exact safe_not_space c (hs c hc)
  simp only [hstrip]
  have h1 : ¬ l.head? = Option.some '-' := by
    intro hh
    have hx := hd '-' (List.mem_of_mem_head? hh)
    exact absurd hx (by decide)
  have h2 : ¬ l.head? = Option.some '+' := by
    intro hh
    have hx := hd '+' (List.mem_of_mem_head? hh)
    exact absurd hx (by decide)
  rw [if_neg h1, if_neg h2, if_neg h1, if_pos (pyDigitsOk l hd hn)]
  have hf : l.filter isDigitC = l := by
    rw [List.filter_eq_self]
    exact hd
  rw [hf]
  simp

theorem pyIntOfString?_natReprL (n : Nat) :
    pyIntOfString? ⟨natReprL n⟩ = Option.some (n : Int) := by
  rw [pyIntOfString?_digits (natReprL n) (natReprL_isDigit n) (natReprL_safe n)
    (natReprL_ne_nil n), digitsVal_natReprL]

/-! ## Base64 and UTF-8 lemmas -/

theorem b64val?_b64char : ∀ n, n < 64 → b64val? (b64char n) = Option.some n := by decide

theorem b64char_ne_eq : ∀ n, n < 64 → b64char n ≠ '=' := by decide

theorem b64char_lt128 : ∀ n, n < 64 → (b64char n).toNat < 128 := by decide

theorem b64char_not_space : ∀ n, n < 64 → pySpace (b64char n) = false := by decide

theorem b64decodeGroups_encode : ∀ (fuel : Nat) (bs : List Nat), bs.length ≤ fuel →
    (∀ x ∈ bs, x < 256) → b64decodeGroups (b64encodeBytes bs) = Option.some bs := by
  intro fuel
  induction fuel with
  | zero =>
    intro bs hlen _
    have : bs = [] := List.eq_nil_of_length_eq_zero (by omega)
    subst this
    rfl
  | succ f ih =>
    intro bs hlen hb
    match bs with
    | [] => rfl
    | [a] =>
      have ha : a < 256 := hb a (by simp)
      have h1 : b64val? (b64char (a / 4)) = Option.some (a / 4) := b64val?_b64char _ (by omega)
      have h2 : b64val? (b64char (a % 4 * 16)) = Option.some (a % 4 * 16) :=
        b64val?_b64char _ (by omega)
      show b64decodeGroups [b64char (a / 4), b64char (a % 4 * 16), '=', '='] = Option.some [a]
      simp only [b64decodeGroups, h1, h2]
      rw [if_pos (by simp)]
      have he : a / 4 * 4 + a % 4 * 16 / 16 = a := by omega
      rw [he]
    | [a, b] =>
      have ha : a < 256 := hb a (by simp)
      have hbb : b < 256 := hb b (by simp)
      have h1 : b64val? (b64char (a / 4)) = Option.some (a / 4) := b64val?_b64char _ (by omega)
      have h2 : b64val? (b64char (a % 4 * 16 + b / 16)) = Option.some (a % 4 * 16 + b / 16) :=
        b64val?_b64char _ (by omega)
      have h3 : b64val? (b64char (b % 16 * 4)) = Option.some (b % 16 * 4) :=
        b64val?_b64char _ (by omega)
      show b64decodeGroups [b64char (a / 4), b64char (a % 4 * 16 + b / 16),
        b64char (b % 16 * 4), '='] = Option.some [a, b]
      simp only [b64decodeGroups, h1, h2, h3]
      rw [if_neg (fun hc => b64char_ne_eq (b % 16 * 4) (by omega) hc.1),
        if_pos (by simp)]
      have e1 : a / 4 * 4 + (a % 4 * 16 + b / 16) / 16 = a := by omega
      have e2 : (a % 4 * 16 + b / 16) % 16 * 16 + b % 16 * 4 / 4 = b := by omega
      rw [e1, e2]
    | a :: b :: c :: rest =>
      have ha : a < 256 := hb a (by simp)
      have hbb : b < 256 := hb b (by simp)
      have hc : c < 256 := hb c (by simp)
      have h1 : b64val? (b64char (a / 4)) = Option.some (a / 4) := b64val?_b64char _ (by omega)
      have h2 : b64val? (b64char (a % 4 * 16 + b / 16)) = Option.some (a % 4 * 16 + b / 16) :=
        b64val?_b64char _ (by omega)
      have h3 : b64val? (b64char (b % 16 * 4 + c / 64)) = Option.some (b % 16 * 4 + c / 64) :=
        b64val?_b64char _ (by omega)
      have h4 : b64val? (b64char (c % 64)) = Option.some (c % 64) :=
        b64val?_b64char _ (by omega)
      have hrest : b64decodeGroups (b64encodeBytes rest) = Option.some rest := by
        refine ih rest ?_ ?_
        · simp only [List.length_cons] at hlen
          omega
        · intro x hx
          refine hb x ?_
          simp only [List.mem_cons]
          exact Or.inr (Or.inr (Or.inr hx))
      show b64decodeGroups (b64char (a / 4) :: b64char (a % 4 * 16 + b / 16) ::
        b64char (b % 16 * 4 + c / 64) :: b64char (c % 64) :: b64encodeBytes rest)
        = Option.some (a :: b :: c :: rest)
      simp only [b64decodeGroups, h1, h2, h3, h4]
      rw [if_neg (fun hcc => b64char_ne_eq (b % 16 * 4 + c / 64) (by omega) hcc.1),
        if_neg (fun hcc => b64char_ne_eq (c % 64) (by omega) hcc.1), hrest]
      have e1 : a / 4 * 4 + (a % 4 * 16 + b / 16) / 16 = a := by omega
      have e2 : (a % 4 * 16 + b / 16) % 16 * 16 + (b % 16 * 4 + c / 64) / 4 = b := by omega
      have e3 : (b % 16 * 4 + c / 64) % 4 * 64 + c % 64 = c := by omega
      rw [e1, e2, e3]
      rfl

theorem b64encode_chars : ∀ (fuel : Nat) (bs : List Nat), bs.length ≤ fuel →
    (∀ x ∈ bs, x < 256) →
    ∀ c ∈ b64encodeBytes bs, (∃ k, k < 64 ∧ c = b64char k) ∨ c = '=' := by
  intro fuel
  induction fuel with
  | zero =>
    intro bs hlen _
    have : bs = [] := List.eq_nil_of_length_eq_zero (by omega)
    subst this
    intro c hcm
    exact absurd hcm (by simp [b64encodeBytes])
  | succ f ih =>
    intro bs hlen hb
    match bs with
    | [] =>
      intro c hcm
      exact absurd hcm (by simp [b64encodeBytes])
    | [a] =>
      have ha : a < 256 := hb a (by simp)
      intro c hcm
      show (∃ k, k < 64 ∧ c = b64char k) ∨ c = '='
      simp only [b64encodeBytes, List.mem_cons, List.not_mem_nil, or_false] at hcm
      rcases hcm with h | h | h | h
      · exact Or.inl ⟨a / 4, by omega, h⟩
      · exact Or.inl ⟨a % 4 * 16, by omega, h⟩
      · exact Or.inr h
      · exact Or.inr h
    | [a, b] =>
      have ha : a < 256 := hb a (by simp)
      have hbb : b < 256 := hb b (by simp)
      intro c hcm
      show (∃ k, k < 64 ∧ c = b64char k) ∨ c = '='
      simp only [b64encodeBytes, List.mem_cons, List.not_mem_nil, or_false] at hcm
      rcases hcm with h | h | h | h
      · exact Or.inl ⟨a / 4, by omega, h⟩
      · exact Or.inl ⟨a % 4 * 16 + b / 16, by omega, h⟩
      · exact Or.inl ⟨b % 16 * 4, by omega, h⟩
      · exact Or.inr h
    | a :: b :: c0 :: rest =>
      have ha : a < 256 := hb a (by simp)
      have hbb : b < 256 := hb b (by simp)
      have hc0 : c0 < 256 := hb c0 (by simp)
      intro c hcm
      show (∃ k, k < 64 ∧ c = b64char k) ∨ c = '='
      have hcm2 : c = b64char (a / 4) ∨ c = b64char (a % 4 * 16 + b / 16) ∨
          c = b64char (b % 16 * 4 + c0 / 64) ∨ c = b64char (c0 % 64) ∨
          c ∈ b64encodeBytes rest := by
        simpa only [b64encodeBytes, List.mem_cons] using hcm
      rcases hcm2 with h | h | h | h | h
      · exact Or.inl ⟨a / 4, by omega, h⟩
      · exact Or.inl ⟨a % 4 * 16 + b / 16, by omega, h⟩
      · exact Or.inl ⟨b % 16 * 4 + c0 / 64, by omega, h⟩
      · exact Or.inl ⟨c0 % 64, by omega, h⟩
      · refine ih rest ?_ ?_ c h
        · simp only [List.length_cons] at hlen
          omega
        · intro x hx
          refine hb x ?_
          simp only [List.mem_cons]
          exact Or.inr (Or.inr (Or.inr hx))

theorem b64encode_len : ∀ (fuel : Nat) (bs : List Nat), bs.length ≤ fuel →
    (b64encodeBytes bs).length % 4 = 0 := by
  intro fuel
  induction fuel with
  | zero =>
    intro bs hlen
    have : bs = [] := List.eq_nil_of_length_eq_zero (by omega)
    subst this
    rfl
  | succ f ih =>
    intro bs hlen
    match bs with
    | [] => rfl
    | [a] => simp [b64encodeBytes]
    | [a, b] => simp [b64encodeBytes]
    | a :: b :: c :: rest =>
      show (b64char (a / 4) :: b64char (a % 4 * 16 + b / 16) ::
        b64char (b % 16 * 4 + c / 64) :: b64char (c % 64) :: b64encodeBytes rest).length % 4 = 0
      have hr := ih rest (by simp only [List.length_cons] at hlen; omega)
      simp only [List.length_cons]
      omega

theorem b64decodePy_encode (bs : List Nat) (hb : ∀ x ∈ bs, x < 256) :
    b64decodePy (b64encodeBytes bs) = Option.some bs := by
  unfold b64decodePy
  have hchars := b64encode_chars bs.length bs (Nat.le_refl _) hb
  have hfilt : (b64encodeBytes bs).filter (fun c => (b64val? c).isSome || c = '=')
      = b64encodeBytes bs := by
    rw [List.filter_eq_self]
    intro c hc
    rcases hchars c hc with ⟨k, hk, he⟩ | he
    · subst he
      simp [b64val?_b64char k hk]
    · subst he
      simp
  simp only [hfilt]
  rw [if_pos (b64encode_len bs.length bs (Nat.le_refl _)),
    b64decodeGroups_encode bs.length bs (Nat.le_refl _) hb]

theorem utf8EncodeChar_ascii (c : Char) (h : c.toNat < 128) :
    utf8EncodeChar c = [c.toNat] := by
  unfold utf8EncodeChar
  rw [if_pos h]

theorem utf8Encode_ascii (l : List Char) (h : ∀ c ∈ l, c.toNat < 128) :
    utf8Encode ⟨l⟩ = l.map Char.toNat := by
  unfold utf8Encode
  show (l.map utf8EncodeChar).flatten = l.map Char.toNat
  induction l with
  | nil => rfl
  | cons c tl ih =>
    have hc : c.toNat < 128 := h c (List.mem_cons_self c tl)
    have h2 := ih (fun x hx => h x (List.mem_cons_of_mem c hx))
    simp only [List.map_cons, List.flatten_cons, utf8EncodeChar_ascii c hc, h2,
      List.singleton_append]

theorem utf8FirstChar_ascii (b : Nat) (tl : List Nat) (h : b < 128) :
    utf8FirstChar (b :: tl) = Option.some (Char.ofNat b, tl) := by
  unfold utf8FirstChar
  simp only []
  rw [if_pos h]

theorem utf8DecodeFuel_ascii : ∀ (fuel : Nat) (l : List Char), l.length ≤ fuel →
    (∀ c ∈ l, c.toNat < 128) →
    utf8DecodeFuel fuel (l.map Char.toNat) = Option.some l := by
  intro fuel
  induction fuel with
  | zero =>
    intro l hlen _
    have : l = [] := List.eq_nil_of_length_eq_zero (by omega)
    subst this
    rfl
  | succ f ih =>
    intro l hlen h
    match l with
    | [] => rfl
    | c :: tl =>
      have hc : c.toNat < 128 := h c (List.mem_cons_self c tl)
      have h2 := ih tl (by simp only [List.length_cons] at hlen; omega)
        (fun x hx => h x (List.mem_cons_of_mem c hx))
      show utf8DecodeFuel (f + 1) (c.toNat :: tl.map Char.toNat) = Option.some (c :: tl)
      simp only [utf8DecodeFuel, utf8FirstChar_ascii c.toNat (tl.map Char.toNat) hc, h2,
        Char.ofNat_toNat]
      rfl

theorem utf8DecodeStrict_ascii (l : List Char) (h : ∀ c ∈ l, c.toNat < 128) :
    utf8DecodeStrict (l.map Char.toNat) = Option.some l := by
  unfold utf8DecodeStrict
  rw [List.length_map]
  exact utf8DecodeFuel_ascii l.length l (Nat.le_refl _) h

/-! ## Quoting and query-string lemmas -/

theorem safeStr_mem {s : String} (h : SafeStr s) : ∀ c ∈ s.data, safeChar c = true := by
  intro c hc
  exact List.all_eq_true.mp h c hc

theorem quoteSafeByte_of_safe (c : Char) (h : safeChar c = true) :
    quoteSafeByte c.toNat = true := by
  simp only [quoteSafeByte, Bool.or_eq_true, Bool.and_eq_true, decide_eq_true_eq]
  rcases safe_ranges c h with ⟨a, b⟩ | ⟨a, b⟩ | ⟨a, b⟩ | a | a | a | a <;> omega

theorem quote_plus_safe (s : String) (h : SafeStr s) : quote_plus s = s := by
  unfold quote_plus
  have hascii : ∀ c ∈ s.data, c.toNat < 128 := by
    intro c hc
    exact (safe_toNat_bounds c (safeStr_mem h c hc)).2
  have henc : utf8Encode s = s.data.map Char.toNat := utf8Encode_ascii s.data hascii
  rw [henc]
  have hl : ∀ (l : List Char), (∀ c ∈ l, safeChar c = true) →
      ((l.map Char.toNat).map (fun b =>
        if quoteSafeByte b then [Char.ofNat b]
        else if b = 32 then ['+']
        else ['%', hexUpper (b / 16), hexUpper (b % 16)])).flatten = l := by
    intro l
    induction l with
    | nil => intro _; rfl
    | cons c tl ih =>
      intro hsf
      have hc := hsf c (List.mem_cons_self c tl)
      have h2 := ih (fun x hx => hsf x (List.mem_cons_of_mem c hx))
      simp only [List.map_cons, List.flatten_cons, h2, quoteSafeByte_of_safe c hc, if_pos,
        Char.ofNat_toNat, List.singleton_append]
  rw [hl s.data (safeStr_mem h)]

theorem unquoteScan_id : ∀ (fuel : Nat) (l : List Char), (∀ c ∈ l, c ≠ '%') →
    unquoteScan fuel l = l := by
  intro fuel
  induction fuel with
  | zero =>
    intro l _
    cases l <;> rfl
  | succ f ih =>
    intro l h
    match l with
    | [] => rfl
    | c :: rest =>
      have hc : c ≠ '%' := h c (List.mem_cons_self c rest)
      rw [unquoteScan.eq_def]
      split
      · rename_i heq
        exact absurd heq (by simp)
      · omega
      · rename_i c1 c2 r2 heq
        rw [List.cons.injEq] at heq
        exact absurd heq.1 hc
      · rename_i fuel2 hd2 tl2 hno heq hne
        rw [List.cons.injEq] at hne
        have hfe : fuel2 = f := by omega
        rw [← hne.1, ← hne.2, hfe, ih rest (fun x hx => h x (List.mem_cons_of_mem c hx))]

theorem unquote_plus_id (s : String) (h : ∀ c ∈ s.data, c ≠ '%' ∧ c ≠ '+') :
    unquote_plus s = s := by
  unfold unquote_plus
  have hmap : s.data.map (fun c => if c = '+' then ' ' else c) = s.data := by
    conv_rhs => rw [← List.map_id s.data]
    refine List.map_congr_left ?_
    intro c hc
    simp [(h c hc).2]
  rw [hmap]
  show String.mk (unquoteScan s.data.length s.data) = s
  rw [unquoteScan_id s.data.length s.data (fun c hc => (h c hc).1)]

theorem safe_unquote_plus_id (s : String) (h : SafeStr s) : unquote_plus s = s := by
  refine unquote_plus_id s ?_
  intro c hc
  have hsc := safeStr_mem h c hc
  exact ⟨safe_ne_char c '%' hsc (by decide), safe_ne_char c '+' hsc (by decide)⟩

theorem intercalate_go_data (s : String) : ∀ (l : List String) (acc : String),
    (String.intercalate.go acc s l).data
      = acc.data ++ (l.map (fun x => s.data ++ x.data)).flatten := by
  intro l
  induction l with
  | nil =>
    intro acc
    simp [String.intercalate.go]
  | cons b bs ih =>
    intro acc
    rw [String.intercalate.go, ih (acc ++ s ++ b)]
    simp [String.data_append]

theorem intercalate_data (s : String) (a : String) (l : List String) :
    (String.intercalate s (a :: l)).data
      = a.data ++ (l.map (fun x => s.data ++ x.data)).flatten := by
  show (String.intercalate.go a s l).data = _
  exact intercalate_go_data s l a

theorem splitOnChar_sep_flatten (c : Char) :
    ∀ (ps : List (List Char)) (a : List Char), c ∉ a → (∀ p ∈ ps, c ∉ p) →
    splitOnChar c (a ++ (ps.map (fun x => c :: x)).flatten) = a :: ps := by
  intro ps
  induction ps with
  | nil =>
    intro a ha _
    simp only [List.map_nil, List.flatten_nil, List.append_nil]
    exact splitOnChar_no_sep c a ha
  | cons p pt ih =>
    intro a ha hp
    have hshape : a ++ ((p :: pt).map (fun x => c :: x)).flatten
        = a ++ c :: (p ++ (pt.map (fun x => c :: x)).flatten) := by
      simp
    rw [hshape, splitOnChar_append c a _ ha,
      ih p (hp p (List.mem_cons_self p pt)) (fun q hq => hp q (List.mem_cons_of_mem p hq))]

theorem filterMap_eq_map_of {α β : Type} (l : List α) (f : α → Option β) (g : α → β)
    (h : ∀ a ∈ l, f a = Option.some (g a)) : l.filterMap f = l.map g := by
  induction l with
  | nil => rfl
  | cons a tl ih =>
    rw [List.filterMap_cons, h a (List.mem_cons_self a tl),
      ih (fun x hx => h x (List.mem_cons_of_mem a hx)), List.map_cons]

theorem data_ne_nil_of_ne_empty (s : String) (h : s ≠ "") : s.data ≠ [] := by
  intro hd
  refine h ?_
  cases s with
  | mk d =>
    simp only [] at hd
    rw [hd]

theorem urlencode_safe (params : List (String × PyVal))
    (hsafe : ∀ kv ∈ params, SafeStr kv.1 ∧ SafeStr (pyStr kv.2)) :
    urlencode params
      = String.intercalate "&" (params.map (fun kv => kv.1 ++ "=" ++ pyStr kv.2)) := by
  unfold urlencode
  congr 1
  refine List.map_congr_left ?_
  intro kv hkv
  rw [quote_plus_safe _ (hsafe kv hkv).1, quote_plus_safe _ (hsafe kv hkv).2]

theorem parse_qsl_urlencode (params : List (String × PyVal))
    (hsafe : ∀ kv ∈ params,
      SafeStr kv.1 ∧ kv.1 ≠ "" ∧ SafeStr (pyStr kv.2) ∧ pyStr kv.2 ≠ "") :
    params ≠ [] →
    parse_qsl (urlencode params) = params.map (fun kv => (kv.1, pyStr kv.2)) := by
  intro hne
  have hsafe2 : ∀ kv ∈ params, SafeStr kv.1 ∧ SafeStr (pyStr kv.2) :=
    fun kv hkv => ⟨(hsafe kv hkv).1, (hsafe kv hkv).2.2.1⟩
  rw [urlencode_safe params hsafe2]
  unfold parse_qsl
  match params with
  | [] => exact absurd rfl hne
  | kv0 :: rest =>
    have hpiece : ∀ kv : String × PyVal, kv ∈ kv0 :: rest →
        (kv.1 ++ "=" ++ pyStr kv.2).data = kv.1.data ++ '=' :: (pyStr kv.2).data := by
      intro kv _
      rw [String.data_append, String.data_append, List.append_assoc]
      rfl
    have hnosep : ∀ kv : String × PyVal, kv ∈ kv0 :: rest →
        '&' ∉ kv.1.data ++ '=' :: (pyStr kv.2).data := by
      intro kv hkv hm
      rcases List.mem_append.mp hm with hm1 | hm2
      · exact safe_ne_char _ '&' (safeStr_mem (hsafe kv hkv).1 _ hm1) (by decide) rfl
      · rcases List.mem_cons.mp hm2 with hm3 | hm4
        · exact absurd hm3 (by decide)
        · exact safe_ne_char _ '&' (safeStr_mem (hsafe kv hkv).2.2.1 _ hm4) (by decide) rfl
    have hdata : (String.intercalate "&" ((kv0 :: rest).map
        (fun kv => kv.1 ++ "=" ++ pyStr kv.2))).data
        = (kv0.1.data ++ '=' :: (pyStr kv0.2).data)
          ++ ((rest.map (fun kv => kv.1.data ++ '=' :: (pyStr kv.2).data)).map
            (fun x => '&' :: x)).flatten := by
      rw [List.map_cons, intercalate_data, hpiece kv0 (List.mem_cons_self kv0 rest)]
      congr 1
      rw [List.map_map, List.map_map]
      congr 1
      refine List.map_congr_left ?_
      intro kv hkv
      show ("&" : String).data ++ (kv.1 ++ "=" ++ pyStr kv.2).data
        = '&' :: (kv.1.data ++ '=' :: (pyStr kv.2).data)
      rw [hpiece kv (List.mem_cons_of_mem kv0 hkv)]
      rfl
    rw [hdata, splitOnChar_sep_flatten '&'
      (rest.map (fun kv => kv.1.data ++ '=' :: (pyStr kv.2).data))
      (kv0.1.data ++ '=' :: (pyStr kv0.2).data)
      (hnosep kv0 (List.mem_cons_self kv0 rest))
      (by
        intro p hp
        obtain ⟨kv, hkv, hpe⟩ := List.mem_map.mp hp
        rw [← hpe]
        exact hnosep kv (List.mem_cons_of_mem kv0 hkv))]
    have hshape : (kv0.1.data ++ '=' :: (pyStr kv0.2).data)
        :: rest.map (fun kv => kv.1.data ++ '=' :: (pyStr kv.2).data)
        = (kv0 :: rest).map (fun kv => kv.1.data ++ '=' :: (pyStr kv.2).data) := by
      rw [List.map_cons]
    rw [hshape]
    rw [List.filterMap_map]
    refine filterMap_eq_map_of _ _ _ ?_
    intro kv hkv
    obtain ⟨hk, hkn, hv, hvn⟩ := hsafe kv hkv
    show (if kv.1.data ++ '=' :: (pyStr kv.2).data = [] then Option.none
      else
        let p := partitionChar '=' (kv.1.data ++ '=' :: (pyStr kv.2).data)
        if p.2.1 then
          if p.2.2 = [] then Option.none
          else Option.some (unquote_plus ⟨p.1⟩, unquote_plus ⟨p.2.2⟩)
        else Option.none) = Option.some (kv.1, pyStr kv.2)
    have hkeq : ∀ c ∈ kv.1.data, c ≠ '=' := by
      intro c hc
      exact safe_ne_char c '=' (safeStr_mem hk c hc) (by decide)
    rw [if_neg (by
      intro hemp
      exact data_ne_nil_of_ne_empty kv.1 hkn ((List.append_eq_nil.mp hemp)).1)]
    rw [partitionChar_found '=' kv.1.data ((pyStr kv.2).data)
      (fun hm => hkeq '=' hm rfl)]
    simp only []
    rw [if_pos trivial, if_neg (data_ne_nil_of_ne_empty (pyStr kv.2) hvn)]
    show Option.some (unquote_plus ⟨kv.1.data⟩, unquote_plus ⟨(pyStr kv.2).data⟩)
      = Option.some (kv.1, pyStr kv.2)
    rw [show (⟨kv.1.data⟩ : String) = kv.1 from rfl,
      show (⟨(pyStr kv.2).data⟩ : String) = pyStr kv.2 from rfl,
      safe_unquote_plus_id kv.1 hk, safe_unquote_plus_id (pyStr kv.2) hv]

theorem qappend_not_mem (acc : List (String × List String)) (k : String) (v : String)
    (h : ∀ e ∈ acc, e.1 ≠ k) : qappend acc k v = acc ++ [(k, [v])] := by
  induction acc with
  | nil => rfl
  | cons e tl ih =>
    have he : e.1 ≠ k := h e (List.mem_cons_self e tl)
    simp [qappend, he, ih (fun x hx => h x (List.mem_cons_of_mem e hx))]

theorem parse_qs_fold (prs : List (String × String)) :
    ∀ acc : List (String × List String),
    (∀ e ∈ acc, ∀ p ∈ prs, e.1 ≠ p.1) →
    prs.Pairwise (fun a b => a.1 ≠ b.1) →
    prs.foldl (fun acc nv => qappend acc nv.1 nv.2) acc
      = acc ++ prs.map (fun kv => (kv.1, [kv.2])) := by
  induction prs with
  | nil =>
    intro acc _ _
    simp
  | cons p pt ih =>
    intro acc hdisj hpw
    rw [List.foldl_cons,
      qappend_not_mem acc p.1 p.2 (fun e he => hdisj e he p (List.mem_cons_self p pt))]
    rw [ih (acc ++ [(p.1, [p.2])]) ?_ (List.Pairwise.of_cons hpw)]
    · simp
    · intro e he q hq
      rcases List.mem_append.mp he with he1 | he2
      · exact hdisj e he1 q (List.mem_cons_of_mem p hq)
      · rcases List.mem_singleton.mp he2 with he3
        rw [he3]
        exact (List.pairwise_cons.mp hpw).1 q hq

theorem parse_qs_urlencode (params : List (String × PyVal))
    (hsafe : ∀ kv ∈ params,
      SafeStr kv.1 ∧ kv.1 ≠ "" ∧ SafeStr (pyStr kv.2) ∧ pyStr kv.2 ≠ "")
    (hnd : params.Pairwise (fun a b => a.1 ≠ b.1)) (hne : params ≠ []) :
    parse_qs (urlencode params) = params.map (fun kv => (kv.1, [pyStr kv.2])) := by
  unfold parse_qs
  rw [parse_qsl_urlencode params hsafe hne]
  rw [parse_qs_fold (params.map (fun kv => (kv.1, pyStr kv.2))) []
    (fun e he => absurd he (List.not_mem_nil e)) ?_]
  · rw [List.nil_append, List.map_map]
    rfl
  · refine List.Pairwise.map _ ?_ hnd
    intro a b hab
    exact hab

theorem parse_vless_fold (qs : List (String × List String)) :
    ∀ (base : PyDict), (∀ kv ∈ qs, dlookup base kv.1 = Option.none) →
    qs.Pairwise (fun a b => a.1 ≠ b.1) →
    qs.foldl (fun acc kv =>
      dset acc kv.1 (match kv.2 with
        | [v] => PyVal.str v
        | vs => PyVal.list (PyList.ofList (vs.map PyVal.str)))) base
    = base ++ qs.map (fun kv => (kv.1, (match kv.2 with
        | [v] => PyVal.str v
        | vs => PyVal.list (PyList.ofList (vs.map PyVal.str)) : PyVal))) := by
  induction qs with
  | nil =>
    intro base _ _
    simp
  | cons p pt ih =>
    intro base hfresh hpw
    rw [List.foldl_cons, dset_of_not_contains base p.1 _
      (hfresh p (List.mem_cons_self p pt))]
    rw [ih (base ++ [(p.1, (match p.2 with
        | [v] => PyVal.str v
        | vs => PyVal.list (PyList.ofList (vs.map PyVal.str)) : PyVal))]) ?_
      (List.Pairwise.of_cons hpw)]
    · simp
    · intro kv hkv
      rw [dlookup_append]
      rw [hfresh kv (List.mem_cons_of_mem p hkv)]
      have hne : kv.1 ≠ p.1 := Ne.symm ((List.pairwise_cons.mp hpw).1 kv hkv)
      simp only [dlookup]
      rw [if_neg (fun h => hne h.symm)]

/-! ## urlsplit on the vless wire shape -/

theorem urlsplit_vless_frag (netloc qs frag : List Char)
    (hn : ∀ c ∈ netloc, 32 < c.toNat ∧ c ≠ '/' ∧ c ≠ '?' ∧ c ≠ '#' ∧ c ≠ '[' ∧ c ≠ ']')
    (hq : ∀ c ∈ qs, 32 < c.toNat ∧ c ≠ '#')
    (hf : ∀ c ∈ frag, 32 < c.toNat) :
    urlsplit ⟨'v' :: 'l' :: 'e' :: 's' :: 's' :: ':' :: '/' :: '/' ::
        (netloc ++ '?' :: (qs ++ '#' :: frag))⟩
      = Except.ok ⟨"vless", ⟨netloc⟩, "", ⟨qs⟩, ⟨frag⟩⟩ := by
  unfold urlsplit
  simp only []
  have hall : ∀ c ∈ ('v' :: 'l' :: 'e' :: 's' :: 's' :: ':' :: '/' :: '/' ::
      (netloc ++ '?' :: (qs ++ '#' :: frag))), 32 < c.toNat := by
    intro c hc
    rcases List.mem_cons.mp hc with h | hc; · subst h; decide
    rcases List.mem_cons.mp hc with h | hc; · subst h; decide
    rcases List.mem_cons.mp hc with h | hc; · subst h; decide
    rcases List.mem_cons.mp hc with h | hc; · subst h; decide
    rcases List.mem_cons.mp hc with h | hc; · subst h; decide
    rcases List.mem_cons.mp hc with h | hc; · subst h; decide
    rcases List.mem_cons.mp hc with h | hc; · subst h; decide
    rcases List.mem_cons.mp hc with h | hc; · subst h; decide
    rcases List.mem_append.mp hc with h | hc
    · exact (hn c h).1
    rcases List.mem_cons.mp hc with h | hc; · subst h; decide
    rcases List.mem_append.mp hc with h | hc
    · exact (hq c h).1
    rcases List.mem_cons.mp hc with h | hc; · subst h; decide
    exact hf c hc
  have hstrip : stripBoth (fun c => decide (c.toNat ≤ 32))
      ('v' :: 'l' :: 'e' :: 's' :: 's' :: ':' :: '/' :: '/' ::
        (netloc ++ '?' :: (qs ++ '#' :: frag)))
      = 'v' :: 'l' :: 'e' :: 's' :: 's' :: ':' :: '/' :: '/' ::
        (netloc ++ '?' :: (qs ++ '#' :: frag)) := by
    refine stripBoth_id _ _ ?_
    intro c hc
    exact decide_eq_false (by have := hall c hc; omega)
  rw [hstrip]
  have hfilt : ('v' :: 'l' :: 'e' :: 's' :: 's' :: ':' :: '/' :: '/' ::
      (netloc ++ '?' :: (qs ++ '#' :: frag))).filter
        (fun c => decide ¬(c = '\t' ∨ c = '\x0d' ∨ c = '\n'))
      = 'v' :: 'l' :: 'e' :: 's' :: 's' :: ':' :: '/' :: '/' ::
        (netloc ++ '?' :: (qs ++ '#' :: frag)) := by
    rw [List.filter_eq_self]
    intro c hc
    refine decide_eq_true ?_
    intro hor
    have h32 := hall c hc
    rcases hor with h | h | h <;> (subst h; exact absurd h32 (by decide))
  rw [hfilt]
  have hsplit1 : partitionChar ':' ('v' :: 'l' :: 'e' :: 's' :: 's' :: ':' :: '/' :: '/' ::
      (netloc ++ '?' :: (qs ++ '#' :: frag)))
      = (['v', 'l', 'e', 's', 's'], true,
        '/' :: '/' :: (netloc ++ '?' :: (qs ++ '#' :: frag))) := by
    exact partitionChar_found ':' ['v', 'l', 'e', 's', 's'] _ (by decide)
  have h1 : ¬ ('[' ∈ netloc) := fun hm => (hn '[' hm).2.2.2.2.1 rfl
  have h2 : ¬ (']' ∈ netloc) := fun hm => (hn ']' hm).2.2.2.2.2 rfl
  have htake : takeUntilAnyOf ['/', '?', '#'] (netloc ++ '?' :: (qs ++ '#' :: frag))
      = netloc := by
    refine takeUntilAnyOf_found _ _ _ '?' ?_ (by decide)
    intro x hx hm
    obtain ⟨_, hc2, hc3, hc4, _, _⟩ := hn x hx
    rcases List.mem_cons.mp hm with h | hm; · exact hc2 h
    rcases List.mem_cons.mp hm with h | hm; · exact hc3 h
    rcases List.mem_cons.mp hm with h | hm; · exact hc4 h
    exact absurd hm (List.not_mem_nil x)
  have hdrop : dropUntilAnyOf ['/', '?', '#'] (netloc ++ '?' :: (qs ++ '#' :: frag))
      = '?' :: (qs ++ '#' :: frag) := by
    refine dropUntilAnyOf_found _ _ _ '?' ?_ (by decide)
    intro x hx hm
    obtain ⟨_, hc2, hc3, hc4, _, _⟩ := hn x hx
    rcases List.mem_cons.mp hm with h | hm; · exact hc2 h
    rcases List.mem_cons.mp hm with h | hm; · exact hc3 h
    rcases List.mem_cons.mp hm with h | hm; · exact hc4 h
    exact absurd hm (List.not_mem_nil x)
  have hpf : partitionChar '#' ('?' :: (qs ++ '#' :: frag))
      = ('?' :: qs, true, frag) := by
    have hx := partitionChar_found '#' ('?' :: qs) frag (by
      intro hm
      rcases List.mem_cons.mp hm with h | hm
      · exact absurd h (by decide)
      · exact (hq '#' hm).2 rfl)
    simpa using hx
  have hpq : partitionChar '?' ('?' :: qs) = ([], true, qs) := by
    simp [partitionChar]
  rw [hsplit1]
  simp [listStartsWith, asciiLower, schemeChar, htake, hdrop, hpf, hpq, h1, h2]

theorem urlsplit_vless_nofrag (netloc qs : List Char)
    (hn : ∀ c ∈ netloc, 32 < c.toNat ∧ c ≠ '/' ∧ c ≠ '?' ∧ c ≠ '#' ∧ c ≠ '[' ∧ c ≠ ']')
    (hq : ∀ c ∈ qs, 32 < c.toNat ∧ c ≠ '#') :
    urlsplit ⟨'v' :: 'l' :: 'e' :: 's' :: 's' :: ':' :: '/' :: '/' ::
        (netloc ++ '?' :: qs)⟩
      = Except.ok ⟨"vless", ⟨netloc⟩, "", ⟨qs⟩, ""⟩ := by
  unfold urlsplit
  simp only []
  have hall : ∀ c ∈ ('v' :: 'l' :: 'e' :: 's' :: 's' :: ':' :: '/' :: '/' ::
      (netloc ++ '?' :: qs)), 32 < c.toNat := by
    intro c hc
    rcases List.mem_cons.mp hc with h | hc; · subst h; decide
    rcases List.mem_cons.mp hc with h | hc; · subst h; decide
    rcases List.mem_cons.mp hc with h | hc; · subst h; decide
    rcases List.mem_cons.mp hc with h | hc; · subst h; decide
    rcases List.mem_cons.mp hc with h | hc; · subst h; decide
    rcases List.mem_cons.mp hc with h | hc; · subst h; decide
    rcases List.mem_cons.mp hc with h | hc; · subst h; decide
    rcases List.mem_cons.mp hc with h | hc; · subst h; decide
    rcases List.mem_append.mp hc with h | hc
    · exact (hn c h).1
    rcases List.mem_cons.mp hc with h | hc; · subst h; decide
    exact (hq c hc).1
  have hstrip : stripBoth (fun c => decide (c.toNat ≤ 32))
      ('v' :: 'l' :: 'e' :: 's' :: 's' :: ':' :: '/' :: '/' :: (netloc ++ '?' :: qs))
      = 'v' :: 'l' :: 'e' :: 's' :: 's' :: ':' :: '/' :: '/' :: (netloc ++ '?' :: qs) := by
    refine stripBoth_id _ _ ?_
    intro c hc
    exact decide_eq_false (by have := hall c hc; omega)
  rw [hstrip]
  have hfilt : ('v' :: 'l' :: 'e' :: 's' :: 's' :: ':' :: '/' :: '/' ::
      (netloc ++ '?' :: qs)).filter
        (fun c => decide ¬(c = '\t' ∨ c = '\x0d' ∨ c = '\n'))
      = 'v' :: 'l' :: 'e' :: 's' :: 's' :: ':' :: '/' :: '/' :: (netloc ++ '?' :: qs) := by
    rw [List.filter_eq_self]
    intro c hc
    refine decide_eq_true ?_
    intro hor
    have h32 := hall c hc
    rcases hor with h | h | h <;> (subst h; exact absurd h32 (by decide))
  rw [hfilt]
  have hsplit1 : partitionChar ':' ('v' :: 'l' :: 'e' :: 's' :: 's' :: ':' :: '/' :: '/' ::
      (netloc ++ '?' :: qs))
      = (['v', 'l', 'e', 's', 's'], true, '/' :: '/' :: (netloc ++ '?' :: qs)) := by
    exact partitionChar_found ':' ['v', 'l', 'e', 's', 's'] _ (by decide)
  have h1 : ¬ ('[' ∈ netloc) := fun hm => (hn '[' hm).2.2.2.2.1 rfl
  have h2 : ¬ (']' ∈ netloc) := fun hm => (hn ']' hm).2.2.2.2.2 rfl
  have htake : takeUntilAnyOf ['/', '?', '#'] (netloc ++ '?' :: qs) = netloc := by
    refine takeUntilAnyOf_found _ _ _ '?' ?_ (by decide)
    intro x hx hm
    obtain ⟨_, hc2, hc3, hc4, _, _⟩ := hn x hx
    rcases List.mem_cons.mp hm with h | hm; · exact hc2 h
    rcases List.mem_cons.mp hm with h | hm; · exact hc3 h
    rcases List.mem_cons.mp hm with h | hm; · exact hc4 h
    exact absurd hm (List.not_mem_nil x)
  have hdrop : dropUntilAnyOf ['/', '?', '#'] (netloc ++ '?' :: qs) = '?' :: qs := by
    refine dropUntilAnyOf_found _ _ _ '?' ?_ (by decide)
    intro x hx hm
    obtain ⟨_, hc2, hc3, hc4, _, _⟩ := hn x hx
    rcases List.mem_cons.mp hm with h | hm; · exact hc2 h
    rcases List.mem_cons.mp hm with h | hm; · exact hc3 h
    rcases List.mem_cons.mp hm with h | hm; · exact hc4 h
    exact absurd hm (List.not_mem_nil x)
  have hpf : partitionChar '#' ('?' :: qs) = ('?' :: qs, false, []) := by
    refine partitionChar_not_mem '#' _ ?_
    intro hm
    rcases List.mem_cons.mp hm with h | hm
    · exact absurd h (by decide)
    · exact (hq '#' hm).2 rfl
  have hpq : partitionChar '?' ('?' :: qs) = ([], true, qs) := by
    simp [partitionChar]
  rw [hsplit1]
  simp [listStartsWith, asciiLower, schemeChar, htake, hdrop, hpf, hpq, h1, h2]

theorem vless_netloc_fields (idp host digits : List Char)
    (hid : ∀ c ∈ idp, c ≠ '@' ∧ c ≠ ':')
    (hhost : ∀ c ∈ host, c ≠ '@' ∧ c ≠ ':' ∧ c ≠ '[')
    (hdig : ∀ c ∈ digits, c ≠ '@' ∧ c ≠ '[')
    (hhne : host ≠ []) (hdne : digits ≠ []) :
    urlUsername (idp ++ '@' :: (host ++ ':' :: digits)) = Option.some ⟨idp⟩ ∧
    urlHostname (idp ++ '@' :: (host ++ ':' :: digits))
      = Option.some ⟨host.map asciiLower⟩ ∧
    (urlHostPort (idp ++ '@' :: (host ++ ':' :: digits))).2 = Option.some digits := by
  have hrp : rpartitionChar '@' (idp ++ '@' :: (host ++ ':' :: digits))
      = (idp, true, host ++ ':' :: digits) := by
    refine rpartitionChar_found '@' idp _ ?_
    intro hm
    rcases List.mem_append.mp hm with h | hm
    · exact (hhost '@' h).1 rfl
    rcases List.mem_cons.mp hm with h | hm
    · exact absurd h (by decide)
    · exact (hdig '@' hm).1 rfl
  have hbr : partitionChar '[' (host ++ ':' :: digits)
      = (host ++ ':' :: digits, false, []) := by
    refine partitionChar_not_mem '[' _ ?_
    intro hm
    rcases List.mem_append.mp hm with h | hm
    · exact (hhost '[' h).2.2 rfl
    rcases List.mem_cons.mp hm with h | hm
    · exact absurd h (by decide)
    · exact (hdig '[' hm).2 rfl
  have hcol : partitionChar ':' (host ++ ':' :: digits) = (host, true, digits) := by
    refine partitionChar_found ':' host digits ?_
    intro hm
    exact (hhost ':' hm).2.1 rfl
  have hcid : partitionChar ':' idp = (idp, false, []) := by
    refine partitionChar_not_mem ':' idp ?_
    intro hm
    exact (hid ':' hm).2 rfl
  have hhp : urlHostPort (idp ++ '@' :: (host ++ ':' :: digits)) = (host, Option.some digits) := by
    unfold urlHostPort netlocHostinfo
    rw [hrp]
    simp only []
    rw [hbr]
    simp only []
    rw [if_neg (by simp), hcol]
    simp only []
    rw [if_neg hdne]
  refine ⟨?_, ?_, ?_⟩
  · unfold urlUsername
    rw [hrp]
    simp only []
    rw [if_pos trivial, hcid]
  · unfold urlHostname
    rw [hhp]
    simp only []
    rw [if_neg hhne]
  · rw [hhp]

theorem urlencode_chars (params : List (String × PyVal))
    (hsafe : ∀ kv ∈ params, SafeStr kv.1 ∧ SafeStr (pyStr kv.2)) :
    ∀ c ∈ (urlencode params).data, safeChar c = true ∨ c = '=' ∨ c = '&' := by
  rw [urlencode_safe params hsafe]
  match params with
  | [] =>
    intro c hc
    exact absurd hc (List.not_mem_nil c)
  | kv0 :: rest =>
    rw [List.map_cons, intercalate_data]
    intro c hc
    have honepiece : ∀ kv : String × PyVal, kv ∈ kv0 :: rest →
        c ∈ (kv.1 ++ "=" ++ pyStr kv.2).data → safeChar c = true ∨ c = '=' ∨ c = '&' := by
      intro kv hkv hcm
      rw [String.data_append, String.data_append] at hcm
      rcases List.mem_append.mp hcm with hm | hm
      · rcases List.mem_append.mp hm with hm2 | hm2
        · exact Or.inl (safeStr_mem (hsafe kv hkv).1 c hm2)
        · exact Or.inr (Or.inl (List.mem_singleton.mp hm2))
      · exact Or.inl (safeStr_mem (hsafe kv hkv).2 c hm)
    rcases List.mem_append.mp hc with hm | hm
    · exact honepiece kv0 (List.mem_cons_self kv0 rest) hm
    · obtain ⟨l, hl, hcl⟩ := List.mem_flatten.mp hm
      obtain ⟨s2, hs2, hse⟩ := List.mem_map.mp hl
      obtain ⟨kv, hkv, hkve⟩ := List.mem_map.mp hs2
      rw [← hse] at hcl
      rcases List.mem_append.mp hcl with hm2 | hm2
      · exact Or.inr (Or.inr (List.mem_singleton.mp hm2))
      · rw [← hkve] at hm2
        exact honepiece kv (List.mem_cons_of_mem kv0 hkv) hm2

theorem pyStr_int_ofNat (p : Nat) : pyStr (PyVal.int (p : Int)) = ⟨natReprL p⟩ := by
  show (⟨intReprL (p : Int)⟩ : String) = ⟨natReprL p⟩
  unfold intReprL
  rw [if_neg (by omega)]
  rw [Int.toNat_natCast]

theorem safe_netloc_char (c : Char) (h : safeChar c = true) :
    32 < c.toNat ∧ c ≠ '/' ∧ c ≠ '?' ∧ c ≠ '#' ∧ c ≠ '[' ∧ c ≠ ']' :=
  ⟨by have := safe_toNat_bounds c h; omega,
    safe_ne_char c '/' h (by decide), safe_ne_char c '?' h (by decide),
    safe_ne_char c '#' h (by decide), safe_ne_char c '[' h (by decide),
    safe_ne_char c ']' h (by decide)⟩

theorem parse_vless_url_wire (idp host : List Char) (p : Nat)
    (qsParams : List (String × PyVal)) (frag : List Char)
    (hidS : ∀ c ∈ idp, safeChar c = true)
    (hhostS : ∀ c ∈ host, safeChar c = true) (hhne : host ≠ [])
    (hpt : p ≤ 65535)
    (hqs : ∀ kv ∈ qsParams, SafeStr kv.1 ∧ kv.1 ≠ "" ∧ SafeStr (pyStr kv.2) ∧ pyStr kv.2 ≠ "")
    (hqnd : qsParams.Pairwise (fun a b => a.1 ≠ b.1)) (hqne : qsParams ≠ [])
    (hqknb : ∀ kv ∈ qsParams, kv.1 ≠ "id" ∧ kv.1 ≠ "add" ∧ kv.1 ≠ "port" ∧ kv.1 ≠ "ps")
    (hfragS : ∀ c ∈ frag, safeChar c = true) :
    parse_vless_url ⟨'v' :: 'l' :: 'e' :: 's' :: 's' :: ':' :: '/' :: '/' ::
        ((idp ++ '@' :: (host ++ ':' :: natReprL p)) ++ '?' ::
          ((urlencode qsParams).data ++ '#' :: frag))⟩
      = Except.ok
          ([("id", PyVal.str ⟨idp⟩), ("add", PyVal.str ⟨host.map asciiLower⟩),
            ("port", PyVal.str ⟨natReprL p⟩), ("ps", PyVal.str ⟨frag⟩)]
            ++ qsParams.map (fun kv => (kv.1, PyVal.str (pyStr kv.2)))) := by
  have hsafe2 : ∀ kv ∈ qsParams, SafeStr kv.1 ∧ SafeStr (pyStr kv.2) :=
    fun kv hkv => ⟨(hqs kv hkv).1, (hqs kv hkv).2.2.1⟩
  have hnl : ∀ c ∈ idp ++ '@' :: (host ++ ':' :: natReprL p),
      32 < c.toNat ∧ c ≠ '/' ∧ c ≠ '?' ∧ c ≠ '#' ∧ c ≠ '[' ∧ c ≠ ']' := by
    intro c hc
    rcases List.mem_append.mp hc with h | hc
    · exact safe_netloc_char c (hidS c h)
    rcases List.mem_cons.mp hc with h | hc
    · subst h; exact ⟨by decide, by decide, by decide, by decide, by decide, by decide⟩
    rcases List.mem_append.mp hc with h | hc
    · exact safe_netloc_char c (hhostS c h)
    rcases List.mem_cons.mp hc with h | hc
    · subst h; exact ⟨by decide, by decide, by decide, by decide, by decide, by decide⟩
    · exact safe_netloc_char c (natReprL_safe p c hc)
  have hqc : ∀ c ∈ (urlencode qsParams).data, 32 < c.toNat ∧ c ≠ '#' := by
    intro c hc
    rcases urlencode_chars qsParams hsafe2 c hc with h | h | h
    · exact ⟨(safe_netloc_char c h).1, (safe_netloc_char c h).2.2.2.1⟩
    · subst h; exact ⟨by decide, by decide⟩
    · subst h; exact ⟨by decide, by decide⟩
  have hfc : ∀ c ∈ frag, 32 < c.toNat := by
    intro c hc
    exact (safe_netloc_char c (hfragS c hc)).1
  have hsp := urlsplit_vless_frag (idp ++ '@' :: (host ++ ':' :: natReprL p))
    (urlencode qsParams).data frag hnl hqc hfc
  unfold parse_vless_url
  rw [hsp, pbind_ok]
  simp only []
  have hnf := vless_netloc_fields idp host (natReprL p)
    (fun c hc => ⟨safe_ne_char c '@' (hidS c hc) (by decide),
      safe_ne_char c ':' (hidS c hc) (by decide)⟩)
    (fun c hc => ⟨safe_ne_char c '@' (hhostS c hc) (by decide),
      safe_ne_char c ':' (hhostS c hc) (by decide),
      safe_ne_char c '[' (hhostS c hc) (by decide)⟩)
    (fun c hc => ⟨safe_ne_char c '@' (natReprL_safe p c hc) (by decide),
      safe_ne_char c '[' (natReprL_safe p c hc) (by decide)⟩)
    hhne (natReprL_ne_nil p)
  have hport : urlPortVal (idp ++ '@' :: (host ++ ':' :: natReprL p))
      = Except.ok (Option.some (p : Int)) := by
    unfold urlPortVal
    rw [hnf.2.2]
    simp only []
    rw [pyIntOfString?_natReprL p]
    simp only []
    rw [if_pos (by constructor <;> omega)]
  rw [hport, pbind_ok]
  rw [hnf.1, hnf.2.1]
  have hq2 : parse_qs ⟨(urlencode qsParams).data⟩
      = qsParams.map (fun kv => (kv.1, [pyStr kv.2])) := by
    show parse_qs (urlencode qsParams) = _
    exact parse_qs_urlencode qsParams hqs hqnd hqne
  rw [hq2]
  have hfold := parse_vless_fold (qsParams.map (fun kv => (kv.1, [pyStr kv.2])))
    [("id", PyVal.str ⟨idp⟩), ("add", PyVal.str ⟨host.map asciiLower⟩),
      ("port", PyVal.str (pyStr (PyVal.int (p : Int)))), ("ps", PyVal.str ⟨frag⟩)]
    (by
      intro kv hkv
      obtain ⟨kv0, hkv0, hke⟩ := List.mem_map.mp hkv
      obtain ⟨hn1, hn2, hn3, hn4⟩ := hqknb kv0 hkv0
      rw [← hke]
      simp only [dlookup]
      rw [if_neg (fun h => hn1 h.symm), if_neg (fun h => hn2 h.symm),
        if_neg (fun h => hn3 h.symm), if_neg (fun h => hn4 h.symm)])
    (by
      refine List.Pairwise.map _ ?_ hqnd
      intro a b hab
      exact hab)
  refine Eq.trans (congrArg (fun x => (pure x : Except PyErr PyDict)) hfold) ?_
  simp only []
  rw [List.map_map, pyStr_int_ofNat p]
  rfl

theorem parse_vless_url_wire_nofrag (idp host : List Char) (p : Nat)
    (qsParams : List (String × PyVal))
    (hidS : ∀ c ∈ idp, safeChar c = true)
    (hhostS : ∀ c ∈ host, safeChar c = true) (hhne : host ≠ [])
    (hpt : p ≤ 65535)
    (hqs : ∀ kv ∈ qsParams, SafeStr kv.1 ∧ kv.1 ≠ "" ∧ SafeStr (pyStr kv.2) ∧ pyStr kv.2 ≠ "")
    (hqnd : qsParams.Pairwise (fun a b => a.1 ≠ b.1)) (hqne : qsParams ≠ [])
    (hqknb : ∀ kv ∈ qsParams, kv.1 ≠ "id" ∧ kv.1 ≠ "add" ∧ kv.1 ≠ "port" ∧ kv.1 ≠ "ps") :
    parse_vless_url ⟨'v' :: 'l' :: 'e' :: 's' :: 's' :: ':' :: '/' :: '/' ::
        ((idp ++ '@' :: (host ++ ':' :: natReprL p)) ++ '?' :: (urlencode qsParams).data)⟩
      = Except.ok
          ([("id", PyVal.str ⟨idp⟩), ("add", PyVal.str ⟨host.map asciiLower⟩),
            ("port", PyVal.str ⟨natReprL p⟩), ("ps", PyVal.str "")]
            ++ qsParams.map (fun kv => (kv.1, PyVal.str (pyStr kv.2)))) := by
  have hsafe2 : ∀ kv ∈ qsParams, SafeStr kv.1 ∧ SafeStr (pyStr kv.2) :=
    fun kv hkv => ⟨(hqs kv hkv).1, (hqs kv hkv).2.2.1⟩
  have hnl : ∀ c ∈ idp ++ '@' :: (host ++ ':' :: natReprL p),
      32 < c.toNat ∧ c ≠ '/' ∧ c ≠ '?' ∧ c ≠ '#' ∧ c ≠ '[' ∧ c ≠ ']' := by
    intro c hc
    rcases List.mem_append.mp hc with h | hc
    · exact safe_netloc_char c (hidS c h)
    rcases List.mem_cons.mp hc with h | hc
    · subst h; exact ⟨by decide, by decide, by decide, by decide, by decide, by decide⟩
    rcases List.mem_append.mp hc with h | hc
    · exact safe_netloc_char c (hhostS c h)
    rcases List.mem_cons.mp hc with h | hc
    · subst h; exact ⟨by decide, by decide, by decide, by decide, by decide, by decide⟩
    · exact safe_netloc_char c (natReprL_safe p c hc)
  have hqc : ∀ c ∈ (urlencode qsParams).data, 32 < c.toNat ∧ c ≠ '#' := by
    intro c hc
    rcases urlencode_chars qsParams hsafe2 c hc with h | h | h
    · exact ⟨(safe_netloc_char c h).1, (safe_netloc_char c h).2.2.2.1⟩
    · subst h; exact ⟨by decide, by decide⟩
    · subst h; exact ⟨by decide, by decide⟩
  have hsp := urlsplit_vless_nofrag (idp ++ '@' :: (host ++ ':' :: natReprL p))
    (urlencode qsParams).data hnl hqc
  unfold parse_vless_url
  rw [hsp, pbind_ok]
  simp only []
  have hnf := vless_netloc_fields idp host (natReprL p)
    (fun c hc => ⟨safe_ne_char c '@' (hidS c hc) (by decide),
      safe_ne_char c ':' (hidS c hc) (by decide)⟩)
    (fun c hc => ⟨safe_ne_char c '@' (hhostS c hc) (by decide),
      safe_ne_char c ':' (hhostS c hc) (by decide),
      safe_ne_char c '[' (hhostS c hc) (by decide)⟩)
    (fun c hc => ⟨safe_ne_char c '@' (natReprL_safe p c hc) (by decide),
      safe_ne_char c '[' (natReprL_safe p c hc) (by decide)⟩)
    hhne (natReprL_ne_nil p)
  have hport : urlPortVal (idp ++ '@' :: (host ++ ':' :: natReprL p))
      = Except.ok (Option.some (p : Int)) := by
    unfold urlPortVal
    rw [hnf.2.2]
    simp only []
    rw [pyIntOfString?_natReprL p]
    simp only []
    rw [if_pos (by constructor <;> omega)]
  rw [hport, pbind_ok]
  rw [hnf.1, hnf.2.1]
  have hq2 : parse_qs ⟨(urlencode qsParams).data⟩
      = qsParams.map (fun kv => (kv.1, [pyStr kv.2])) := by
    show parse_qs (urlencode qsParams) = _
    exact parse_qs_urlencode qsParams hqs hqnd hqne
  rw [hq2]
  have hfold := parse_vless_fold (qsParams.map (fun kv => (kv.1, [pyStr kv.2])))
    [("id", PyVal.str ⟨idp⟩), ("add", PyVal.str ⟨host.map asciiLower⟩),
      ("port", PyVal.str (pyStr (PyVal.int (p : Int)))), ("ps", PyVal.str "")]
    (by
      intro kv hkv
      obtain ⟨kv0, hkv0, hke⟩ := List.mem_map.mp hkv
      obtain ⟨hn1, hn2, hn3, hn4⟩ := hqknb kv0 hkv0
      rw [← hke]
      simp only [dlookup]
      rw [if_neg (fun h => hn1 h.symm), if_neg (fun h => hn2 h.symm),
        if_neg (fun h => hn3 h.symm), if_neg (fun h => hn4 h.symm)])
    (by
      refine List.Pairwise.map _ ?_ hqnd
      intro a b hab
      exact hab)
  refine Eq.trans (congrArg (fun x => (pure x : Except PyErr PyDict)) hfold) ?_
  simp only []
  rw [List.map_map, pyStr_int_ofNat p]
  rfl

/-! ## JSON dump/parse lemmas -/

theorem flatten_map_singleton (l : List Char) : (l.map (fun c => [c])).flatten = l := by
  induction l with
  | nil => rfl
  | cons c tl ih => simp [ih]

theorem jsonEscChar_safe (c : Char) (h : safeChar c = true) : jsonEscChar c = [c] := by
  unfold jsonEscChar
  rw [if_neg (safe_ne_char c '"' h (by decide)),
    if_neg (safe_ne_char c '\\' h (by decide)),
    if_neg (safe_ne_char c '\n' h (by decide)),
    if_neg (safe_ne_char c '\x0d' h (by decide)),
    if_neg (safe_ne_char c '\t' h (by decide)),
    if_neg (safe_ne_char c (Char.ofNat 8) h (by decide)),
    if_neg (safe_ne_char c (Char.ofNat 12) h (by decide)),
    if_neg (by have := safe_toNat_bounds c h; omega)]

theorem jsonQuoteL_safe (l : List Char) (h : ∀ c ∈ l, safeChar c = true) :
    jsonQuoteL l = '"' :: (l ++ ['"']) := by
  unfold jsonQuoteL
  have hmap : l.map jsonEscChar = l.map (fun c => [c]) := by
    refine List.map_congr_left ?_
    intro c hc
    exact jsonEscChar_safe c (h c hc)
  rw [hmap, flatten_map_singleton, List.cons_append]

set_option maxHeartbeats 3000000 in
theorem jparseStrBody_safe : ∀ (fuel : Nat) (l : List Char), l.length ≤ fuel →
    (∀ c ∈ l, safeChar c = true) → ∀ (rest : List Char),
    jparseStrBody fuel (l ++ '"' :: rest) = Except.ok (l, rest) := by
  intro fuel
  induction fuel with
  | zero =>
    intro l hlen _ rest
    have : l = [] := List.eq_nil_of_length_eq_zero (by omega)
    subst this
    rfl
  | succ f ih =>
    intro l hlen hsf rest
    match l with
    | [] => rfl
    | c :: tl =>
      have hc := hsf c (List.mem_cons_self c tl)
      have hcq : c ≠ '"' := safe_ne_char c '"' hc (by decide)
      have hcb : c ≠ '\\' := safe_ne_char c '\\' hc (by decide)
      have hih := ih tl (by simp only [List.length_cons] at hlen; omega)
        (fun x hx => hsf x (List.mem_cons_of_mem c hx)) rest
      show jparseStrBody (f + 1) (c :: (tl ++ '"' :: rest)) = Except.ok (c :: tl, rest)
      rw [jparseStrBody.eq_def]
      split
      case h_4 =>
        rename_i fuel2 c2 rest2 hnq hnb heq hne
        rw [List.cons.injEq] at hne
        have hfe : fuel2 = f := by omega
        rw [if_neg (by
          rw [← hne.1]
          have := safe_toNat_bounds c hc
          omega)]
        rw [← hne.1, ← hne.2, hfe, hih]
        rfl
      all_goals simp_all

theorem jparseNumber_zero (x : Char) (hx : x = ',' ∨ x = '\x7d') (r' : List Char) :
    jparseNumber ('0' :: x :: r') = Except.ok (PyVal.int 0, x :: r') := by
  rcases hx with h | h <;> subst h <;> rfl

theorem jparseNumber_one (x : Char) (hx : x = ',' ∨ x = '\x7d') (r' : List Char) :
    jparseNumber ('1' :: x :: r') = Except.ok (PyVal.int 1, x :: r') := by
  rcases hx with h | h <;> subst h <;> rfl

theorem jparseV_str (f : Nat) (s : String) (rest : List Char) (hs : SafeStr s) :
    jparseV (f + 1) ('"' :: (s.data ++ '"' :: rest)) = Except.ok (PyVal.str s, rest) := by
  show (jparseStrBody ((s.data ++ '"' :: rest).length + 1) (s.data ++ '"' :: rest)).map
      (fun p => (PyVal.str ⟨p.1⟩, p.2)) = Except.ok (PyVal.str s, rest)
  rw [jparseStrBody_safe ((s.data ++ '"' :: rest).length + 1) s.data
    (by simp only [List.length_append, List.length_cons]; omega) (safeStr_mem hs) rest]
  rfl

theorem jparseV_zero (f : Nat) (x : Char) (hx : x = ',' ∨ x = '\x7d') (r' : List Char) :
    jparseV (f + 1) ('0' :: x :: r') = Except.ok (PyVal.int 0, x :: r') := by
  show jparseNumber ('0' :: x :: r') = Except.ok (PyVal.int 0, x :: r')
  exact jparseNumber_zero x hx r'

theorem jparseV_one (f : Nat) (x : Char) (hx : x = ',' ∨ x = '\x7d') (r' : List Char) :
    jparseV (f + 1) ('1' :: x :: r') = Except.ok (PyVal.int 1, x :: r') := by
  show jparseNumber ('1' :: x :: r') = Except.ok (PyVal.int 1, x :: r')
  exact jparseNumber_one x hx r'

theorem jskip_cons (c : Char) (l : List Char) (h : jWs c = false) :
    jskip (c :: l) = c :: l := by
  simp [jskip, dropLeading, h]

theorem jdumpP_cons_head (k2 : String) (v2 : PyVal) (tl2 : PyDict) (hk2 : SafeStr k2) :
    ∃ X, jdumpP (PyPairs.ofList ((k2, v2) :: tl2)) = '"' :: X := by
  show ∃ X, jdumpP (PyPairs.cons k2 v2 (PyPairs.ofList tl2)) = '"' :: X
  cases htl : PyPairs.ofList tl2 with
  | nil =>
    rw [show jdumpP (PyPairs.cons k2 v2 PyPairs.nil) = jsonQuoteL k2.data ++ ':' :: jdumpV v2
      from rfl, jsonQuoteL_safe k2.data (safeStr_mem hk2), List.cons_append]
    exact ⟨_, rfl⟩
  | cons k3 v3 tl3 =>
    rw [show jdumpP (PyPairs.cons k2 v2 (PyPairs.cons k3 v3 tl3))
      = jsonQuoteL k2.data ++ ':' :: jdumpV v2 ++ ',' :: jdumpP (PyPairs.cons k3 v3 tl3)
      from rfl, jsonQuoteL_safe k2.data (safeStr_mem hk2), List.cons_append]
    exact ⟨_, rfl⟩

theorem jparseV_dump_val (f2 : Nat) (v : PyVal) (hv : SafeJsonVal v) (x : Char)
    (hx : x = ',' ∨ x = '\x7d') (r' : List Char) :
    jparseV (f2 + 1) (jdumpV v ++ x :: r') = Except.ok (v, x :: r') := by
  rcases hv with ⟨s, hvs, hss⟩ | hv0 | hv1
  · subst hvs
    have hval : jdumpV (PyVal.str s) ++ x :: r' = '"' :: (s.data ++ '"' :: x :: r') := by
      show jsonQuoteL s.data ++ x :: r' = _
      rw [jsonQuoteL_safe s.data (safeStr_mem hss)]
      simp [List.append_assoc]
    rw [hval]
    exact jparseV_str f2 s (x :: r') hss
  · subst hv0
    have hval : jdumpV (PyVal.int 0) ++ x :: r' = '0' :: x :: r' := rfl
    rw [hval]
    exact jparseV_zero f2 x hx r'
  · subst hv1
    have hval : jdumpV (PyVal.int 1) ++ x :: r' = '1' :: x :: r' := rfl
    rw [hval]
    exact jparseV_one f2 x hx r'

theorem jskip_jdumpV (v : PyVal) (hv : SafeJsonVal v) (t : List Char) :
    jskip (jdumpV v ++ t) = jdumpV v ++ t := by
  rcases hv with ⟨s, hvs, hss⟩ | hv0 | hv1
  · subst hvs
    have h1 : jdumpV (PyVal.str s) ++ t = '"' :: ((s.data ++ ['"']) ++ t) := by
      show jsonQuoteL s.data ++ t = _
      rw [jsonQuoteL_safe s.data (safeStr_mem hss), List.cons_append]
    rw [h1, jskip_cons '"' _ (by decide)]
  · subst hv0
    have h1 : jdumpV (PyVal.int 0) ++ t = '0' :: t := rfl
    rw [h1, jskip_cons '0' _ (by decide)]
  · subst hv1
    have h1 : jdumpV (PyVal.int 1) ++ t = '1' :: t := rfl
    rw [h1, jskip_cons '1' _ (by decide)]

theorem jparseMembers_dump : ∀ (ps : PyDict) (fuel : Nat) (acc : PyDict) (rest : List Char),
    ps ≠ [] → ps.length + 1 ≤ fuel →
    (∀ kv ∈ ps, SafeStr kv.1 ∧ SafeJsonVal kv.2) →
    (∀ kv ∈ ps, dlookup acc kv.1 = Option.none) →
    ps.Pairwise (fun a b => a.1 ≠ b.1) →
    jparseMembers fuel (jdumpP (PyPairs.ofList ps) ++ '\x7d' :: rest) acc
      = Except.ok (PyVal.dict (PyPairs.ofList (acc ++ ps)), rest) := by
  intro ps
  induction ps with
  | nil =>
    intro fuel acc rest hne
    exact absurd rfl hne
  | cons kv tl ih =>
    intro fuel acc rest _ hfuel hsafe hfresh hpw
    obtain ⟨k, v⟩ := kv
    obtain ⟨hk, hv⟩ := hsafe (k, v) (List.mem_cons_self _ _)
    have hfreshk := hfresh (k, v) (List.mem_cons_self _ _)
    match fuel, hfuel with
    | f2 + 2, hfuel =>
    cases tl with
    | nil =>
      have hshape : jdumpP (PyPairs.ofList [(k, v)]) ++ '\x7d' :: rest
          = '"' :: (k.data ++ '"' :: ':' :: (jdumpV v ++ '\x7d' :: rest)) := by
        show (jsonQuoteL k.data ++ ':' :: jdumpV v) ++ '\x7d' :: rest = _
        rw [jsonQuoteL_safe k.data (safeStr_mem hk)]
        simp [List.append_assoc]
      rw [hshape]
      rw [jparseMembers.eq_def]
      simp only []
      rw [jparseStrBody_safe _ k.data
        (by simp only [List.length_append, List.length_cons]; omega) (safeStr_mem hk) _]
      simp only []
      rw [jskip_cons ':' _ (by decide)]
      simp only []
      rw [jskip_jdumpV v hv ('\x7d' :: rest),
        jparseV_dump_val f2 v hv '\x7d' (Or.inr rfl) rest]
      simp only []
      rw [jskip_cons '\x7d' _ (by decide)]
      simp only []
      rw [dset_of_not_contains acc ⟨k.data⟩ v hfreshk]
    | cons kv2 tl2 =>
      obtain ⟨k2, v2⟩ := kv2
      have hk2 : SafeStr k2 := (hsafe (k2, v2) (List.mem_cons_of_mem _ (List.mem_cons_self _ _))).1
      have hshape : jdumpP (PyPairs.ofList ((k, v) :: (k2, v2) :: tl2)) ++ '\x7d' :: rest
          = '"' :: (k.data ++ '"' :: ':' :: (jdumpV v ++ ',' ::
              (jdumpP (PyPairs.ofList ((k2, v2) :: tl2)) ++ '\x7d' :: rest))) := by
        show (jsonQuoteL k.data ++ ':' :: jdumpV v ++ ',' ::
            jdumpP (PyPairs.ofList ((k2, v2) :: tl2))) ++ '\x7d' :: rest = _
        rw [jsonQuoteL_safe k.data (safeStr_mem hk)]
        simp [List.append_assoc]
      rw [hshape]
      rw [jparseMembers.eq_def]
      simp only []
      rw [jparseStrBody_safe _ k.data
        (by simp only [List.length_append, List.length_cons]; omega) (safeStr_mem hk) _]
      simp only []
      rw [jskip_cons ':' _ (by decide)]
      simp only []
      rw [jskip_jdumpV v hv _, jparseV_dump_val f2 v hv ',' (Or.inl rfl) _]
      simp only []
      rw [jskip_cons ',' _ (by decide)]
      simp only []
      obtain ⟨X, hX⟩ := jdumpP_cons_head k2 v2 tl2 hk2
      have hskip6 : jskip (jdumpP (PyPairs.ofList ((k2, v2) :: tl2)) ++ '\x7d' :: rest)
          = jdumpP (PyPairs.ofList ((k2, v2) :: tl2)) ++ '\x7d' :: rest := by
        rw [hX, List.cons_append, jskip_cons '"' _ (by decide)]
      rw [hskip6]
      rw [dset_of_not_contains acc ⟨k.data⟩ v hfreshk]
      have hfresh2 : ∀ kv ∈ (k2, v2) :: tl2,
          dlookup (acc ++ [((⟨k.data⟩ : String), v)]) kv.1 = Option.none := by
        intro kv hkv
        rw [dlookup_append, hfresh kv (List.mem_cons_of_mem _ hkv)]
        have hne2 : kv.1 ≠ k := Ne.symm ((List.pairwise_cons.mp hpw).1 kv hkv)
        have hne3 : ¬ ((⟨k.data⟩ : String) = kv.1) := by
          intro hh
          exact hne2 (by rw [← hh])
        simp only [dlookup]
        rw [if_neg hne3]
      have hih := ih (f2 + 1) (acc ++ [((⟨k.data⟩ : String), v)]) rest (by simp)
        (by simp only [List.length_cons] at hfuel ⊢; omega)
        (fun kv hkv => hsafe kv (List.mem_cons_of_mem _ hkv))
        hfresh2 (List.Pairwise.of_cons hpw)
      rw [hih, List.append_assoc]
      rfl

theorem jdumpP_len_ge (d : PyDict) : d.length ≤ (jdumpP (PyPairs.ofList d)).length := by
  induction d with
  | nil => simp
  | cons kv tl ih =>
    obtain ⟨k, v⟩ := kv
    cases tl with
    | nil =>
      show ([] : PyDict).length + 1 ≤ (jsonQuoteL k.data ++ ':' :: jdumpV v).length
      simp only [List.length_append, List.length_cons, List.length_nil]
      omega
    | cons kv2 tl2 =>
      show (kv2 :: tl2).length + 1
          ≤ (jsonQuoteL k.data ++ ':' :: jdumpV v ++ ','
              :: jdumpP (PyPairs.ofList (kv2 :: tl2))).length
      simp only [List.length_append, List.length_cons] at ih ⊢
      omega

theorem json_loads_dumps (d : PyDict) (hne : d ≠ [])
    (hsafe : ∀ kv ∈ d, SafeStr kv.1 ∧ SafeJsonVal kv.2)
    (hpw : d.Pairwise (fun a b => a.1 ≠ b.1)) :
    json_loads (json_dumps d) = Except.ok (PyVal.dict (PyPairs.ofList d)) := by
  match d, hne with
  | kv0 :: dtl, _ =>
  obtain ⟨k0, v0⟩ := kv0
  have hk0 : SafeStr k0 := (hsafe (k0, v0) (List.mem_cons_self _ _)).1
  obtain ⟨X, hX⟩ := jdumpP_cons_head k0 v0 dtl hk0
  have hchars : (json_dumps ((k0, v0) :: dtl)).data
      = '\x7b' :: (jdumpP (PyPairs.ofList ((k0, v0) :: dtl)) ++ ['\x7d']) := rfl
  have hsk : jskip (jdumpP (PyPairs.ofList ((k0, v0) :: dtl)) ++ ['\x7d'])
      = jdumpP (PyPairs.ofList ((k0, v0) :: dtl)) ++ ['\x7d'] := by
    rw [hX, List.cons_append, jskip_cons '"' _ (by decide)]
  have hlen : ((k0, v0) :: dtl).length + 1
      ≤ 3 * ('\x7b' :: (jdumpP (PyPairs.ofList ((k0, v0) :: dtl)) ++ ['\x7d'])).length + 6 := by
    have hj := jdumpP_len_ge ((k0, v0) :: dtl)
    simp only [List.length_cons, List.length_append] at hj ⊢
    omega
  have hmem := jparseMembers_dump ((k0, v0) :: dtl)
    (3 * ('\x7b' :: (jdumpP (PyPairs.ofList ((k0, v0) :: dtl)) ++ ['\x7d'])).length + 6)
    [] [] (by simp) hlen hsafe (fun _ _ => rfl) hpw
  have hV : jparseV
      (3 * ('\x7b' :: (jdumpP (PyPairs.ofList ((k0, v0) :: dtl)) ++ ['\x7d'])).length + 8)
      ('\x7b' :: (jdumpP (PyPairs.ofList ((k0, v0) :: dtl)) ++ ['\x7d']))
      = Except.ok (PyVal.dict (PyPairs.ofList ((k0, v0) :: dtl)), []) := by
    show jparseObj
      (3 * ('\x7b' :: (jdumpP (PyPairs.ofList ((k0, v0) :: dtl)) ++ ['\x7d'])).length + 7)
      (jskip (jdumpP (PyPairs.ofList ((k0, v0) :: dtl)) ++ ['\x7d'])) = _
    rw [hsk, jparseObj.eq_def]
    split
    · rename_i r heq
      rw [hX, List.cons_append, List.cons.injEq] at heq
      exact absurd heq.1 (by decide)
    · omega
    · rename_i fuel2 l hno heq hne2
      have hf : hno
          = 3 * ('\x7b' :: (jdumpP (PyPairs.ofList ((k0, v0) :: dtl)) ++ ['\x7d'])).length + 6 := by
        omega
      rw [hf]
      exact hmem
  unfold json_loads
  rw [hchars, jskip_cons '\x7b' _ (by decide), hV]
  simp only []
  rw [if_pos (show jskip [] = [] from rfl)]

theorem dlookup_mem (d : PyDict) (k : String) (v : PyVal)
    (h : dlookup d k = Option.some v) : (k, v) ∈ d := by
  induction d with
  | nil => exact absurd h (by simp [dlookup])
  | cons e tl ih =>
    by_cases he : e.1 = k
    · simp only [dlookup, if_pos he, Option.some.injEq] at h
      have hkv : (k, v) = e := by
        rw [← he, ← h]
      rw [hkv]
      exact List.mem_cons_self e tl
    · simp only [dlookup, if_neg he] at h
      exact List.mem_cons_of_mem e (ih h)

theorem dset_last_same (l : PyDict) (tg : String) (v : PyVal) (h : ∀ e ∈ l, e.1 ≠ tg) :
    dset (l ++ [(tg, v)]) tg v = l ++ [(tg, v)] := by
  induction l with
  | nil => simp [dset]
  | cons e tl ih =>
    have he : e.1 ≠ tg := h e (List.mem_cons_self e tl)
    rw [List.cons_append]
    rw [show dset (e :: (tl ++ [(tg, v)])) tg v
        = if e.1 = tg then (tg, v) :: (tl ++ [(tg, v)]) else e :: dset (tl ++ [(tg, v)]) tg v
      from rfl]
    rw [if_neg he, ih (fun x hx => h x (List.mem_cons_of_mem e hx))]

theorem pairwise_key_map (ks : List String) (f : String → PyVal) (rest : PyDict)
    (h : ks.Pairwise (fun a b => a ≠ b))
    (hdisj : ∀ k ∈ ks, ∀ e ∈ rest, k ≠ e.1)
    (hrest : rest.Pairwise (fun a b => a.1 ≠ b.1)) :
    (ks.map (fun k => (k, f k)) ++ rest).Pairwise (fun a b => a.1 ≠ b.1) := by
  refine List.pairwise_append.mpr ⟨?_, hrest, ?_⟩
  · refine List.pairwise_map.mpr ?_
    refine List.Pairwise.imp ?_ h
    intro a b hab
    exact hab
  · intro a ha b hb
    obtain ⟨k, hk, hke⟩ := List.mem_map.mp ha
    rw [← hke]
    exact hdisj k hk b hb

theorem jdumpV_chars_safe (v : PyVal) (hv : SafeJsonVal v) :
    ∀ c ∈ jdumpV v, c.toNat < 128 := by
  rcases hv with ⟨s, hvs, hss⟩ | h0 | h1
  · subst hvs
    intro c hc
    have hd : jdumpV (PyVal.str s) = '"' :: (s.data ++ ['"']) := by
      show jsonQuoteL s.data = _
      exact jsonQuoteL_safe s.data (safeStr_mem hss)
    rw [hd] at hc
    rcases List.mem_cons.mp hc with h | hc
    · subst h; decide
    rcases List.mem_append.mp hc with h | hc
    · exact (safe_toNat_bounds c (safeStr_mem hss c h)).2
    · rw [List.mem_singleton.mp hc]; decide
  · subst h0
    intro c hc
    have hd : jdumpV (PyVal.int 0) = ['0'] := rfl
    rw [hd] at hc
    rw [List.mem_singleton.mp hc]
    decide
  · subst h1
    intro c hc
    have hd : jdumpV (PyVal.int 1) = ['1'] := rfl
    rw [hd] at hc
    rw [List.mem_singleton.mp hc]
    decide

theorem jdumpP_chars (d : PyDict) (hsafe : ∀ kv ∈ d, SafeStr kv.1 ∧ SafeJsonVal kv.2) :
    ∀ c ∈ jdumpP (PyPairs.ofList d), c.toNat < 128 := by
  induction d with
  | nil =>
    intro c hc
    exact absurd hc (List.not_mem_nil c)
  | cons kv tl ih =>
    obtain ⟨k, v⟩ := kv
    obtain ⟨hk, hv⟩ := hsafe (k, v) (List.mem_cons_self _ _)
    have hkq : jsonQuoteL k.data = '"' :: (k.data ++ ['"']) :=
      jsonQuoteL_safe k.data (safeStr_mem hk)
    have hquote : ∀ c ∈ jsonQuoteL k.data, c.toNat < 128 := by
      intro c hc
      rw [hkq] at hc
      rcases List.mem_cons.mp hc with h | hc
      · subst h; decide
      rcases List.mem_append.mp hc with h | hc
      · exact (safe_toNat_bounds c (safeStr_mem hk c h)).2
      · rw [List.mem_singleton.mp hc]; decide
    cases tl with
    | nil =>
      intro c hc
      have hsh : jdumpP (PyPairs.ofList [(k, v)]) = jsonQuoteL k.data ++ ':' :: jdumpV v := rfl
      rw [hsh] at hc
      rcases List.mem_append.mp hc with h | hc
      · exact hquote c h
      rcases List.mem_cons.mp hc with h | hc
      · subst h; decide
      · exact jdumpV_chars_safe v hv c hc
    | cons kv2 tl2 =>
      intro c hc
      have hsh : jdumpP (PyPairs.ofList ((k, v) :: kv2 :: tl2))
          = jsonQuoteL k.data ++ ':' :: jdumpV v ++ ','
            :: jdumpP (PyPairs.ofList (kv2 :: tl2)) := rfl
      rw [hsh] at hc
      rcases List.mem_append.mp hc with h | hc
      · rcases List.mem_append.mp h with h2 | h2
        · exact hquote c h2
        · rcases List.mem_cons.mp h2 with h3 | h3
          · subst h3; decide
          · exact jdumpV_chars_safe v hv c h3
      · rcases List.mem_cons.mp hc with h | h
        · subst h; decide
        · exact ih (fun x hx => hsafe x (List.mem_cons_of_mem _ hx)) c h

theorem json_dumps_chars (d : PyDict)
    (hsafe : ∀ kv ∈ d, SafeStr kv.1 ∧ SafeJsonVal kv.2) :
    ∀ c ∈ (json_dumps d).data, c.toNat < 128 := by
  intro c hc
  have hd : (json_dumps d).data = '\x7b' :: (jdumpP (PyPairs.ofList d) ++ ['\x7d']) := rfl
  rw [hd] at hc
  rcases List.mem_cons.mp hc with h | hc
  · subst h; decide
  rcases List.mem_append.mp hc with h | hc
  · exact jdumpP_chars d hsafe c h
  · rw [List.mem_singleton.mp hc]; decide

theorem safeStr_of_all_mem (l : List String)
    (hall : (l.all (fun s => s.data.all safeChar)) = true) :
    ∀ x ∈ l, SafeStr x := by
  intro x hx
  exact List.all_eq_true.mp hall x hx

theorem vmessNormVal_safeJson (r : PyDict) (hr : SafeVmessRecord r) (k : String) :
    SafeJsonVal (vmessNormVal r k) := by
  unfold vmessNormVal
  by_cases hp : k = "port"
  · rw [if_pos hp]
    cases hl : dlookup r "port" with
    | none => exact Or.inl ⟨"", rfl, by rfl⟩
    | some v =>
      obtain ⟨_, s, hvs, hss⟩ := hr ("port", v) (dlookup_mem r "port" v hl)
      simp only [] at hvs
      subst hvs
      exact Or.inl ⟨s, rfl, hss⟩
  · rw [if_neg hp]
    by_cases ha : k = "allowInsecure"
    · rw [if_pos ha]
      cases hl : dlookup r "allowInsecure" with
      | none => exact Or.inr (Or.inr rfl)
      | some v =>
        show SafeJsonVal (PyVal.int (truthy_to_int v))
        rcases truthy_zero_or_one v with h0 | h1
        · rw [h0]
          exact Or.inr (Or.inl rfl)
        · rw [h1]
          exact Or.inr (Or.inr rfl)
    · rw [if_neg ha]
      cases hl : dlookup r k with
      | some v =>
        obtain ⟨_, s, hvs, hss⟩ := hr (k, v) (dlookup_mem r k v hl)
        simp only [] at hvs
        subst hvs
        exact Or.inl ⟨s, rfl, hss⟩
      | none =>
        by_cases h1 : k = "aid"
        · subst h1
          exact Or.inl ⟨"0", rfl, by rfl⟩
        by_cases h2 : k = "alpn"
        · subst h2
          exact Or.inl ⟨"", rfl, by rfl⟩
        by_cases h3 : k = "type"
        · subst h3
          exact Or.inl ⟨"", rfl, by rfl⟩
        have hdf : dlookup DEFAULTS_IF_MISSING_VMESS k = Option.none := by
          simp only [DEFAULTS_IF_MISSING_VMESS, dlookup]
          rw [if_neg (fun h => h1 h.symm), if_neg (fun h => h2 h.symm),
            if_neg (fun h => h3 h.symm), if_neg (fun h => ha h.symm)]
        rw [hdf]
        exact Or.inl ⟨"", rfl, by rfl⟩

theorem vmess_norm_entry_safe (r : PyDict) (hr : SafeVmessRecord r) :
    ∀ kv ∈ normalize_vmess_entry r, SafeStr kv.1 ∧ SafeJsonVal kv.2 := by
  intro kv hkv
  rw [normalize_vmess_char] at hkv
  rcases List.mem_append.mp hkv with hm | hm
  · obtain ⟨k, hk, hke⟩ := List.mem_map.mp hm
    rw [← hke]
    refine ⟨?_, vmessNormVal_safeJson r hr k⟩
    exact safeStr_of_all_mem WANTED_ORDER_VMESS (by decide) k hk
  · rw [List.mem_singleton.mp hm]
    exact ⟨by rfl, Or.inl ⟨"vmess", rfl, by rfl⟩⟩

theorem vmess_norm_pairwise (r : PyDict) :
    (normalize_vmess_entry r).Pairwise (fun a b => a.1 ≠ b.1) := by
  rw [normalize_vmess_char]
  refine pairwise_key_map _ _ _ (by decide) ?_ (by simp)
  intro k hk e he
  rw [List.mem_singleton.mp he]
  have hall : ∀ x ∈ WANTED_ORDER_VMESS, x ≠ "_type" := by decide
  exact hall k hk

theorem vmess_norm_ne_nil (r : PyDict) : normalize_vmess_entry r ≠ [] := by
  rw [normalize_vmess_char]
  simp

theorem b64OfText_chars (s : String) (hs : ∀ c ∈ s.data, c.toNat < 128) :
    ∀ c ∈ (b64OfText s).data, (∃ k, k < 64 ∧ c = b64char k) ∨ c = '=' := by
  intro c hc
  have hb : (b64OfText s).data = b64encodeBytes (utf8Encode s) := rfl
  rw [hb] at hc
  refine b64encode_chars (utf8Encode s).length (utf8Encode s) (Nat.le_refl _) ?_ c hc
  intro x hx
  have he : utf8Encode s = s.data.map Char.toNat := utf8Encode_ascii s.data hs
  rw [he] at hx
  obtain ⟨c2, hc2, hce⟩ := List.mem_map.mp hx
  rw [← hce]
  have := hs c2 hc2
  omega

theorem decode_encode_vmess (n : PyDict) (hne : n ≠ [])
    (hsafe : ∀ kv ∈ n, SafeStr kv.1 ∧ SafeJsonVal kv.2)
    (hpw : n.Pairwise (fun a b => a.1 ≠ b.1)) :
    decode_vmess_or_vless_line (encode_vmess_line n)
      = Except.ok (dset n "_type" (PyVal.str "vmess")) := by
  have hjchars : ∀ c ∈ (json_dumps n).data, c.toNat < 128 := json_dumps_chars n hsafe
  have hbchars := b64OfText_chars (json_dumps n) hjchars
  have hldata : (encode_vmess_line n).data
      = "vmess://".data ++ (b64OfText (json_dumps n)).data := by
    show ("vmess://" ++ b64OfText (json_dumps n)).data = _
    rw [String.data_append]
  have hstrip : pyStrip (encode_vmess_line n) = encode_vmess_line n := by
    refine pyStrip_id _ ?_
    intro c hc
    rw [hldata] at hc
    rcases List.mem_append.mp hc with h | h
    · have hm : c ∈ ['v', 'm', 'e', 's', 's', ':', '/', '/'] := h
      rcases List.mem_cons.mp hm with h2 | hm; · subst h2; decide
      rcases List.mem_cons.mp hm with h2 | hm; · subst h2; decide
      rcases List.mem_cons.mp hm with h2 | hm; · subst h2; decide
      rcases List.mem_cons.mp hm with h2 | hm; · subst h2; decide
      rcases List.mem_cons.mp hm with h2 | hm; · subst h2; decide
      rcases List.mem_cons.mp hm with h2 | hm; · subst h2; decide
      rcases List.mem_cons.mp hm with h2 | hm; · subst h2; decide
      rcases List.mem_cons.mp hm with h2 | hm; · subst h2; decide
      exact absurd hm (List.not_mem_nil c)
    · rcases hbchars c h with ⟨k, hk, hke⟩ | hke
      · subst hke
        exact b64char_not_space k hk
      · subst hke
        decide
  have hnemp : ¬ (encode_vmess_line n = "") := by
    intro hh
    have h2 : (encode_vmess_line n).data.length = 0 := by rw [hh]; rfl
    rw [hldata, List.length_append] at h2
    have h8 : ("vmess://".data).length = 8 := rfl
    omega
  have hpre : strStartsWith (encode_vmess_line n) "vmess://" = true :=
    strStartsWith_append "vmess://" (b64OfText (json_dumps n))
  have hdrop : strDrop (encode_vmess_line n) 8 = b64OfText (json_dumps n) := by
    show String.mk ((encode_vmess_line n).data.drop 8) = _
    rw [hldata]
    rw [show ("vmess://".data ++ (b64OfText (json_dumps n)).data).drop 8
      = (b64OfText (json_dumps n)).data from List.drop_left "vmess://".data _]
  unfold decode_vmess_or_vless_line
  rw [hstrip]
  rw [if_neg hnemp]
  simp only [hpre, if_pos]
  rw [hdrop]
  have hlen4 : (b64OfText (json_dumps n)).data.length % 4 = 0 := by
    show (b64encodeBytes (utf8Encode (json_dumps n))).length % 4 = 0
    exact b64encode_len (utf8Encode (json_dumps n)).length _ (Nat.le_refl _)
  have hpad : (4 - (b64OfText (json_dumps n)).data.length % 4) % 4 = 0 := by
    rw [hlen4]
  rw [hpad]
  simp only [List.replicate_zero, List.append_nil]
  have hascii : ((b64OfText (json_dumps n)).data.all (fun c => decide (c.toNat < 128))) = true := by
    rw [List.all_eq_true]
    intro c hc
    refine decide_eq_true ?_
    rcases hbchars c hc with ⟨k, hk, hke⟩ | hke
    · subst hke
      exact b64char_lt128 k hk
    · subst hke
      decide
  rw [if_neg (by rw [hascii]; exact fun h => h rfl)]
  have hb64 : b64decodePy (b64OfText (json_dumps n)).data
      = Option.some (utf8Encode (json_dumps n)) := by
    show b64decodePy (b64encodeBytes (utf8Encode (json_dumps n))) = _
    refine b64decodePy_encode _ ?_
    intro x hx
    have he : utf8Encode (json_dumps n) = (json_dumps n).data.map Char.toNat :=
      utf8Encode_ascii (json_dumps n).data hjchars
    rw [he] at hx
    obtain ⟨c2, hc2, hce⟩ := List.mem_map.mp hx
    rw [← hce]
    have := hjchars c2 hc2
    omega
  simp only [hb64]
  have hutf : utf8DecodeStrict (utf8Encode (json_dumps n))
      = Option.some (json_dumps n).data := by
    have he : utf8Encode (json_dumps n) = (json_dumps n).data.map Char.toNat :=
      utf8Encode_ascii (json_dumps n).data hjchars
    rw [he]
    exact utf8DecodeStrict_ascii (json_dumps n).data hjchars
  simp only [hutf]
  have hjson : json_loads ⟨(json_dumps n).data⟩
      = Except.ok (PyVal.dict (PyPairs.ofList n)) := by
    show json_loads (json_dumps n) = _
    exact json_loads_dumps n hne hsafe hpw
  rw [hjson, pbind_ok]
  have hasd : asDictE (PyVal.dict (PyPairs.ofList n)) = Except.ok n := by
    show Except.ok (PyPairs.ofList n).toList = Except.ok n
    rw [pyPairs_toList_ofList]
  rw [hasd, pbind_ok, ppure]

theorem roundtrip_vmess_ok (r : PyDict) (hr : SafeVmessRecord r) :
    roundtrip_vmess r = Except.ok (normalize_vmess_entry r) := by
  have hdec := decode_encode_vmess (normalize_vmess_entry r) (vmess_norm_ne_nil r)
    (vmess_norm_entry_safe r hr) (vmess_norm_pairwise r)
  have hset : dset (normalize_vmess_entry r) "_type" (PyVal.str "vmess")
      = normalize_vmess_entry r := by
    conv_lhs => rw [normalize_vmess_char]
    rw [normalize_vmess_char]
    refine dset_last_same _ _ _ ?_
    intro e he
    obtain ⟨k, hk, hke⟩ := List.mem_map.mp he
    rw [← hke]
    have hall : ∀ x ∈ WANTED_ORDER_VMESS, x ≠ "_type" := by decide
    exact hall k hk
  rw [hset] at hdec
  show (do
    let d ← decode_vmess_or_vless_line (encode_vmess_line (normalize_vmess_entry r))
    pure (normalize_entry d)) = _
  rw [hdec, pbind_ok, ppure]
  have hne : normalize_entry (normalize_vmess_entry r)
      = normalize_vmess_entry (normalize_vmess_entry r) := by
    rw [normalize_entry, if_neg (by rw [dget_norm_vmess_type]; decide)]
  rw [hne, norm_vmess_idem]

theorem vlessNormVal_safeJson (r : PyDict) (hr : SafeVlessRecord r) (k : String) :
    SafeJsonVal (vlessNormVal r k) := by
  obtain ⟨hr1, -⟩ := hr
  unfold vlessNormVal
  by_cases hp : k = "port"
  · rw [if_pos hp]
    cases hl : dlookup r "port" with
    | none => exact Or.inl ⟨"", rfl, by rfl⟩
    | some v =>
      obtain ⟨_, s, hvs, hss⟩ := hr1 ("port", v) (dlookup_mem r "port" v hl)
      simp only [] at hvs
      subst hvs
      exact Or.inl ⟨s, rfl, hss⟩
  · rw [if_neg hp]
    by_cases ha : k = "allowInsecure"
    · rw [if_pos ha]
      cases hl : dlookup r "allowInsecure" with
      | none => exact Or.inr (Or.inr rfl)
      | some v =>
        show SafeJsonVal (PyVal.int (truthy_to_int v))
        rcases truthy_zero_or_one v with h0 | h1
        · rw [h0]
          exact Or.inr (Or.inl rfl)
        · rw [h1]
          exact Or.inr (Or.inr rfl)
    · rw [if_neg ha]
      cases hl : dlookup r k with
      | some v =>
        obtain ⟨_, s, hvs, hss⟩ := hr1 (k, v) (dlookup_mem r k v hl)
        simp only [] at hvs
        subst hvs
        exact Or.inl ⟨s, rfl, hss⟩
      | none =>
        by_cases h1 : k = "encryption"
        · subst h1
          exact Or.inl ⟨"none", rfl, by rfl⟩
        by_cases h2 : k = "security"
        · subst h2
          exact Or.inl ⟨"none", rfl, by rfl⟩
        by_cases h3 : k = "type"
        · subst h3
          exact Or.inl ⟨"tcp", rfl, by rfl⟩
        have hdf : dlookup DEFAULTS_IF_MISSING_VLESS k = Option.none := by
          simp only [DEFAULTS_IF_MISSING_VLESS, dlookup]
          rw [if_neg (fun h => h1 h.symm), if_neg (fun h => h2 h.symm),
            if_neg (fun h => h3 h.symm), if_neg (fun h => ha h.symm)]
        rw [hdf]
        exact Or.inl ⟨"", rfl, by rfl⟩

theorem vless_norm_entry_safe (r : PyDict) (hr : SafeVlessRecord r) :
    ∀ kv ∈ normalize_vless_entry r, SafeStr kv.1 ∧ SafeJsonVal kv.2 := by
  intro kv hkv
  rw [normalize_vless_char] at hkv
  rcases List.mem_append.mp hkv with hm | hm
  · obtain ⟨k, hk, hke⟩ := List.mem_map.mp hm
    rw [← hke]
    refine ⟨?_, vlessNormVal_safeJson r hr k⟩
    exact safeStr_of_all_mem WANTED_ORDER_VLESS (by decide) k hk
  · rw [List.mem_singleton.mp hm]
    exact ⟨by rfl, Or.inl ⟨"vless", rfl, by rfl⟩⟩

theorem vless_norm_pairwise (r : PyDict) :
    (normalize_vless_entry r).Pairwise (fun a b => a.1 ≠ b.1) := by
  rw [normalize_vless_char]
  refine pairwise_key_map _ _ _ (by decide) ?_ (by simp)
  intro k hk e he
  rw [List.mem_singleton.mp he]
  have hall : ∀ x ∈ WANTED_ORDER_VLESS, x ≠ "_type" := by decide
  exact hall k hk

theorem vless_norm_ne_nil (r : PyDict) : normalize_vless_entry r ≠ [] := by
  rw [normalize_vless_char]
  simp

theorem dlookup_vqp_aux (cfg : PyDict) (ks : List String) (k : String) (hk : ¬ k ∈ ks) :
    dlookup (ks.filterMap (fun k2 =>
      match dlookup cfg k2 with
      | Option.some v =>
        if pyTruthy v ∧ v ≠ PyVal.str "" then Option.some (k2, v) else Option.none
      | Option.none => Option.none)) k = Option.none := by
  induction ks with
  | nil => rfl
  | cons e tl ih =>
    have hek : e ≠ k := fun h => hk (h ▸ List.mem_cons_self e tl)
    have htl : ¬ k ∈ tl := fun h => hk (List.mem_cons_of_mem e h)
    rw [List.filterMap_cons]
    cases hl : dlookup cfg e with
    | none => exact ih htl
    | some v =>
      by_cases hc : pyTruthy v ∧ v ≠ PyVal.str ""
      · simp only [if_pos hc]
        rw [show dlookup ((e, v) :: List.filterMap _ tl) k
            = if e = k then Option.some v else dlookup (List.filterMap _ tl) k from rfl]
        rw [if_neg hek]
        exact ih htl
      · simp only [if_neg hc]
        exact ih htl

theorem dlookup_vqp_mem (cfg : PyDict) (ks : List String) (k : String)
    (hk : k ∈ ks) (hnd : ks.Pairwise (fun a b => a ≠ b)) :
    dlookup (ks.filterMap (fun k2 =>
      match dlookup cfg k2 with
      | Option.some v =>
        if pyTruthy v ∧ v ≠ PyVal.str "" then Option.some (k2, v) else Option.none
      | Option.none => Option.none)) k
    = match dlookup cfg k with
      | Option.some v =>
        if pyTruthy v ∧ v ≠ PyVal.str "" then Option.some v else Option.none
      | Option.none => Option.none := by
  induction ks with
  | nil => exact absurd hk (List.not_mem_nil k)
  | cons e tl ih =>
    rw [List.filterMap_cons]
    rcases List.mem_cons.mp hk with he | htl
    · subst he
      have hnin : ¬ k ∈ tl := fun h => (List.pairwise_cons.mp hnd).1 k h rfl
      cases hl : dlookup cfg k with
      | none =>
        simp only []
        rw [dlookup_vqp_aux cfg tl k hnin]
      | some v =>
        by_cases hc : pyTruthy v ∧ v ≠ PyVal.str ""
        · simp only [if_pos hc]
          rw [show dlookup ((k, v) :: List.filterMap _ tl) k
              = if k = k then Option.some v else dlookup (List.filterMap _ tl) k from rfl]
          rw [if_pos rfl]
        · simp only [if_neg hc]
          exact dlookup_vqp_aux cfg tl k hnin
    · have hek : e ≠ k := (List.pairwise_cons.mp hnd).1 k htl
      have ih2 := ih htl (List.pairwise_cons.mp hnd).2
      cases hl : dlookup cfg e with
      | none => exact ih2
      | some v =>
        by_cases hc : pyTruthy v ∧ v ≠ PyVal.str ""
        · simp only [if_pos hc]
          rw [show dlookup ((e, v) :: List.filterMap _ tl) k
              = if e = k then Option.some v else dlookup (List.filterMap _ tl) k from rfl]
          rw [if_neg hek]
          exact ih2
        · simp only [if_neg hc]
          exact ih2

theorem vqp_mem_char (cfg : PyDict) (kv : String × PyVal)
    (hkv : kv ∈ vless_query_params cfg) :
    kv.1 ∈ VLESS_QUERY_PARAMS ∧ dlookup cfg kv.1 = Option.some kv.2 ∧
      pyTruthy kv.2 = true ∧ kv.2 ≠ PyVal.str "" := by
  obtain ⟨k2, hk2, hf⟩ := List.mem_filterMap.mp hkv
  cases hl : dlookup cfg k2 with
  | none =>
    rw [hl] at hf
    exact Option.noConfusion hf
  | some v =>
    rw [hl] at hf
    simp only [] at hf
    by_cases hc : pyTruthy v ∧ v ≠ PyVal.str ""
    · simp only [if_pos hc] at hf
      have hpk : kv = (k2, v) := ((Option.some.injEq _ _).mp hf).symm
      subst hpk
      exact ⟨hk2, hl, hc.1, hc.2⟩
    · simp only [if_neg hc] at hf
      exact Option.noConfusion hf

theorem vqp_pairwise (cfg : PyDict) :
    (vless_query_params cfg).Pairwise (fun a b => a.1 ≠ b.1) := by
  have hgen : ∀ ks : List String, ks.Pairwise (fun a b => a ≠ b) →
      (ks.filterMap (fun k2 =>
        match dlookup cfg k2 with
        | Option.some v =>
          if pyTruthy v ∧ v ≠ PyVal.str "" then Option.some (k2, v) else Option.none
        | Option.none => Option.none)).Pairwise (fun a b => a.1 ≠ b.1) := by
    intro ks hnd
    induction ks with
    | nil => exact List.Pairwise.nil
    | cons e tl ih =>
      rw [List.filterMap_cons]
      have ih2 := ih (List.pairwise_cons.mp hnd).2
      cases hl : dlookup cfg e with
      | none => exact ih2
      | some v =>
        by_cases hc : pyTruthy v ∧ v ≠ PyVal.str ""
        · simp only [if_pos hc]
          refine List.pairwise_cons.mpr ⟨?_, ih2⟩
          intro q hq
          obtain ⟨k2, hk2, hf⟩ := List.mem_filterMap.mp hq
          have hq1 : q.1 = k2 := by
            cases hl2 : dlookup cfg k2 with
            | none =>
              rw [hl2] at hf
              exact Option.noConfusion hf
            | some v2 =>
              rw [hl2] at hf
              simp only [] at hf
              by_cases hc2 : pyTruthy v2 ∧ v2 ≠ PyVal.str ""
              · simp only [if_pos hc2] at hf
                have : q = (k2, v2) := ((Option.some.injEq _ _).mp hf).symm
                rw [this]
              · simp only [if_neg hc2] at hf
                exact Option.noConfusion hf
          show e ≠ q.1
          rw [hq1]
          exact (List.pairwise_cons.mp hnd).1 k2 hk2
        · simp only [if_neg hc]
          exact ih2
  exact hgen VLESS_QUERY_PARAMS (by decide)

theorem vqp_norm_allowInsecure (r : PyDict) (hr : SafeVlessRecord r) :
    ("allowInsecure", PyVal.int 1) ∈ vless_query_params (normalize_vless_entry r) := by
  have hai : vlessNormVal r "allowInsecure" = PyVal.int 1 := by
    rw [vlessNormVal, if_neg (by decide), if_pos rfl]
    cases hl : dlookup r "allowInsecure" with
    | none => rfl
    | some v =>
      have := hr.2.2.2.2.2.2 v hl
      simp only [this]
  refine List.mem_filterMap.mpr ⟨"allowInsecure", by decide, ?_⟩
  rw [dlookup_norm_vless r (by decide), hai]
  simp only []
  rw [if_pos (show pyTruthy (PyVal.int 1) = true ∧ PyVal.int 1 ≠ PyVal.str "" from by
    exact ⟨by decide, by decide⟩)]

theorem vlessNormVal_str (r : PyDict)
    (hr1 : ∀ kv ∈ r, kv.1 ∈ WANTED_ORDER_VLESS ∧ ∃ s, kv.2 = PyVal.str s ∧ SafeStr s)
    (k : String) (hka : k ≠ "allowInsecure") :
    ∃ s, vlessNormVal r k = PyVal.str s ∧ SafeStr s := by
  unfold vlessNormVal
  by_cases hp : k = "port"
  · rw [if_pos hp]
    cases hl : dlookup r "port" with
    | none => exact ⟨"", rfl, by rfl⟩
    | some v =>
      obtain ⟨_, s, hvs, hss⟩ := hr1 ("port", v) (dlookup_mem r "port" v hl)
      simp only [] at hvs
      subst hvs
      exact ⟨s, rfl, hss⟩
  · rw [if_neg hp, if_neg hka]
    cases hl : dlookup r k with
    | some v =>
      obtain ⟨_, s, hvs, hss⟩ := hr1 (k, v) (dlookup_mem r k v hl)
      simp only [] at hvs
      subst hvs
      exact ⟨s, rfl, hss⟩
    | none =>
      by_cases h1 : k = "encryption"
      · subst h1
        exact ⟨"none", rfl, by rfl⟩
      by_cases h2 : k = "security"
      · subst h2
        exact ⟨"none", rfl, by rfl⟩
      by_cases h3 : k = "type"
      · subst h3
        exact ⟨"tcp", rfl, by rfl⟩
      have hdf : dlookup DEFAULTS_IF_MISSING_VLESS k = Option.none := by
        simp only [DEFAULTS_IF_MISSING_VLESS, dlookup]
        rw [if_neg (fun h => h1 h.symm), if_neg (fun h => h2 h.symm),
          if_neg (fun h => h3 h.symm), if_neg (fun h => hka h.symm)]
      rw [hdf]
      exact ⟨"", rfl, by rfl⟩

theorem map_asciiLower_id (l : List Char) (h : ∀ c ∈ l, ¬ ('A' ≤ c ∧ c ≤ 'Z')) :
    l.map asciiLower = l := by
  conv_rhs => rw [← List.map_id l]
  apply List.map_congr_left
  intro c hc
  show asciiLower c = c
  rw [asciiLower, if_neg (h c hc)]

theorem urlencode_ne_empty (kv0 : String × PyVal) (rest : List (String × PyVal)) :
    urlencode (kv0 :: rest) ≠ "" := by
  intro h
  have hd := congrArg String.data h
  rw [urlencode, List.map_cons, intercalate_data] at hd
  have hlen := congrArg List.length hd
  rw [List.length_append] at hlen
  have h2 : (quote_plus kv0.1 ++ "=" ++ quote_plus (pyStr kv0.2)).data.length
      = (quote_plus kv0.1).data.length + 1 + (quote_plus (pyStr kv0.2)).data.length := by
    rw [String.data_append, String.data_append, List.length_append, List.length_append,
      show (("=" : String).data).length = 1 from rfl]
  rw [h2] at hlen
  have h3 : (("" : String).data).length = 0 := rfl
  rw [h3] at hlen
  omega

theorem dlookup_map_val (l : PyDict) (f : PyVal → PyVal) (k : String) :
    dlookup (l.map (fun kv => (kv.1, f kv.2))) k = (dlookup l k).map f := by
  induction l with
  | nil => rfl
  | cons e tl ih =>
    by_cases he : e.1 = k
    · rw [List.map_cons]
      rw [show dlookup ((e.1, f e.2) :: tl.map (fun kv => (kv.1, f kv.2))) k
          = if e.1 = k then Option.some (f e.2) else dlookup (tl.map (fun kv => (kv.1, f kv.2))) k
        from rfl]
      rw [show dlookup (e :: tl) k = if e.1 = k then Option.some e.2 else dlookup tl k from rfl]
      rw [if_pos he, if_pos he]
      rfl
    · rw [List.map_cons]
      rw [show dlookup ((e.1, f e.2) :: tl.map (fun kv => (kv.1, f kv.2))) k
          = if e.1 = k then Option.some (f e.2) else dlookup (tl.map (fun kv => (kv.1, f kv.2))) k
        from rfl]
      rw [show dlookup (e :: tl) k = if e.1 = k then Option.some e.2 else dlookup tl k from rfl]
      rw [if_neg he, if_neg he, ih]

theorem decode_line_vless (s : String) (rest : List Char)
    (hd : s.data = 'v' :: 'l' :: 'e' :: 's' :: 's' :: ':' :: '/' :: '/' :: rest)
    (hsp : ∀ c ∈ s.data, pySpace c = false) :
    decode_vmess_or_vless_line s
      = (do
          let d ← parse_vless_url s
          pure (dset d "_type" (PyVal.str "vless"))) := by
  have hstrip : pyStrip s = s := pyStrip_id s hsp
  have hne : ¬ s = "" := by
    intro h
    rw [h] at hd
    exact List.noConfusion hd
  have hvm : strStartsWith s "vmess://" = false := by
    rw [strStartsWith, hd]
    rfl
  have hvl : strStartsWith s "vless://" = true := by
    rw [strStartsWith, hd]
    rfl
  unfold decode_vmess_or_vless_line
  rw [hstrip, if_neg hne, hvm]
  rw [if_neg (show ¬ (false = true) from fun h => Bool.noConfusion h)]
  rw [hvl, if_pos rfl]

theorem vlessNormVal_norm_aI (r : PyDict) (hr : SafeVlessRecord r) :
    vlessNormVal r "allowInsecure" = PyVal.int 1 := by
  rw [vlessNormVal, if_neg (by decide), if_pos rfl]
  cases hl : dlookup r "allowInsecure" with
  | none => rfl
  | some v =>
    have := hr.2.2.2.2.2.2 v hl
    simp only [this]

theorem vqp_norm_props (r : PyDict) (hr : SafeVlessRecord r) :
    ∀ kv ∈ vless_query_params (normalize_vless_entry r),
      SafeStr kv.1 ∧ kv.1 ≠ "" ∧ SafeStr (pyStr kv.2) ∧ pyStr kv.2 ≠ "" := by
  intro kv hkv
  obtain ⟨hk, hl, ht, hvne⟩ := vqp_mem_char _ kv hkv
  have hkW : kv.1 ∈ WANTED_ORDER_VLESS :=
    (show ∀ x ∈ VLESS_QUERY_PARAMS, x ∈ WANTED_ORDER_VLESS by decide) kv.1 hk
  have hkv2 : vlessNormVal r kv.1 = kv.2 := by
    rw [dlookup_norm_vless r hkW] at hl
    exact (Option.some.injEq _ _).mp hl
  refine ⟨safeStr_of_all_mem VLESS_QUERY_PARAMS (by decide) kv.1 hk,
    (show ∀ x ∈ VLESS_QUERY_PARAMS, x ≠ "" by decide) kv.1 hk, ?_⟩
  have hsj := vlessNormVal_safeJson r hr kv.1
  rw [hkv2] at hsj
  rcases hsj with ⟨s, hvs, hss⟩ | h0 | h1
  · rw [hvs]
    rw [hvs] at ht
    have hsne : s ≠ "" := by
      intro h
      rw [h] at ht
      exact absurd ht (by decide)
    exact ⟨hss, hsne⟩
  · rw [h0] at ht
    exact absurd ht (by decide)
  · rw [h1]
    exact ⟨by rfl, by decide⟩

theorem vqp_norm_keys_nb (cfg : PyDict) :
    ∀ kv ∈ vless_query_params cfg,
      kv.1 ≠ "id" ∧ kv.1 ≠ "add" ∧ kv.1 ≠ "port" ∧ kv.1 ≠ "ps" := by
  intro kv hkv
  exact (show ∀ x ∈ VLESS_QUERY_PARAMS,
    x ≠ "id" ∧ x ≠ "add" ∧ x ≠ "port" ∧ x ≠ "ps" by decide) kv.1 (vqp_mem_char cfg kv hkv).1

theorem dlookup_cons_ne (k1 : String) (v : PyVal) (tl : PyDict) (k : String) (h : k1 ≠ k) :
    dlookup ((k1, v) :: tl) k = dlookup tl k := by
  rw [show dlookup ((k1, v) :: tl) k
      = if k1 = k then Option.some v else dlookup tl k from rfl, if_neg h]

theorem dlookup_cons_eq (k1 : String) (v : PyVal) (tl : PyDict) :
    dlookup ((k1, v) :: tl) k1 = Option.some v := by
  rw [show dlookup ((k1, v) :: tl) k1
      = if k1 = k1 then Option.some v else dlookup tl k1 from rfl, if_pos rfl]

theorem dlookup_map_strPyStr (l : PyDict) (k : String) :
    dlookup (l.map (fun kv => (kv.1, PyVal.str (pyStr kv.2)))) k
      = (dlookup l k).map (fun v => PyVal.str (pyStr v)) := by
  induction l with
  | nil => rfl
  | cons e tl ih =>
    by_cases he : e.1 = k
    · rw [List.map_cons]
      rw [show dlookup ((e.1, PyVal.str (pyStr e.2))
            :: tl.map (fun kv => (kv.1, PyVal.str (pyStr kv.2)))) k
          = if e.1 = k then Option.some (PyVal.str (pyStr e.2))
            else dlookup (tl.map (fun kv => (kv.1, PyVal.str (pyStr kv.2)))) k from rfl]
      rw [show dlookup (e :: tl) k = if e.1 = k then Option.some e.2 else dlookup tl k from rfl]
      rw [if_pos he, if_pos he]
      rfl
    · rw [List.map_cons]
      rw [show dlookup ((e.1, PyVal.str (pyStr e.2))
            :: tl.map (fun kv => (kv.1, PyVal.str (pyStr kv.2)))) k
          = if e.1 = k then Option.some (PyVal.str (pyStr e.2))
            else dlookup (tl.map (fun kv => (kv.1, PyVal.str (pyStr kv.2)))) k from rfl]
      rw [show dlookup (e :: tl) k = if e.1 = k then Option.some e.2 else dlookup tl k from rfl]
      rw [if_neg he, if_neg he, ih]

theorem dlookup_vqp_norm (r : PyDict) (k : String) (hk : k ∈ VLESS_QUERY_PARAMS) :
    dlookup (vless_query_params (normalize_vless_entry r)) k
      = if pyTruthy (vlessNormVal r k) = true ∧ vlessNormVal r k ≠ PyVal.str ""
        then Option.some (vlessNormVal r k) else Option.none := by
  have hkW : k ∈ WANTED_ORDER_VLESS :=
    (show ∀ x ∈ VLESS_QUERY_PARAMS, x ∈ WANTED_ORDER_VLESS by decide) k hk
  have hq := dlookup_vqp_mem (normalize_vless_entry r) VLESS_QUERY_PARAMS k hk (by decide)
  rw [dlookup_norm_vless r hkW] at hq
  simp only [] at hq
  exact hq

theorem vlessNormVal_parsed (r : PyDict) (hr : SafeVlessRecord r)
    (sid a sps : String) (pn : Nat)
    (hid : vlessNormVal r "id" = PyVal.str sid)
    (hadd : vlessNormVal r "add" = PyVal.str a)
    (hportv : vlessNormVal r "port" = PyVal.str ⟨natReprL pn⟩)
    (hps : vlessNormVal r "ps" = PyVal.str sps)
    (k : String) (hk : k ∈ WANTED_ORDER_VLESS) :
    vlessNormVal (("id", PyVal.str sid) :: ("add", PyVal.str a) ::
        ("port", PyVal.str ⟨natReprL pn⟩) :: ("ps", PyVal.str sps) ::
        ((vless_query_params (normalize_vless_entry r)).map
            (fun kv => (kv.1, PyVal.str (pyStr kv.2)))
          ++ [("_type", PyVal.str "vless")])) k
      = vlessNormVal r k := by
  have hkt : k ≠ "_type" := (show ∀ x ∈ WANTED_ORDER_VLESS, x ≠ "_type" by decide) k hk
  by_cases hkp : k = "port"
  · subst hkp
    have e1 : vlessNormVal (("id", PyVal.str sid) :: ("add", PyVal.str a) ::
        ("port", PyVal.str ⟨natReprL pn⟩) :: ("ps", PyVal.str sps) ::
        ((vless_query_params (normalize_vless_entry r)).map
            (fun kv => (kv.1, PyVal.str (pyStr kv.2)))
          ++ [("_type", PyVal.str "vless")])) "port" = PyVal.str ⟨natReprL pn⟩ := by
      rw [vlessNormVal, if_pos rfl]
      rw [dlookup_cons_ne "id" _ _ "port" (by decide),
        dlookup_cons_ne "add" _ _ "port" (by decide)]
      rw [dlookup_cons_eq]
      rfl
    rw [e1, hportv]
  by_cases hka : k = "allowInsecure"
  · subst hka
    have e1 : vlessNormVal (("id", PyVal.str sid) :: ("add", PyVal.str a) ::
        ("port", PyVal.str ⟨natReprL pn⟩) :: ("ps", PyVal.str sps) ::
        ((vless_query_params (normalize_vless_entry r)).map
            (fun kv => (kv.1, PyVal.str (pyStr kv.2)))
          ++ [("_type", PyVal.str "vless")])) "allowInsecure" = PyVal.int 1 := by
      rw [vlessNormVal, if_neg (by decide), if_pos rfl]
      rw [dlookup_cons_ne "id" _ _ "allowInsecure" (by decide),
        dlookup_cons_ne "add" _ _ "allowInsecure" (by decide),
        dlookup_cons_ne "port" _ _ "allowInsecure" (by decide),
        dlookup_cons_ne "ps" _ _ "allowInsecure" (by decide)]
      rw [dlookup_append, dlookup_map_strPyStr]
      rw [dlookup_vqp_norm r "allowInsecure" (by decide), vlessNormVal_norm_aI r hr]
      rw [if_pos (show pyTruthy (PyVal.int 1) = true ∧ PyVal.int 1 ≠ PyVal.str "" from
        ⟨by decide, by decide⟩)]
      decide
    rw [e1, vlessNormVal_norm_aI r hr]
  by_cases hkid : k = "id"
  · subst hkid
    have e1 : vlessNormVal (("id", PyVal.str sid) :: ("add", PyVal.str a) ::
        ("port", PyVal.str ⟨natReprL pn⟩) :: ("ps", PyVal.str sps) ::
        ((vless_query_params (normalize_vless_entry r)).map
            (fun kv => (kv.1, PyVal.str (pyStr kv.2)))
          ++ [("_type", PyVal.str "vless")])) "id" = PyVal.str sid := by
      rw [vlessNormVal, if_neg (by decide), if_neg (by decide)]
      rw [dlookup_cons_eq]
    rw [e1, hid]
  by_cases hkadd : k = "add"
  · subst hkadd
    have e1 : vlessNormVal (("id", PyVal.str sid) :: ("add", PyVal.str a) ::
        ("port", PyVal.str ⟨natReprL pn⟩) :: ("ps", PyVal.str sps) ::
        ((vless_query_params (normalize_vless_entry r)).map
            (fun kv => (kv.1, PyVal.str (pyStr kv.2)))
          ++ [("_type", PyVal.str "vless")])) "add" = PyVal.str a := by
      rw [vlessNormVal, if_neg (by decide), if_neg (by decide)]
      rw [dlookup_cons_ne "id" _ _ "add" (by decide), dlookup_cons_eq]
    rw [e1, hadd]
  by_cases hkps : k = "ps"
  · subst hkps
    have e1 : vlessNormVal (("id", PyVal.str sid) :: ("add", PyVal.str a) ::
        ("port", PyVal.str ⟨natReprL pn⟩) :: ("ps", PyVal.str sps) ::
        ((vless_query_params (normalize_vless_entry r)).map
            (fun kv => (kv.1, PyVal.str (pyStr kv.2)))
          ++ [("_type", PyVal.str "vless")])) "ps" = PyVal.str sps := by
      rw [vlessNormVal, if_neg (by decide), if_neg (by decide)]
      rw [dlookup_cons_ne "id" _ _ "ps" (by decide), dlookup_cons_ne "add" _ _ "ps" (by decide),
        dlookup_cons_ne "port" _ _ "ps" (by decide), dlookup_cons_eq]
    rw [e1, hps]
  · have hkVQ : k ∈ VLESS_QUERY_PARAMS := by
      refine List.mem_filter.mpr ⟨hk, ?_⟩
      refine decide_eq_true ?_
      intro hmem
      simp only [NON_QUERY_FIELDS, List.mem_cons, List.not_mem_nil, or_false] at hmem
      rcases hmem with h | h | h | h
      · exact hkadd h
      · exact hkp h
      · exact hkid h
      · exact hkps h
    have hlq := dlookup_vqp_norm r k hkVQ
    obtain ⟨s, hvs, hss⟩ := vlessNormVal_str r hr.1 k hka
    by_cases hs0 : s = ""
    · subst hs0
      have hcond : ¬ (pyTruthy (vlessNormVal r k) = true ∧ vlessNormVal r k ≠ PyVal.str "") :=
        fun hcc => hcc.2 hvs
      by_cases hke : k = "encryption"
      · exfalso
        subst hke
        rw [vlessNormVal, if_neg (by decide), if_neg (by decide)] at hvs
        cases hl2 : dlookup r "encryption" with
        | some v =>
          rw [hl2] at hvs
          simp only [] at hvs
          exact hr.2.2.2.2.1 v hl2 hvs
        | none =>
          rw [hl2] at hvs
          exact absurd hvs (by decide)
      by_cases hks : k = "security"
      · exfalso
        subst hks
        rw [vlessNormVal, if_neg (by decide), if_neg (by decide)] at hvs
        cases hl2 : dlookup r "security" with
        | some v =>
          rw [hl2] at hvs
          simp only [] at hvs
          exact hr.2.2.2.2.2.1 v hl2 hvs
        | none =>
          rw [hl2] at hvs
          exact absurd hvs (by decide)
      by_cases hkty : k = "type"
      · exfalso
        subst hkty
        rw [vlessNormVal, if_neg (by decide), if_neg (by decide)] at hvs
        cases hl2 : dlookup r "type" with
        | some v =>
          rw [hl2] at hvs
          simp only [] at hvs
          exact hr.2.2.2.1 v hl2 hvs
        | none =>
          rw [hl2] at hvs
          exact absurd hvs (by decide)
      · have hld : dlookup (("id", PyVal.str sid) :: ("add", PyVal.str a) ::
            ("port", PyVal.str ⟨natReprL pn⟩) :: ("ps", PyVal.str sps) ::
            ((vless_query_params (normalize_vless_entry r)).map
                (fun kv => (kv.1, PyVal.str (pyStr kv.2)))
              ++ [("_type", PyVal.str "vless")])) k = Option.none := by
          rw [dlookup_cons_ne "id" _ _ k (fun h => hkid h.symm),
            dlookup_cons_ne "add" _ _ k (fun h => hkadd h.symm),
            dlookup_cons_ne "port" _ _ k (fun h => hkp h.symm),
            dlookup_cons_ne "ps" _ _ k (fun h => hkps h.symm)]
          rw [dlookup_append, dlookup_map_strPyStr, hlq, if_neg hcond]
          rw [show (match (Option.map (fun v => PyVal.str (pyStr v))
                (Option.none : Option PyVal)) with
              | Option.some v => Option.some v
              | Option.none => dlookup [("_type", PyVal.str "vless")] k)
            = dlookup [("_type", PyVal.str "vless")] k from rfl]
          rw [dlookup_cons_ne "_type" _ _ k (fun h => hkt h.symm)]
          rfl
        have hdf : dlookup DEFAULTS_IF_MISSING_VLESS k = Option.none := by
          simp only [DEFAULTS_IF_MISSING_VLESS, dlookup]
          rw [if_neg (fun h => hke h.symm), if_neg (fun h => hks h.symm),
            if_neg (fun h => hkty h.symm), if_neg (fun h => hka h.symm)]
        rw [vlessNormVal, if_neg hkp, if_neg hka, hld, hdf, hvs]
        rfl
    · have hcond : pyTruthy (vlessNormVal r k) = true ∧ vlessNormVal r k ≠ PyVal.str "" := by
        rw [hvs]
        exact ⟨decide_eq_true hs0, fun h => hs0 ((PyVal.str.injEq s "").mp h)⟩
      have hld : dlookup (("id", PyVal.str sid) :: ("add", PyVal.str a) ::
          ("port", PyVal.str ⟨natReprL pn⟩) :: ("ps", PyVal.str sps) ::
          ((vless_query_params (normalize_vless_entry r)).map
              (fun kv => (kv.1, PyVal.str (pyStr kv.2)))
            ++ [("_type", PyVal.str "vless")])) k = Option.some (PyVal.str s) := by
        rw [dlookup_cons_ne "id" _ _ k (fun h => hkid h.symm),
          dlookup_cons_ne "add" _ _ k (fun h => hkadd h.symm),
          dlookup_cons_ne "port" _ _ k (fun h => hkp h.symm),
          dlookup_cons_ne "ps" _ _ k (fun h => hkps h.symm)]
        rw [dlookup_append, dlookup_map_strPyStr, hlq, if_pos hcond, hvs]
        rfl
      rw [vlessNormVal, if_neg hkp, if_neg hka, hld, hvs]

theorem normalize_parsed_vless (r : PyDict) (hr : SafeVlessRecord r)
    (sid a sps : String) (pn : Nat)
    (hid : vlessNormVal r "id" = PyVal.str sid)
    (hadd : vlessNormVal r "add" = PyVal.str a)
    (hportv : vlessNormVal r "port" = PyVal.str ⟨natReprL pn⟩)
    (hps : vlessNormVal r "ps" = PyVal.str sps) :
    normalize_vless_entry (("id", PyVal.str sid) :: ("add", PyVal.str a) ::
        ("port", PyVal.str ⟨natReprL pn⟩) :: ("ps", PyVal.str sps) ::
        ((vless_query_params (normalize_vless_entry r)).map
            (fun kv => (kv.1, PyVal.str (pyStr kv.2)))
          ++ [("_type", PyVal.str "vless")]))
      = normalize_vless_entry r := by
  nth_rewrite 1 [normalize_vless_char]
  rw [List.map_congr_left (fun k hk => by
    rw [vlessNormVal_parsed r hr sid a sps pn hid hadd hportv hps k hk])]
  exact (normalize_vless_char r).symm

theorem vless_wire_nonspace (idp host pl tail : List Char)
    (hidS : ∀ c ∈ idp, safeChar c = true)
    (hhostS : ∀ c ∈ host, safeChar c = true)
    (hplS : ∀ c ∈ pl, safeChar c = true)
    (htail : ∀ c ∈ tail, safeChar c = true ∨ c = '=' ∨ c = '&' ∨ c = '#') :
    ∀ c ∈ ('v' :: 'l' :: 'e' :: 's' :: 's' :: ':' :: '/' :: '/' ::
      ((idp ++ '@' :: (host ++ ':' :: pl)) ++ '?' :: tail)),
      pySpace c = false := by
  intro c hc
  rcases List.mem_cons.mp hc with h | hc
  · subst h; decide
  rcases List.mem_cons.mp hc with h | hc
  · subst h; decide
  rcases List.mem_cons.mp hc with h | hc
  · subst h; decide
  rcases List.mem_cons.mp hc with h | hc
  · subst h; decide
  rcases List.mem_cons.mp hc with h | hc
  · subst h; decide
  rcases List.mem_cons.mp hc with h | hc
  · subst h; decide
  rcases List.mem_cons.mp hc with h | hc
  · subst h; decide
  rcases List.mem_cons.mp hc with h | hc
  · subst h; decide
  rcases List.mem_append.mp hc with h | hc
  · rcases List.mem_append.mp h with h2 | h2
    · exact safe_not_space c (hidS c h2)
    rcases List.mem_cons.mp h2 with h3 | h2
    · subst h3; decide
    rcases List.mem_append.mp h2 with h3 | h2
    · exact safe_not_space c (hhostS c h3)
    rcases List.mem_cons.mp h2 with h3 | h2
    · subst h3; decide
    · exact safe_not_space c (hplS c h2)
  rcases List.mem_cons.mp hc with h | hc
  · subst h; decide
  · rcases htail c hc with hs | he | ha2 | hh
    · exact safe_not_space c hs
    · subst he; decide
    · subst ha2; decide
    · subst hh; decide

set_option maxHeartbeats 2000000 in
theorem roundtrip_vless_ok (r : PyDict) (hr : SafeVlessRecord r) :
    roundtrip_vless r = Except.ok (normalize_vless_entry r) := by
  obtain ⟨a, hla, hane, haS, halow⟩ := hr.2.1
  obtain ⟨pn, hpn, hlport⟩ := hr.2.2.1
  obtain ⟨sid, hid, hidS⟩ := vlessNormVal_str r hr.1 "id" (by decide)
  obtain ⟨sps, hps, hpsS⟩ := vlessNormVal_str r hr.1 "ps" (by decide)
  have hadd : vlessNormVal r "add" = PyVal.str a := by
    rw [vlessNormVal, if_neg (by decide), if_neg (by decide), hla]
  have hportv : vlessNormVal r "port" = PyVal.str ⟨natReprL pn⟩ := by
    rw [vlessNormVal, if_pos rfl, hlport]
    rfl
  have hgid : getItemD (normalize_vless_entry r) "id" = Except.ok (PyVal.str sid) := by
    rw [getItemD, dlookup_norm_vless r (show ("id" : String) ∈ WANTED_ORDER_VLESS by decide), hid]
  have hgadd : getItemD (normalize_vless_entry r) "add" = Except.ok (PyVal.str a) := by
    rw [getItemD, dlookup_norm_vless r (show ("add" : String) ∈ WANTED_ORDER_VLESS by decide),
      hadd]
  have hgport : getItemD (normalize_vless_entry r) "port"
      = Except.ok (PyVal.str ⟨natReprL pn⟩) := by
    rw [getItemD, dlookup_norm_vless r (show ("port" : String) ∈ WANTED_ORDER_VLESS by decide),
      hportv]
  have hfragv : dget (normalize_vless_entry r) "ps" (PyVal.str "") = PyVal.str sps := by
    rw [dget, dlookup_norm_vless r (show ("ps" : String) ∈ WANTED_ORDER_VLESS by decide), hps]
    rfl
  have hqne2 : vless_query_params (normalize_vless_entry r) ≠ [] := by
    intro h
    exact absurd (vqp_norm_allowInsecure r hr) (by rw [h]; exact List.not_mem_nil _)
  have hqsne : ¬ (urlencode (vless_query_params (normalize_vless_entry r)) = "") := by
    cases hv : vless_query_params (normalize_vless_entry r) with
    | nil => exact absurd hv hqne2
    | cons kv0 rest =>
      exact urlencode_ne_empty kv0 rest
  have halow2 : ∀ c ∈ a.data, ¬ ('A' ≤ c ∧ c ≤ 'Z') := by
    intro c hc
    exact of_decide_eq_true (List.all_eq_true.mp halow c hc)
  have hane2 : a.data ≠ [] := by
    intro h
    apply hane
    cases a with
    | mk d =>
      rw [show String.data ⟨d⟩ = d from rfl] at h
      rw [h]
  have hqprops := vqp_norm_props r hr
  have hqsafe2 : ∀ kv ∈ vless_query_params (normalize_vless_entry r),
      SafeStr kv.1 ∧ SafeStr (pyStr kv.2) :=
    fun kv hkv => ⟨(hqprops kv hkv).1, (hqprops kv hkv).2.2.1⟩
  have hqchars := urlencode_chars _ hqsafe2
  have hq0 : dlookup ((vless_query_params (normalize_vless_entry r)).map
      (fun kv => (kv.1, PyVal.str (pyStr kv.2)))) "_type" = Option.none := by
    rw [dlookup_map_strPyStr]
    rw [show dlookup (vless_query_params (normalize_vless_entry r)) "_type" = Option.none from
      dlookup_vqp_aux (normalize_vless_entry r) VLESS_QUERY_PARAMS "_type" (by decide)]
    rfl
  by_cases hsps0 : sps = ""
  · subst hsps0
    have hENC : encode_vless_url (normalize_vless_entry r)
        = Except.ok ("vless://" ++ (sid ++ "@" ++ a ++ ":" ++ (⟨natReprL pn⟩ : String))
            ++ ("?" ++ urlencode (vless_query_params (normalize_vless_entry r)))) := by
      simp only [encode_vless_url, hgid, hgadd, hgport, hfragv, pbind_ok]
      rw [if_neg hqsne]
      rw [if_neg (show ¬ pyTruthy (PyVal.str "") = true from by decide)]
      rfl
    have hdata : ("vless://" ++ (sid ++ "@" ++ a ++ ":" ++ (⟨natReprL pn⟩ : String))
          ++ ("?" ++ urlencode (vless_query_params (normalize_vless_entry r)))).data
        = 'v' :: 'l' :: 'e' :: 's' :: 's' :: ':' :: '/' :: '/' ::
          ((sid.data ++ '@' :: (a.data ++ ':' :: natReprL pn)) ++ '?' ::
            (urlencode (vless_query_params (normalize_vless_entry r))).data) := by
      simp only [String.data_append]
      simp [List.append_assoc]
    have hline : ("vless://" ++ (sid ++ "@" ++ a ++ ":" ++ (⟨natReprL pn⟩ : String))
          ++ ("?" ++ urlencode (vless_query_params (normalize_vless_entry r))))
        = ⟨'v' :: 'l' :: 'e' :: 's' :: 's' :: ':' :: '/' :: '/' ::
          ((sid.data ++ '@' :: (a.data ++ ':' :: natReprL pn)) ++ '?' ::
            (urlencode (vless_query_params (normalize_vless_entry r))).data)⟩ :=
      String.ext hdata
    rw [hline] at hENC
    have hdec := decode_line_vless
      ⟨'v' :: 'l' :: 'e' :: 's' :: 's' :: ':' :: '/' :: '/' ::
        ((sid.data ++ '@' :: (a.data ++ ':' :: natReprL pn)) ++ '?' ::
          (urlencode (vless_query_params (normalize_vless_entry r))).data)⟩
      ((sid.data ++ '@' :: (a.data ++ ':' :: natReprL pn)) ++ '?' ::
        (urlencode (vless_query_params (normalize_vless_entry r))).data)
      rfl
      (vless_wire_nonspace sid.data a.data (natReprL pn)
        ((urlencode (vless_query_params (normalize_vless_entry r))).data)
        (safeStr_mem hidS) (safeStr_mem haS) (natReprL_safe pn)
        (fun c hc => by
          rcases hqchars c hc with hs | he | ha2
          · exact Or.inl hs
          · exact Or.inr (Or.inl he)
          · exact Or.inr (Or.inr (Or.inl ha2))))
    have hwire := parse_vless_url_wire_nofrag sid.data a.data pn
      (vless_query_params (normalize_vless_entry r))
      (safeStr_mem hidS) (safeStr_mem haS) hane2 hpn hqprops
      (vqp_pairwise _) hqne2 (vqp_norm_keys_nb _)
    rw [map_asciiLower_id a.data halow2] at hwire
    rw [show (⟨sid.data⟩ : String) = sid from rfl,
      show (⟨a.data⟩ : String) = a from rfl] at hwire
    simp only [List.cons_append, List.nil_append] at hwire
    have hnotype : dlookup (("id", PyVal.str sid) :: ("add", PyVal.str a) ::
        ("port", PyVal.str ⟨natReprL pn⟩) :: ("ps", PyVal.str "") ::
        (vless_query_params (normalize_vless_entry r)).map
          (fun kv => (kv.1, PyVal.str (pyStr kv.2)))) "_type" = Option.none := by
      rw [dlookup_cons_ne "id" _ _ "_type" (by decide),
        dlookup_cons_ne "add" _ _ "_type" (by decide),
        dlookup_cons_ne "port" _ _ "_type" (by decide),
        dlookup_cons_ne "ps" _ _ "_type" (by decide), hq0]
    simp only [roundtrip_vless]
    rw [hENC, pbind_ok, hdec, hwire, pbind_ok, ppure]
    rw [dset_of_not_contains _ _ _ hnotype]
    simp only [List.cons_append]
    have hgett : dget (("id", PyVal.str sid) :: ("add", PyVal.str a) ::
        ("port", PyVal.str ⟨natReprL pn⟩) :: ("ps", PyVal.str "") ::
        ((vless_query_params (normalize_vless_entry r)).map
            (fun kv => (kv.1, PyVal.str (pyStr kv.2)))
          ++ [("_type", PyVal.str "vless")])) "_type" PyVal.none = PyVal.str "vless" := by
      rw [dget, dlookup_cons_ne "id" _ _ "_type" (by decide),
        dlookup_cons_ne "add" _ _ "_type" (by decide),
        dlookup_cons_ne "port" _ _ "_type" (by decide),
        dlookup_cons_ne "ps" _ _ "_type" (by decide), dlookup_append, hq0]
      rfl
    unfold normalize_entry
    simp only [pbind_ok, ppure]
    rw [hgett, if_pos rfl]
    rw [normalize_parsed_vless r hr sid a "" pn hid hadd hportv hps]
  · have hENC : encode_vless_url (normalize_vless_entry r)
        = Except.ok ("vless://" ++ (sid ++ "@" ++ a ++ ":" ++ (⟨natReprL pn⟩ : String))
            ++ ("?" ++ urlencode (vless_query_params (normalize_vless_entry r))) ++ "#" ++ sps) := by
      simp only [encode_vless_url, hgid, hgadd, hgport, hfragv, pbind_ok]
      rw [if_neg hqsne]
      rw [if_pos (show pyTruthy (PyVal.str sps) = true from decide_eq_true hsps0)]
      rfl
    have hdata : ("vless://" ++ (sid ++ "@" ++ a ++ ":" ++ (⟨natReprL pn⟩ : String))
          ++ ("?" ++ urlencode (vless_query_params (normalize_vless_entry r))) ++ "#" ++ sps).data
        = 'v' :: 'l' :: 'e' :: 's' :: 's' :: ':' :: '/' :: '/' ::
          ((sid.data ++ '@' :: (a.data ++ ':' :: natReprL pn)) ++ '?' ::
            ((urlencode (vless_query_params (normalize_vless_entry r))).data
              ++ '#' :: sps.data)) := by
      simp only [String.data_append]
      simp [List.append_assoc]
    have hline : ("vless://" ++ (sid ++ "@" ++ a ++ ":" ++ (⟨natReprL pn⟩ : String))
          ++ ("?" ++ urlencode (vless_query_params (normalize_vless_entry r))) ++ "#" ++ sps)
        = ⟨'v' :: 'l' :: 'e' :: 's' :: 's' :: ':' :: '/' :: '/' ::
          ((sid.data ++ '@' :: (a.data ++ ':' :: natReprL pn)) ++ '?' ::
            ((urlencode (vless_query_params (normalize_vless_entry r))).data
              ++ '#' :: sps.data))⟩ :=
      String.ext hdata
    rw [hline] at hENC
    have hdec := decode_line_vless
      ⟨'v' :: 'l' :: 'e' :: 's' :: 's' :: ':' :: '/' :: '/' ::
        ((sid.data ++ '@' :: (a.data ++ ':' :: natReprL pn)) ++ '?' ::
          ((urlencode (vless_query_params (normalize_vless_entry r))).data
            ++ '#' :: sps.data))⟩
      ((sid.data ++ '@' :: (a.data ++ ':' :: natReprL pn)) ++ '?' ::
        ((urlencode (vless_query_params (normalize_vless_entry r))).data
          ++ '#' :: sps.data))
      rfl
      (vless_wire_nonspace sid.data a.data (natReprL pn)
        ((urlencode (vless_query_params (normalize_vless_entry r))).data ++ '#' :: sps.data)
        (safeStr_mem hidS) (safeStr_mem haS) (natReprL_safe pn)
        (fun c hc => by
          rcases List.mem_append.mp hc with h | hc2
          · rcases hqchars c h with hs | he | ha2
            · exact Or.inl hs
            · exact Or.inr (Or.inl he)
            · exact Or.inr (Or.inr (Or.inl ha2))
          rcases List.mem_cons.mp hc2 with h | hc2
          · exact Or.inr (Or.inr (Or.inr h))
          · exact Or.inl (safeStr_mem hpsS c hc2)))
    have hwire := parse_vless_url_wire sid.data a.data pn
      (vless_query_params (normalize_vless_entry r)) sps.data
      (safeStr_mem hidS) (safeStr_mem haS) hane2 hpn hqprops
      (vqp_pairwise _) hqne2 (vqp_norm_keys_nb _) (safeStr_mem hpsS)
    rw [map_asciiLower_id a.data halow2] at hwire
    rw [show (⟨sid.data⟩ : String) = sid from rfl,
      show (⟨a.data⟩ : String) = a from rfl,
      show (⟨sps.data⟩ : String) = sps from rfl] at hwire
    simp only [List.cons_append, List.nil_append] at hwire
    have hnotype : dlookup (("id", PyVal.str sid) :: ("add", PyVal.str a) ::
        ("port", PyVal.str ⟨natReprL pn⟩) :: ("ps", PyVal.str sps) ::
        (vless_query_params (normalize_vless_entry r)).map
          (fun kv => (kv.1, PyVal.str (pyStr kv.2)))) "_type" = Option.none := by
      rw [dlookup_cons_ne "id" _ _ "_type" (by decide),
        dlookup_cons_ne "add" _ _ "_type" (by decide),
        dlookup_cons_ne "port" _ _ "_type" (by decide),
        dlookup_cons_ne "ps" _ _ "_type" (by decide), hq0]
    simp only [roundtrip_vless]
    rw [hENC, pbind_ok, hdec, hwire, pbind_ok, ppure]
    rw [dset_of_not_contains _ _ _ hnotype]
    simp only [List.cons_append]
    have hgett : dget (("id", PyVal.str sid) :: ("add", PyVal.str a) ::
        ("port", PyVal.str ⟨natReprL pn⟩) :: ("ps", PyVal.str sps) ::
        ((vless_query_params (normalize_vless_entry r)).map
            (fun kv => (kv.1, PyVal.str (pyStr kv.2)))
          ++ [("_type", PyVal.str "vless")])) "_type" PyVal.none = PyVal.str "vless" := by
      rw [dget, dlookup_cons_ne "id" _ _ "_type" (by decide),
        dlookup_cons_ne "add" _ _ "_type" (by decide),
        dlookup_cons_ne "port" _ _ "_type" (by decide),
        dlookup_cons_ne "ps" _ _ "_type" (by decide), dlookup_append, hq0]
      rfl
    unfold normalize_entry
    simp only [pbind_ok, ppure]
    rw [hgett, if_pos rfl]
    rw [normalize_parsed_vless r hr sid a sps pn hid hadd hportv hps]

set_option maxRecDepth 100000 in
set_option maxHeartbeats 4000000 in
/-- C1 (counterexample): the unrestricted round-trip claim fails for the
scheme-B record `{add: "h", port: "1", id: "u", allowInsecure: "0"}` (keys
all canonical): its normalized form carries `allowInsecure = 0`, the encoder
drops the falsy query field, and decoding re-injects the default `1`, so
`normalize(decode(encode(normalize(r))))` differs from `normalize(r)`. -/
theorem claim_C1_cex :
    roundtrip_vless c10_record ≠ Except.ok (normalize_vless_entry c10_record) := by
  decide

/-- C1 (amended): the round trip `normalize ∘ decode ∘ encode ∘ normalize`
is the identity on `normalize(r)` for canonical-key records with URL-safe
string values — for scheme B additionally: a nonempty all-lowercase host, a
canonical in-range decimal port, `type`/`encryption`/`security` nonempty when
present, and an `allowInsecure` that coerces to 1 when present (falsy or
case-variant values are flipped or re-encoded, see the counterexample). -/
theorem claim_C1_roundtrip (rA rB : PyDict)
    (hA : SafeVmessRecord rA) (hB : SafeVlessRecord rB) :
    roundtrip_vmess rA = Except.ok (normalize_vmess_entry rA) ∧
    roundtrip_vless rB = Except.ok (normalize_vless_entry rB) :=
  ⟨roundtrip_vmess_ok rA hA, roundtrip_vless_ok rB hB⟩

/-- Witness for C1 at concrete records of both schemes. -/
theorem claim_C1_roundtrip_witness :
    roundtrip_vmess [("add", PyVal.str "h")]
        = Except.ok (normalize_vmess_entry [("add", PyVal.str "h")]) ∧
    roundtrip_vless [("add", PyVal.str "h"), ("port", PyVal.str "1")]
        = Except.ok (normalize_vless_entry
            [("add", PyVal.str "h"), ("port", PyVal.str "1")]) :=
  claim_C1_roundtrip [("add", PyVal.str "h")]
    [("add", PyVal.str "h"), ("port", PyVal.str "1")]
    (fun kv hkv => by
      rw [List.mem_singleton.mp hkv]
      exact ⟨by decide, "h", rfl, by rfl⟩)
    ⟨fun kv hkv => by
      rcases List.mem_cons.mp hkv with h | h
      · rw [h]
        exact ⟨by decide, "h", rfl, by rfl⟩
      · rw [List.mem_singleton.mp h]
        exact ⟨by decide, "1", rfl, by rfl⟩,
     ⟨"h", by decide, by decide, by rfl, by decide⟩,
     ⟨1, by decide, by decide⟩,
     fun v h => Option.noConfusion h,
     fun v h => Option.noConfusion h,
     fun v h => Option.noConfusion h,
     fun v h => Option.noConfusion h⟩
